import Mathlib

/-!
# pdfgen: layout manager, dynamic template generator, renderers and generator

A shallow embedding of

* `pkg/pdf/model/schema.go` (the data model and template validation),
* `pkg/pdf/errors/errors.go` (the error type),
* `pkg/pdf/generator/internal/layout/manager.go` (pagination),
* `pkg/pdf/generator/dynamic/generator.go` (template synthesis from data),
* `pkg/pdf/generator/internal/render/element.go` (the renderers and their registry),
* `pkg/pdf/generator/generator.go` (the generator),
* `Config.Validate` of `pkg/pdf/service/config.go`,

followed by theorems about them.

Modelling conventions.

* Geometry (`float64` coordinates, sizes, margins, the cursor) is carried by
  rational numbers (`ℚ`).  The arithmetic on them is exact, except where the
  result of the code depends on the rounding of `float64`: the layout manager
  is embedded a second time in `layout.rounded`, with every subtraction and
  addition of `positionElement` followed by a rounding, and `float64.round` is
  the rounding of the code (IEEE 754 binary64, round to nearest even).  NaN,
  infinities and overflow are outside these two embeddings.
* `Template.Validate` is embedded over the type that carries the page size:
  over `ℚ`, and over `Float64`, which has NaN and the infinities and the
  comparisons of Go.
* A Go `int` page number is an unbounded `Int`; the page counter only grows by
  one per element, so it cannot wrap for any slice that fits in memory.
* A Go `map[int][]Element` that is only read through indexing is a total
  function returning the empty list at absent keys.
* A Go `interface{}` holding data is a `Value`.  An object carries its entries
  in the order in which `range` visits them in the run under consideration.
* A Go string is a `String`, that is, valid UTF-8.  The upper-case mapping of
  the Unicode tables behind `strings.ToUpper` is a parameter (`CaseTable`),
  fixed on ASCII.
* The drawing library gofpdf is a parameter (`render.Backend`); measuring a
  string may end in a run-time panic.
-/

namespace model

/-- The Go struct `Position`. -/
structure Position where
  X : ℚ
  Y : ℚ
  deriving DecidableEq

/-- The Go struct `Size`, over the type `α` that carries its `float64`
fields. -/
structure SizeOf (α : Type) where
  Width : α
  Height : α
  deriving DecidableEq

/-- The Go struct `Size` in the exact arithmetic of the geometry. -/
abbrev Size := SizeOf ℚ

/-- The Go struct `Bounds`, which embeds `Position` and `Size`. -/
structure Bounds where
  Position : Position
  Size : Size
  deriving DecidableEq

/-- The Go struct `Border`. -/
structure Border where
  Width : ℚ
  Color : String
  Style : String
  deriving DecidableEq

/-- The Go struct `Padding`. -/
structure Padding where
  Top : ℚ
  Right : ℚ
  Bottom : ℚ
  Left : ℚ
  deriving DecidableEq

/-- The Go struct `Style`; `TextAlignment` is a string type. -/
structure Style where
  FontFamily : String
  FontSize : ℚ
  FontColor : String
  Background : String
  Border : Option Border
  Padding : Option Padding
  Alignment : String
  deriving DecidableEq

/-- A `float64` with its special values: a finite value
`(-1)^neg * mant * 2^exp`, an infinity, or NaN.  It carries the numbers in the
data and the page size that `Template.Validate` tests. -/
inductive Float64 where
  | finite (neg : Bool) (mant : Nat) (exp : Int)
  | inf (neg : Bool)
  | nan
  deriving DecidableEq

/-- What an `interface{}` can hold.  `float64` carries, next to the number, the
text that `%v` prints for it (strconv's shortest round-trip form, which is
library code); `other` is a value of any further dynamic type, carried as its
type name and the text that `%v` prints for it. -/
inductive Value where
  | null
  | bool (b : Bool)
  | str (s : String)
  | int (i : Int)
  | float64 (x : Float64) (natural : String)
  | array (items : List Value)
  | object (entries : List (String × Value))
  | other (typeName : String) (natural : String)

/-- The Go struct `Element`; `ElementType` is a string type and the field
`Type` is named `Typ` here. -/
structure Element where
  ID : String
  Typ : String
  Bounds : Bounds
  Content : Value
  Style : Option Style
  Metadata : List (Fin 256)

/-- The Go struct `Template`, over the type `α` that carries the `float64`
fields of its page size. -/
structure TemplateOf (α : Type) where
  Name : String
  Version : String
  Size : SizeOf α
  Elements : List Element
  Schema : Option (List (String × Value))

/-- The Go struct `Template` in the exact arithmetic of the geometry. -/
abbrev Template := TemplateOf ℚ

/-- The exact value of the finite `float64` `(-1)^neg * mant * 2^exp`. -/
def Float64.value (neg : Bool) (mant : Nat) (exp : Int) : ℚ :=
  (if neg then -1 else 1) * (mant : ℚ) * (2 : ℚ) ^ exp

/-- The comparison `x <= y` of two `float64` in Go (IEEE 754): false whenever
an operand is NaN. -/
def Float64.le : Float64 → Float64 → Bool
  | .nan, _ => false
  | _, .nan => false
  | .inf true, _ => true
  | _, .inf false => true
  | .inf false, _ => false
  | _, .inf true => false
  | .finite n1 m1 e1, .finite n2 m2 e2 => decide (Float64.value n1 m1 e1 ≤ Float64.value n2 m2 e2)

/-- The comparison `x < y` of two `float64` in Go (IEEE 754): false whenever
an operand is NaN. -/
def Float64.lt : Float64 → Float64 → Bool
  | .nan, _ => false
  | _, .nan => false
  | .inf false, _ => false
  | _, .inf true => false
  | .inf true, _ => true
  | _, .inf false => true
  | .finite n1 m1 e1, .finite n2 m2 e2 => decide (Float64.value n1 m1 e1 < Float64.value n2 m2 e2)

/-- The order `<=` of Go on `float64`. -/
instance Float64.instLE : LE Float64 := ⟨fun x y => Float64.le x y = true⟩

/-- The order `<` of Go on `float64`. -/
instance Float64.instLT : LT Float64 := ⟨fun x y => Float64.lt x y = true⟩

/-- The `float64` constant `0`. -/
instance Float64.instZero : OfNat Float64 0 := ⟨.finite false 0 0⟩

/-- `<=` on `float64` is computed by `Float64.le`. -/
instance Float64.decidableLE (x y : Float64) : Decidable (x ≤ y) :=
  inferInstanceAs (Decidable (Float64.le x y = true))

/-- `<` on `float64` is computed by `Float64.lt`. -/
instance Float64.decidableLT (x y : Float64) : Decidable (x < y) :=
  inferInstanceAs (Decidable (Float64.lt x y = true))

/-- The constant `ElementTypeText`. -/
def ElementTypeText : String := "text"

/-- The constant `AlignCenter`. -/
def AlignCenter : String := "center"

end model

namespace layout

open model

/-- The Go struct `Manager`. -/
structure Manager where
  pageSize : Size
  margins : Padding
  currentPage : Int
  currentY : ℚ
  elements : List Element
  pageElements : Int → List Element

/-- `NewManager`. -/
def NewManager (pageSize : Size) (margins : Padding) : Manager :=
  { pageSize := pageSize
    margins := margins
    currentPage := 1
    currentY := margins.Top
    elements := []
    pageElements := fun _ => [] }

/-- `Manager.startNewPage`. -/
def startNewPage (m : Manager) : Manager :=
  { m with currentPage := m.currentPage + 1, currentY := m.margins.Top }

/-- The element as `positionElement` stores it: `Bounds.X` and `Bounds.Y`
assigned, everything else untouched. -/
def setPosition (element : Element) (x y : ℚ) : Element :=
  { element with Bounds := { element.Bounds with Position := { X := x, Y := y } } }

/-- `Manager.positionElement`: the manager after the call and the returned
error (`none` for Go's `nil`). -/
def positionElement (m : Manager) (element : Element) : Manager × Option String :=
  let availableHeight := m.pageSize.Height - m.currentY - m.margins.Bottom
  let m1 := if element.Bounds.Size.Height > availableHeight then startNewPage m else m
  let element1 := setPosition element m1.margins.Left m1.currentY
  let m2 := { m1 with currentY := m1.currentY + element1.Bounds.Size.Height }
  let m3 := { m2 with
    pageElements := fun p =>
      if p = m2.currentPage then m2.pageElements m2.currentPage ++ [element1]
      else m2.pageElements p }
  (m3, none)

/-- The `for _, element := range elements` loop of `CalculateLayout`. -/
def layoutLoop : Manager → List Element → Manager × Option String
  | m, [] => (m, none)
  | m, element :: rest =>
    match positionElement m element with
    | (m1, some err) => (m1, some ("failed to position element: " ++ err))
    | (m1, none) => layoutLoop m1 rest

/-- `Manager.CalculateLayout`. -/
def CalculateLayout (m : Manager) (elements : List Element) : Manager × Option String :=
  layoutLoop { m with elements := elements } elements

/-- `Manager.GetPageElements`. -/
def GetPageElements (m : Manager) (page : Int) : List Element :=
  m.pageElements page

/-- `Manager.TotalPages`. -/
def TotalPages (m : Manager) : Int :=
  m.currentPage

end layout

namespace float64

/-- The rational `x` rounded to the nearest integer, a tie to the even one. -/
def roundHalfEven (x : ℚ) : Int :=
  if x - Int.floor x < 1 / 2 then Int.floor x
  else if 1 / 2 < x - Int.floor x then Int.floor x + 1
  else if Int.floor x % 2 = 0 then Int.floor x else Int.floor x + 1

/-- The number of binary digits of `n` (none for 0), counted by halving `n`
at most `fuel` times; with `n` for the fuel the count is complete. -/
def bitLength : Nat → Nat → Nat
  | 0, _ => 0
  | fuel + 1, n => if n = 0 then 0 else bitLength fuel (n / 2) + 1

/-- The binary exponent of a positive rational `a`, the integer `e` with
`2^e <= a < 2^(e+1)`: the difference of the bit lengths of the numerator and
the denominator, or one less. -/
def binExp (a : ℚ) : Int :=
  if (2 : ℚ) ^ ((bitLength a.num.natAbs a.num.natAbs : Int) - (bitLength a.den a.den : Int)) ≤ a
  then (bitLength a.num.natAbs a.num.natAbs : Int) - (bitLength a.den a.den : Int)
  else (bitLength a.num.natAbs a.num.natAbs : Int) - (bitLength a.den a.den : Int) - 1

/-- The exponent `q` of the spacing `2^q` of the `float64` numbers at the
magnitude `a`: 52 below the binary exponent of `a`, and `-1074` in the
subnormal range. -/
def ulpExp (a : ℚ) : Int :=
  max (binExp a - 52) (-1074)

/-- The `float64` that an arithmetic operation of Go returns for the exact
result `x`: the nearest multiple of the spacing at the magnitude of `x`, a tie
to the one with an even significand (IEEE 754 round to nearest even).  Exact
results beyond the largest `float64`, which Go turns into an infinity, are not
represented. -/
def round (x : ℚ) : ℚ :=
  (roundHalfEven (x / (2 : ℚ) ^ ulpExp |x|) : ℚ) * (2 : ℚ) ^ ulpExp |x|

end float64

namespace layout.rounded

open model layout

/-- `Manager.positionElement` in rounded arithmetic: the exact result of each
of the two subtractions and of the addition is replaced by `fl` of it.  With
`float64.round` for `fl` this is the arithmetic of the code on finite values;
with the identity it is `layout.positionElement`. -/
def positionElement (fl : ℚ → ℚ) (m : Manager) (element : Element) : Manager × Option String :=
  let availableHeight := fl (fl (m.pageSize.Height - m.currentY) - m.margins.Bottom)
  let m1 := if element.Bounds.Size.Height > availableHeight then startNewPage m else m
  let element1 := setPosition element m1.margins.Left m1.currentY
  let m2 := { m1 with currentY := fl (m1.currentY + element1.Bounds.Size.Height) }
  let m3 := { m2 with
    pageElements := fun p =>
      if p = m2.currentPage then m2.pageElements m2.currentPage ++ [element1]
      else m2.pageElements p }
  (m3, none)

/-- The `for _, element := range elements` loop of `CalculateLayout` in
rounded arithmetic. -/
def layoutLoop (fl : ℚ → ℚ) : Manager → List Element → Manager × Option String
  | m, [] => (m, none)
  | m, element :: rest =>
    match positionElement fl m element with
    | (m1, some err) => (m1, some ("failed to position element: " ++ err))
    | (m1, none) => layoutLoop fl m1 rest

/-- `Manager.CalculateLayout` in rounded arithmetic. -/
def CalculateLayout (fl : ℚ → ℚ) (m : Manager) (elements : List Element) :
    Manager × Option String :=
  layoutLoop fl { m with elements := elements } elements

end layout.rounded

namespace gofmt

open model

/-- `fmt.Sprintf("%d", v)` for an `int`. -/
def fmtInt (i : Int) : String :=
  toString i

/-- `fmt.Sprintf("%v", v)` for a `bool`. -/
def fmtBool (b : Bool) : String :=
  if b then "true" else "false"

/-- The quotient `n / d` rounded to the nearest natural number, ties to even. -/
def roundHalfEven (n d : Nat) : Nat :=
  let q := n / d
  let r := n % d
  if 2 * r < d then q
  else if d < 2 * r then q + 1
  else if q % 2 = 0 then q else q + 1

/-- `fmt.Sprintf("%.2f", v)` for a `float64`: the exact value rounded to two
decimals (ties to even), with the sign of the number; `NaN`, `+Inf` and `-Inf`
for the values that are not finite. -/
def fmtFixed2 : Float64 → String
  | .nan => "NaN"
  | .inf false => "+Inf"
  | .inf true => "-Inf"
  | .finite neg mant exp =>
    let r := roundHalfEven (mant * 100 * 2 ^ exp.toNat) (2 ^ (-exp).toNat)
    (if neg then "-" else "") ++ toString (r / 100) ++ "." ++
      String.mk [Nat.digitChar (r / 10 % 10), Nat.digitChar (r % 10)]

mutual
/-- `fmt.Sprintf("%v", v)` for an `interface{}`: `<nil>` for nil, a slice as
`[a b c]`, a map as `map[k:v ...]` with its keys sorted. -/
def fmtV : Value → String
  | .null => "<nil>"
  | .bool b => fmtBool b
  | .str s => s
  | .int i => fmtInt i
  | .float64 _ natural => natural
  | .array items => "[" ++ " ".intercalate (fmtVItems items) ++ "]"
  | .object entries =>
    "map[" ++ " ".intercalate
      (((fmtVEntries entries).insertionSort (fun a b => ¬ b.1 < a.1)).map
        (fun kv => kv.1 ++ ":" ++ kv.2)) ++ "]"
  | .other _ natural => natural
/-- The `%v` texts of the items of a slice. -/
def fmtVItems : List Value → List String
  | [] => []
  | v :: rest => fmtV v :: fmtVItems rest
/-- The keys of a map with the `%v` texts of their values. -/
def fmtVEntries : List (String × Value) → List (String × String)
  | [] => []
  | (k, v) :: rest => (k, fmtV v) :: fmtVEntries rest
end

/-- The mapping `unicode.ToUpper` of Go's Unicode tables, which is library
code: what it answers for a character is taken as given, except on ASCII,
where it turns the letters `a` to `z` into `A` to `Z` and leaves every other
character as it is. -/
structure CaseTable where
  toUpper : Char → Char
  ascii : ∀ c : Char, c.toNat < 128 → toUpper c = c.toUpper

/-- `strings.ToUpper` on a string that is valid UTF-8: every character is
mapped through `unicode.ToUpper`. -/
def ToUpper (U : CaseTable) (s : String) : String :=
  String.mk (s.data.map U.toUpper)

end gofmt

namespace dynamic

open model gofmt

/-- The Go struct `dynamic.Generator`. -/
structure Generator where
  lineHeight : ℚ
  margins : Padding
  fontSize : ℚ

/-- `NewGenerator`. -/
def NewGenerator : Generator :=
  { lineHeight := 8
    margins := { Top := 20, Right := 20, Bottom := 20, Left := 20 }
    fontSize := 12 }

/-- `Generator.formatValue`. -/
def formatValue (_g : Generator) : Value → String
  | .str v => v
  | .float64 v _ => fmtFixed2 v
  | .int v => fmtInt v
  | .bool v => fmtBool v
  | .null => "N/A"
  | v => fmtV v

/-- `Generator.createSectionHeader`, with `*currentY` passed by value. -/
def createSectionHeader (U : CaseTable) (g : Generator) (title : String) (currentY : ℚ) :
    Element :=
  { ID := "header-" ++ title
    Typ := "text"
    Bounds :=
      { Position := { X := g.margins.Left, Y := currentY }
        Size := { Width := 210 - g.margins.Left - g.margins.Right
                  Height := g.lineHeight * (3 / 2) } }
    Content := .str (ToUpper U title)
    Style := some
      { FontFamily := "Arial"
        FontSize := 14
        FontColor := "#333333"
        Background := "#f5f5f5"
        Border := none
        Padding := some { Left := 5, Top := 2, Bottom := 2, Right := 5 }
        Alignment := "" }
    Metadata := [] }

/-- `Generator.createValueElement`, with `*currentY` passed by value. -/
def createValueElement (g : Generator) (key : String) (value : Value) (currentY : ℚ) :
    Element :=
  let formattedValue := formatValue g value
  { ID := "field-" ++ key
    Typ := "text"
    Bounds :=
      { Position := { X := g.margins.Left, Y := currentY }
        Size := { Width := 210 - g.margins.Left - g.margins.Right
                  Height := g.lineHeight } }
    Content := .str (key ++ ": " ++ formattedValue)
    Style := some
      { FontFamily := "Arial"
        FontSize := g.fontSize
        FontColor := "#000000"
        Background := ""
        Border := none
        Padding := none
        Alignment := "" }
    Metadata := [] }

/-- The body of the `for _, item := range items` loop of `createArrayElement`:
the text that one item adds to the builder. -/
def arrayItemText (g : Generator) : Value → String
  | .object v =>
    "-" ++ (" " ++ ", ".intercalate (v.map (fun kv => kv.1 ++ ": " ++ fmtV kv.2)) ++ "\n")
  | item => "- " ++ formatValue g item ++ "\n"

/-- `Generator.createArrayElement`, with `*currentY` passed by value. -/
def createArrayElement (g : Generator) (key : String) (items : List Value) (currentY : ℚ) :
    Element :=
  let content := (items.map (arrayItemText g)).foldl (fun acc s => acc ++ s) (key ++ ":\n")
  { ID := "array-" ++ key
    Typ := "text"
    Bounds :=
      { Position := { X := g.margins.Left, Y := currentY }
        Size := { Width := 210 - g.margins.Left - g.margins.Right
                  Height := g.lineHeight * ((items.length + 1 : Nat) : ℚ) } }
    Content := .str content
    Style := some
      { FontFamily := "Arial"
        FontSize := g.fontSize
        FontColor := "#000000"
        Background := ""
        Border := none
        Padding := none
        Alignment := "" }
    Metadata := [] }

mutual
/-- `Generator.processData`: the elements returned and the value left in
`*currentY`. -/
def processData (U : CaseTable) (g : Generator) : Value → String → ℚ → List Element × ℚ
  | .object v, pfx, currentY =>
    let head := if pfx ≠ "" then [createSectionHeader U g pfx currentY] else []
    let y0 := if pfx ≠ "" then currentY + g.lineHeight * (3 / 2) else currentY
    let body := processEntries U g v pfx y0
    (head ++ body.1, body.2)
  | .array v, pfx, currentY =>
    ([createArrayElement g pfx v currentY],
      currentY + (g.lineHeight * (v.length : ℚ) + g.lineHeight))
  | v, pfx, currentY =>
    ([createValueElement g pfx v currentY], currentY + g.lineHeight)
/-- The `for key, value := range v` loop of `processData` over the entries in
the order of this run. -/
def processEntries (U : CaseTable) (g : Generator) :
    List (String × Value) → String → ℚ → List Element × ℚ
  | [], _, currentY => ([], currentY)
  | (key, value) :: rest, pfx, currentY =>
    let fieldName := if pfx ≠ "" then pfx ++ "." ++ key else key
    let first := processData U g value fieldName currentY
    let more := processEntries U g rest pfx first.2
    (first.1 ++ more.1, more.2)
end

/-- `Generator.GenerateTemplate`. -/
def GenerateTemplate (U : CaseTable) (g : Generator) (data : Value) : Template :=
  let currentY := g.margins.Top
  let title : Element :=
    { ID := "title"
      Typ := "text"
      Bounds :=
        { Position := { X := g.margins.Left, Y := currentY }
          Size := { Width := 210 - g.margins.Left - g.margins.Right
                    Height := g.lineHeight * 2 } }
      Content := .str "Data Report"
      Style := some
        { FontFamily := "Arial"
          FontSize := 24
          FontColor := "#000000"
          Background := ""
          Border := none
          Padding := none
          Alignment := "center" }
      Metadata := [] }
  let currentY1 := currentY + g.lineHeight * 3
  { Name := "Dynamic Template"
    Version := "1.0"
    Size := { Width := 210, Height := 297 }
    Elements := [title] ++ (processData U g data "" currentY1).1
    Schema := none }

end dynamic

namespace generator

open model layout

/-- The margins that `generator.New` gives its layout manager. -/
def defaultMargins : Padding :=
  { Top := 10, Right := 10, Bottom := 10, Left := 10 }

end generator

/-! ## Auxiliary definitions for the proofs about the layout manager -/

namespace layout

open model

/-- The manager after `positionElement`. -/
def step (m : Manager) (e : Element) : Manager := (positionElement m e).1

/-- The manager after the loop of `CalculateLayout`. -/
def run (m : Manager) (els : List Element) : Manager := (layoutLoop m els).1

/-- Pages `1 .. n` of a page table, concatenated. -/
def pagesUpTo (pe : Int → List Element) : Nat → List Element
  | 0 => []
  | n + 1 => pagesUpTo pe n ++ pe ((n : Int) + 1)

/-- The page on which `positionElement` puts an element. -/
def targetPage (m : Manager) (e : Element) : Int :=
  if e.Bounds.Size.Height > m.pageSize.Height - m.currentY - m.margins.Bottom
  then m.currentPage + 1 else m.currentPage

/-- The cursor at which `positionElement` puts an element. -/
def targetY (m : Manager) (e : Element) : ℚ :=
  if e.Bounds.Size.Height > m.pageSize.Height - m.currentY - m.margins.Bottom
  then m.margins.Top else m.currentY

/-- State invariant: the page counter is at least one and no page outside
`1 .. currentPage` holds an element. -/
structure Inv (m : Manager) : Prop where
  one_le : 1 ≤ m.currentPage
  outside : ∀ p : Int, p < 1 ∨ m.currentPage < p → m.pageElements p = []

/-- Two elements that agree in every field except the position. -/
def SameButPosition (a b : Element) : Prop :=
  a.ID = b.ID ∧ a.Typ = b.Typ ∧ a.Bounds.Size = b.Bounds.Size ∧ a.Content = b.Content ∧
    a.Style = b.Style ∧ a.Metadata = b.Metadata

/-- The heights of a list of elements, added up. -/
def sumHeights (l : List Element) : ℚ :=
  (l.map (fun e => e.Bounds.Size.Height)).sum

/-- A list of elements stacked from `y` downwards at abscissa `x`: each element
starts where the one before it ends. -/
def Stacked (x : ℚ) : ℚ → List Element → Prop
  | _, [] => True
  | y, e :: rest =>
    e.Bounds.Position.X = x ∧ e.Bounds.Position.Y = y ∧
      Stacked x (y + e.Bounds.Size.Height) rest

/-- State invariant: every page is stacked from the top margin, and the cursor
is at the end of the current page. -/
structure StackInv (m : Manager) : Prop where
  inv : Inv m
  stacked : ∀ p : Int, Stacked m.margins.Left m.margins.Top (m.pageElements p)
  cursor : m.currentY = m.margins.Top + sumHeights (m.pageElements m.currentPage)

/-- State invariant for pages with non-negative heights: the cursor is not
above the top margin, and every stored element that fits the page body lies
inside the page body. -/
structure BodyInv (m : Manager) : Prop where
  cursor_ge : m.margins.Top ≤ m.currentY
  inside : ∀ p : Int, ∀ e ∈ m.pageElements p,
    e.Bounds.Size.Height ≤ m.pageSize.Height - m.margins.Top - m.margins.Bottom →
      m.margins.Top ≤ e.Bounds.Position.Y ∧
        e.Bounds.Position.Y + e.Bounds.Size.Height ≤ m.pageSize.Height - m.margins.Bottom

/-- Two managers that agree in everything but the stored input slice. -/
def SameLayout (a b : Manager) : Prop :=
  a.pageSize = b.pageSize ∧ a.margins = b.margins ∧ a.currentPage = b.currentPage ∧
    a.currentY = b.currentY ∧ a.pageElements = b.pageElements

/-- A text element of the given height, not yet positioned. -/
def sampleElement (id : String) (height : ℚ) : Element :=
  { ID := id
    Typ := "text"
    Bounds := { Position := { X := 0, Y := 0 }, Size := { Width := 80, Height := height } }
    Content := .str id
    Style := none
    Metadata := [] }

/-- A 100 x 100 page. -/
def samplePage : Size := { Width := 100, Height := 100 }

/-- Margins of 10 on every side. -/
def sampleMargins : Padding := { Top := 10, Right := 10, Bottom := 10, Left := 10 }

end layout

namespace layout.rounded

open model layout

/-- The manager after `positionElement` in rounded arithmetic. -/
def step (fl : ℚ → ℚ) (m : Manager) (e : Element) : Manager := (positionElement fl m e).1

/-- The manager after the loop of `CalculateLayout` in rounded arithmetic. -/
def run (fl : ℚ → ℚ) (m : Manager) (els : List Element) : Manager := (layoutLoop fl m els).1

/-- The available height that `positionElement` computes in rounded
arithmetic. -/
def available (fl : ℚ → ℚ) (m : Manager) : ℚ :=
  fl (fl (m.pageSize.Height - m.currentY) - m.margins.Bottom)

/-- The page on which `positionElement` puts an element in rounded arithmetic. -/
def targetPage (fl : ℚ → ℚ) (m : Manager) (e : Element) : Int :=
  if e.Bounds.Size.Height > available fl m then m.currentPage + 1 else m.currentPage

/-- The cursor at which `positionElement` puts an element in rounded
arithmetic. -/
def targetY (fl : ℚ → ℚ) (m : Manager) (e : Element) : ℚ :=
  if e.Bounds.Size.Height > available fl m then m.margins.Top else m.currentY

/-- A list of elements stacked from `y` downwards at abscissa `x` in rounded
arithmetic: each element starts at the rounded sum of the start and the height
of the one before it. -/
def Stacked (fl : ℚ → ℚ) (x : ℚ) : ℚ → List Element → Prop
  | _, [] => True
  | y, e :: rest =>
    e.Bounds.Position.X = x ∧ e.Bounds.Position.Y = y ∧
      Stacked fl x (fl (y + e.Bounds.Size.Height)) rest

/-- The cursor below a list of elements stacked from `y` in rounded
arithmetic. -/
def cursorBelow (fl : ℚ → ℚ) : ℚ → List Element → ℚ
  | y, [] => y
  | y, e :: rest => cursorBelow fl (fl (y + e.Bounds.Size.Height)) rest

/-- State invariant in rounded arithmetic: every page is stacked from the top
margin, and the cursor is below the current page. -/
structure StackInv (fl : ℚ → ℚ) (m : Manager) : Prop where
  inv : Inv m
  stacked : ∀ p : Int, Stacked fl m.margins.Left m.margins.Top (m.pageElements p)
  cursor : m.currentY = cursorBelow fl m.margins.Top (m.pageElements m.currentPage)

/-- None of the three operations that `positionElement` performs on this state
and element is rounded: `fl` returns the exact difference, the exact second
difference and the exact sum. -/
def ExactStep (fl : ℚ → ℚ) (m : Manager) (e : Element) : Prop :=
  fl (m.pageSize.Height - m.currentY) = m.pageSize.Height - m.currentY ∧
  fl (fl (m.pageSize.Height - m.currentY) - m.margins.Bottom) =
    fl (m.pageSize.Height - m.currentY) - m.margins.Bottom ∧
  fl (targetY fl m e + e.Bounds.Size.Height) = targetY fl m e + e.Bounds.Size.Height

/-- `ExactStep` is checked by computing the three operations. -/
instance decidableExactStep (fl : ℚ → ℚ) (m : Manager) (e : Element) :
    Decidable (ExactStep fl m e) := by
  unfold ExactStep
  infer_instance

/-- No operation of the run of `CalculateLayout` over these elements, started
in this state, is rounded. -/
def ExactRun (fl : ℚ → ℚ) : Manager → List Element → Prop
  | _, [] => True
  | m, e :: rest => ExactStep fl m e ∧ ExactRun fl (step fl m e) rest

/-- A whole number from 0 to `bound`. -/
def WholeUpTo (bound : Int) (x : ℚ) : Prop :=
  ∃ n : Int, x = (n : ℚ) ∧ 0 ≤ n ∧ n ≤ bound

/-- `ExactRun` is checked by running the loop. -/
instance decidableExactRun (fl : ℚ → ℚ) : ∀ (m : Manager) (els : List Element),
    Decidable (ExactRun fl m els)
  | _, [] => isTrue trivial
  | m, e :: rest =>
    have := decidableExactRun fl (step fl m e) rest
    inferInstanceAs (Decidable (ExactStep fl m e ∧ ExactRun fl (step fl m e) rest))

end layout.rounded

namespace layout

open model

/-- A page of width and height 1. -/
def unitPage : Size := { Width := 1, Height := 1 }

/-- The `float64` nearest to 0.3, the value of the Go constant `0.3`. -/
def f03 : ℚ := float64.round (3 / 10)

/-- The `float64` nearest to 0.2. -/
def f02 : ℚ := float64.round (2 / 10)

/-- The `float64` nearest to 0.1. -/
def f01 : ℚ := float64.round (1 / 10)

/-- The `float64` nearest to 0.4. -/
def f04 : ℚ := float64.round (4 / 10)

/-- The `float64` nearest to 0.8. -/
def f08 : ℚ := float64.round (8 / 10)

/-- The `float64` nearest to 2.1. -/
def f21 : ℚ := float64.round (21 / 10)

/-- Margins of 0.3 at the top and 0.2 at the bottom. -/
def marginsTopBottom : Padding := { Top := f03, Right := 0, Bottom := f02, Left := 0 }

/-- A page of height 2^53 + 2. -/
def tallPage : Size := { Width := 1, Height := 2 ^ 53 + 2 }

/-- A margin of 2^53 at the top and of 1 at the bottom. -/
def marginsTopLarge : Padding := { Top := 2 ^ 53, Right := 0, Bottom := 1, Left := 0 }

/-- A page of width and height 3. -/
def threePage : Size := { Width := 3, Height := 3 }

/-- A margin of 0.1 at the bottom only. -/
def marginBottomTenth : Padding := { Top := 0, Right := 0, Bottom := f01, Left := 0 }

/-- A margin of 0.3 at the bottom only. -/
def marginBottomThreeTenths : Padding := { Top := 0, Right := 0, Bottom := f03, Left := 0 }

end layout

/-! ## Auxiliary definitions and sample data for the proofs about template synthesis -/

namespace dynamic

open model gofmt layout

/-- The case table that maps the ASCII letters and leaves every other
character as it is; on ASCII text every case table agrees with it. -/
def asciiCase : CaseTable :=
  { toUpper := Char.toUpper, ascii := fun _ _ => rfl }

/-- A case table that, outside ASCII, maps `é` to `É` (as Go's tables do) and
leaves every other character as it is. -/
def latinCase : CaseTable :=
  { toUpper := fun c => if c = 'é' then 'É' else c.toUpper
    ascii := fun c h => by
      have hne : c ≠ 'é' := by
        intro hc
        rw [hc] at h
        exact absurd h (by decide)
      simp [hne] }

/-- The object `{"customer": {"name": "John"}}`. -/
def customerData : Value :=
  .object [("customer", .object [("name", .str "John")])]

end dynamic

namespace gofmt

open model

/-- A string without a line break. -/
def NoBreak (s : String) : Prop := '\n' ∉ s.data

/-- `NoBreak` can be checked by running through the characters. -/
instance decidableNoBreak (s : String) : Decidable (NoBreak s) :=
  inferInstanceAs (Decidable ('\n' ∉ s.data))

mutual
/-- No string inside the value (string values, object keys, carried `%v`
texts) contains a line break. -/
def noLineBreak : Value → Bool
  | .str s => decide ('\n' ∉ s.data)
  | .float64 _ natural => decide ('\n' ∉ natural.data)
  | .other _ natural => decide ('\n' ∉ natural.data)
  | .array items => noLineBreakItems items
  | .object entries => noLineBreakEntries entries
  | _ => true
/-- `noLineBreak` for every item of a slice. -/
def noLineBreakItems : List Value → Bool
  | [] => true
  | v :: rest => noLineBreak v && noLineBreakItems rest
/-- `noLineBreak` for every key and value of a map. -/
def noLineBreakEntries : List (String × Value) → Bool
  | [] => true
  | (k, v) :: rest => decide ('\n' ∉ k.data) && noLineBreak v && noLineBreakEntries rest
end

end gofmt

namespace dynamic

open model gofmt layout

/-- The `float64` nearest to 29.99, which is `0x1DFD70A3D70A3D * 2^(-48)`. -/
def float2999 : Float64 := .finite false 0x1DFD70A3D70A3D (-48)

/-- The `float64` 3.0. -/
def float3 : Float64 := .finite false 3 0

/-- A string, number, boolean or null. -/
def isScalar : Value → Bool
  | .null => true
  | .bool _ => true
  | .str _ => true
  | .int _ => true
  | .float64 _ _ => true
  | _ => false

/-- The line that one item adds to an array block, without its line break. -/
def arrayItemLine (g : Generator) : Value → String
  | .object v => "- " ++ ", ".intercalate (v.map (fun kv => kv.1 ++ ": " ++ fmtV kv.2))
  | item => "- " ++ formatValue g item

/-- Three array items: a string, an object with a null value, a nested array. -/
def sampleItems : List Value :=
  [.str "x", .object [("a", .null)], .array [.int 1, .int 2]]

/-- The map `{"a": 1, "b": 2}` visited in the order a, b. -/
def twoKeysAB : Value := .object [("a", .int 1), ("b", .int 2)]

/-- The same map visited in the order b, a. -/
def twoKeysBA : Value := .object [("b", .int 2), ("a", .int 1)]

/-- The object `{"items": [null], "total": 3}` visited in the order items, total. -/
def itemsThenTotal : Value := .object [("items", .array [.null]), ("total", .int 3)]

end dynamic

/-! ## Errors, template validation, the renderers and the generator

* `pkg/pdf/errors/errors.go`,
* `Template.Validate` and `Template.ValidateData` of `pkg/pdf/model/schema.go`,
* `pkg/pdf/generator/internal/render/element.go`,
* `pkg/pdf/generator/generator.go`.

A renderer may return nil, return an error, or panic; the drawing backend is
the list of calls it has received. -/

namespace errors

/-- `ErrInvalidTemplate`, the first `ErrorCode` (`iota + 1`). -/
def ErrInvalidTemplate : Int := 1

/-- `ErrInvalidData`. -/
def ErrInvalidData : Int := 2

/-- `ErrRenderFailed`. -/
def ErrRenderFailed : Int := 3

/-- `ErrLayoutFailed`. -/
def ErrLayoutFailed : Int := 4

/-- `ErrGenerationFailed`. -/
def ErrGenerationFailed : Int := 5

/-- The Go struct `PDFError`; the cause, an `error`, is carried as its text. -/
structure PDFError where
  Code : Int
  Message : String
  Cause : Option String
  deriving DecidableEq

/-- `NewPDFError`. -/
def NewPDFError (code : Int) (message : String) (cause : Option String) : PDFError :=
  { Code := code, Message := message, Cause := cause }

/-- `PDFError.Error`. -/
def PDFError.Error (e : PDFError) : String :=
  match e.Cause with
  | some cause => e.Message ++ ": " ++ cause
  | none => e.Message

end errors

namespace model

open errors

/-- `Template.Validate`: the template after the call (the method writes to no
field) and the returned error.  The two comparisons are those of the type that
carries the page size: of `ℚ` in the exact arithmetic of the geometry, and of
`Float64`, where a NaN makes them false. -/
def Validate {α : Type} [LE α] [OfNat α 0] [∀ a b : α, Decidable (a ≤ b)] (t : TemplateOf α) :
    TemplateOf α × Option PDFError :=
  if t.Name = "" then
    (t, some (NewPDFError ErrInvalidTemplate "template name is required" none))
  else if t.Size.Width ≤ 0 ∨ t.Size.Height ≤ 0 then
    (t, some (NewPDFError ErrInvalidTemplate "invalid template size" none))
  else if t.Elements.length = 0 then
    (t, some (NewPDFError ErrInvalidTemplate "template must contain at least one element" none))
  else
    (t, none)

/-- `Template.ValidateData`. -/
def ValidateData (t : Template) (_data : Value) : Option PDFError :=
  match t.Schema with
  | none => none
  | some _ => none

/-- The constant `ElementTypeTable`. -/
def ElementTypeTable : String := "table"

/-- The constant `ElementTypeImage`. -/
def ElementTypeImage : String := "image"

/-- The constant `ElementTypeBarcode`. -/
def ElementTypeBarcode : String := "barcode"

/-- The constant `ElementTypeForm`. -/
def ElementTypeForm : String := "form"

/-- The constant `AlignLeft`. -/
def AlignLeft : String := "left"

/-- The constant `AlignRight`. -/
def AlignRight : String := "right"

/-- The constant `AlignJustify`. -/
def AlignJustify : String := "justify"

end model

namespace gofmt

open model

/-- The pieces of a character list between its line breaks. -/
def splitChars : List Char → List (List Char)
  | [] => [[]]
  | c :: cs =>
    if c = '\n' then [] :: splitChars cs
    else
      match splitChars cs with
      | l :: ls => (c :: l) :: ls
      | [] => [[c]]

/-- `strings.Split(s, "\n")`. -/
def SplitLines (s : String) : List String :=
  (splitChars s.data).map String.mk

/-- `fmt.Sprintf("%T", v)` for an `interface{}`. -/
def typeName : Value → String
  | .null => "<nil>"
  | .bool _ => "bool"
  | .str _ => "string"
  | .int _ => "int"
  | .float64 _ _ => "float64"
  | .array _ => "[]interface {}"
  | .object _ => "map[string]interface {}"
  | .other t _ => t

end gofmt

namespace render

open model gofmt

/-- The calls that the renderers and the generator make on the drawing backend
(`*gofpdf.Fpdf`) and that change the document. -/
inductive Call where
  | AddPage
  | SetFont (family style : String) (size : ℚ)
  | SetTextColor (r g b : Int)
  | Text (x y : ℚ) (txt : String)
  | SetLineWidth (width : ℚ)
  | Rect (x y w h : ℚ) (style : String)
  | Image (path : String) (x y w h : ℚ)
  | Output
  deriving DecidableEq

/-- The drawing backend is library code: what its queries answer is taken as
given.  `stringWidth calls s` is `GetStringWidth(s)` on a document that has
received `calls`: the width it returns, or the message of the run-time panic
in which it ends (gofpdf adds up the character widths of the current font, and
on a document on which no font has been selected it indexes a table that is
not there); `pointToUnit` is `PointToUnitConvert`; `outputError calls` is the
error that `Output` returns on a document that has received `calls`. -/
structure Backend where
  stringWidth : List Call → String → Except String ℚ
  pointToUnit : ℚ → ℚ
  outputError : List Call → Option String

/-- How a call of `Render` ends: it returns nil, returns an error, or panics. -/
inductive Outcome where
  | ok
  | error (msg : String)
  | panic (msg : String)
  deriving DecidableEq

/-- The Go struct `Context` without its `PDF` field: the document is passed
along as the list of calls it has received. -/
structure Context where
  PageSize : Size
  Margins : Padding

/-- The alignment switch of `TextRenderer.Render`: the abscissa of a line of
measured width `textWidth`. -/
def textAlignX (style : Option Style) (bounds : Bounds) (textWidth : ℚ) : ℚ :=
  match style with
  | some st =>
    if st.Alignment ≠ "" then
      if st.Alignment = AlignLeft then bounds.Position.X
      else if st.Alignment = AlignCenter then
        bounds.Position.X + (bounds.Size.Width - textWidth) / 2
      else if st.Alignment = AlignRight then
        bounds.Position.X + bounds.Size.Width - textWidth
      else if st.Alignment = AlignJustify then bounds.Position.X
      else bounds.Position.X
    else bounds.Position.X
  | none => bounds.Position.X

/-- The `for i, line := range lines` loop of `TextRenderer.Render`, from line
index `i` on: the document when the loop is left, and how it is left (a panic
of `GetStringWidth` ends it before the line is drawn). -/
def textLoop (B : Backend) (element : Element) (style : Option Style) (lineHeight : ℚ) :
    List Call → Nat → List String → List Call × Outcome
  | pdf, _, [] => (pdf, .ok)
  | pdf, i, line :: rest =>
    match B.stringWidth pdf line with
    | .error msg => (pdf, .panic msg)
    | .ok textWidth =>
      let textX := textAlignX style element.Bounds textWidth
      let textY := element.Bounds.Position.Y + lineHeight + (i : ℚ) * lineHeight * (3 / 2)
      textLoop B element style lineHeight (pdf ++ [Call.Text textX textY line]) (i + 1) rest

/-- `TextRenderer.Render`: the document after the call and how the call ends.
With a nil `Style` the read of `style.FontSize` panics. -/
def TextRenderer.Render (B : Backend) (_ctx : Context) (pdf : List Call) (element : Element) :
    List Call × Outcome :=
  match element.Content with
  | .str content =>
    let pdf1 :=
      match element.Style with
      | some style =>
        let p1 := if style.FontFamily ≠ "" then
          pdf ++ [Call.SetFont style.FontFamily "" style.FontSize] else pdf
        if style.FontColor ≠ "" then p1 ++ [Call.SetTextColor 0 0 0] else p1
      | none => pdf
    let lines := SplitLines content
    match element.Style with
    | none => (pdf1, .panic "runtime error: invalid memory address or nil pointer dereference")
    | some style =>
      let lineHeight := B.pointToUnit style.FontSize
      textLoop B element element.Style lineHeight pdf1 0 lines
  | _ => (pdf, .error "invalid content type for text element")

/-- The conversion of one table cell to a string. -/
def cellText : Value → String
  | .str v => v
  | .float64 v _ => fmtFixed2 v
  | .int v => fmtInt v
  | .bool v => fmtBool v
  | v => fmtV v

/-- The conversion loop of `TableRenderer.Render` from row index `i` on: the
rows of cell strings, or the error for the first row that is not a slice. -/
def convertRows : List Value → Nat → Except String (List (List String))
  | [], _ => .ok []
  | row :: rest, i =>
    match row with
    | .array rowArray =>
      match convertRows rest (i + 1) with
      | .ok more => .ok (rowArray.map cellText :: more)
      | .error err => .error err
    | _ =>
      .error ("invalid row type at index " ++ toString i ++
        ": expected []interface{}, got " ++ typeName row)

/-- The cell alignment switch of `TableRenderer.Render`. -/
def cellAlignX (style : Option Style) (currentX cellWidth textWidth : ℚ) : ℚ :=
  match style with
  | some st =>
    if st.Alignment ≠ "" then
      if st.Alignment = AlignLeft then currentX + 2
      else if st.Alignment = AlignCenter then currentX + (cellWidth - textWidth) / 2
      else if st.Alignment = AlignRight then currentX + cellWidth - textWidth - 2
      else currentX
    else currentX + (cellWidth - textWidth) / 2
  | none => currentX + (cellWidth - textWidth) / 2

/-- The `for colIndex, cell := range row` loop of `TableRenderer.Render`, from
column index `colIndex` on: the document when the loop is left, and how it is
left (a panic of `GetStringWidth` ends it after the border of the cell and
before its text). -/
def cellLoop (B : Backend) (element : Element) (fontSize cellWidth cellHeight : ℚ)
    (rowIndex : Nat) : List Call → Nat → List String → List Call × Outcome
  | pdf, _, [] => (pdf, .ok)
  | pdf, colIndex, cell :: rest =>
    let currentX := element.Bounds.Position.X + (colIndex : ℚ) * cellWidth
    let currentY := element.Bounds.Position.Y + (rowIndex : ℚ) * cellHeight
    let pdf1 :=
      match element.Style with
      | some st =>
        match st.Border with
        | some border =>
          pdf ++ [Call.SetLineWidth border.Width,
            Call.Rect currentX currentY cellWidth cellHeight "D"]
        | none => pdf
      | none => pdf
    match B.stringWidth pdf1 cell with
    | .error msg => (pdf1, .panic msg)
    | .ok textWidth =>
      let textX := cellAlignX element.Style currentX cellWidth textWidth
      let fontHeight := B.pointToUnit fontSize
      let textY := currentY + (cellHeight - fontHeight) / 2 + fontHeight
      cellLoop B element fontSize cellWidth cellHeight rowIndex
        (pdf1 ++ [Call.Text textX textY cell]) (colIndex + 1) rest

/-- The `for rowIndex, row := range content` loop of `TableRenderer.Render`,
from row index `rowIndex` on. -/
def rowLoop (B : Backend) (element : Element) (fontSize cellWidth cellHeight : ℚ) :
    List Call → Nat → List (List String) → List Call × Outcome
  | pdf, _, [] => (pdf, .ok)
  | pdf, rowIndex, row :: rest =>
    match cellLoop B element fontSize cellWidth cellHeight rowIndex pdf 0 row with
    | (pdf1, .ok) => rowLoop B element fontSize cellWidth cellHeight pdf1 (rowIndex + 1) rest
    | (pdf1, outcome) => (pdf1, outcome)

/-- `TableRenderer.Render`: the document after the call and how the call ends.
With no row the read of `content[0]` panics.  The cell width is a quotient in
`ℚ`; with a first row of no cells Go divides by zero and gets an infinity or
NaN, which `ℚ` does not have: the coordinates in the calls are then not those
of the code, while the calls that are made, the strings they draw and the
outcome are. -/
def TableRenderer.Render (B : Backend) (_ctx : Context) (pdf : List Call) (element : Element) :
    List Call × Outcome :=
  match element.Content with
  | .array rawContent =>
    match convertRows rawContent 0 with
    | .error err => (pdf, .error err)
    | .ok content =>
      let styled : List Call × ℚ :=
        match element.Style with
        | some st =>
          if st.FontFamily ≠ "" then
            (pdf ++ [Call.SetFont st.FontFamily "" st.FontSize], st.FontSize)
          else (pdf, 10)
        | none => (pdf, 10)
      match content with
      | [] => (styled.1, .panic "runtime error: index out of range [0] with length 0")
      | row0 :: _ =>
        let colCount := row0.length
        let cellWidth := element.Bounds.Size.Width / (colCount : ℚ)
        let cellHeight := B.pointToUnit styled.2 * 2
        rowLoop B element styled.2 cellWidth cellHeight styled.1 0 content
  | v =>
    (pdf, .error ("invalid content type for table element: expected []interface{}, got " ++
      typeName v))

/-- `ImageRenderer.Render`. -/
def ImageRenderer.Render (_B : Backend) (_ctx : Context) (pdf : List Call) (element : Element) :
    List Call × Outcome :=
  match element.Content with
  | .str content =>
    (pdf ++ [Call.Image content element.Bounds.Position.X element.Bounds.Position.Y
      element.Bounds.Size.Width element.Bounds.Size.Height], .ok)
  | _ => (pdf, .error "invalid content type for image element")

/-- The Go interface `ElementRenderer`. -/
structure ElementRenderer where
  Render : Backend → Context → List Call → Element → List Call × Outcome

/-- The Go struct `Registry`: the map from element type to renderer. -/
structure Registry where
  renderers : String → Option ElementRenderer

/-- `NewRegistry`. -/
def NewRegistry : Registry :=
  { renderers := fun elementType =>
      if elementType = ElementTypeImage then some { Render := ImageRenderer.Render }
      else if elementType = ElementTypeTable then some { Render := TableRenderer.Render }
      else if elementType = ElementTypeText then some { Render := TextRenderer.Render }
      else none }

/-- `Registry.GetRenderer`. -/
def GetRenderer (r : Registry) (elementType : String) : Except String ElementRenderer :=
  match r.renderers elementType with
  | some renderer => .ok renderer
  | none => .error ("no renderer found for element type: " ++ elementType)

/-- `Registry.RegisterRenderer`. -/
def RegisterRenderer (r : Registry) (elementType : String) (renderer : ElementRenderer) :
    Registry :=
  { renderers := fun k => if k = elementType then some renderer else r.renderers k }

end render

namespace generator

open model layout render errors

/-- The Go struct `generator.Generator`. -/
structure Generator where
  template : Template
  layout : Manager
  registry : Registry
  margins : Padding

/-- `generator.New`. -/
def New (template : Template) : Generator :=
  { template := template
    layout := NewManager template.Size defaultMargins
    registry := NewRegistry
    margins := defaultMargins }

/-- How a call of `Generate` ends: it returns a buffer and a nil error (the
buffer is carried as the calls the document had received when it was
written), returns a nil buffer and an error, or panics. -/
inductive Result where
  | ok (document : List Call)
  | error (msg : String)
  | panic (msg : String)

/-- What a call of `Generate` leaves: the generator, the calls made on the
drawing backend, and how the call ended. -/
structure Generated where
  generator : Generator
  calls : List Call
  result : Result

/-- The `for _, element := range elements` loop of `Generate`. -/
def renderElements (B : Backend) (registry : Registry) (ctx : Context) :
    List Call → List Element → List Call × Outcome
  | pdf, [] => (pdf, .ok)
  | pdf, element :: rest =>
    match GetRenderer registry element.Typ with
    | .error err => (pdf, .error ("failed to get renderer: " ++ err))
    | .ok renderer =>
      match renderer.Render B ctx pdf element with
      | (pdf1, .ok) => renderElements B registry ctx pdf1 rest
      | (pdf1, .error err) => (pdf1, .error ("failed to render element: " ++ err))
      | (pdf1, .panic msg) => (pdf1, .panic msg)

/-- The `for page := 1; page <= totalPages; page++` loop of `Generate`, over
the page numbers still to come. -/
def renderPages (B : Backend) (registry : Registry) (ctx : Context) (m : Manager) :
    List Call → List Int → List Call × Outcome
  | pdf, [] => (pdf, .ok)
  | pdf, page :: rest =>
    match renderElements B registry ctx (pdf ++ [Call.AddPage]) (GetPageElements m page) with
    | (pdf1, .ok) => renderPages B registry ctx m pdf1 rest
    | (pdf1, .error err) => (pdf1, .error err)
    | (pdf1, .panic msg) => (pdf1, .panic msg)

/-- The page numbers `1 .. totalPages`. -/
def pageNumbers (totalPages : Int) : List Int :=
  (List.range totalPages.toNat).map (fun (i : Nat) => (i : Int) + 1)

/-- `Generator.Generate`. -/
def Generate (B : Backend) (g : Generator) (data : Value) : Generated :=
  match (Validate g.template).2 with
  | some err =>
    { generator := g, calls := [], result := .error ("invalid template: " ++ err.Error) }
  | none =>
    match ValidateData g.template data with
    | some err =>
      { generator := g, calls := [], result := .error ("invalid data: " ++ err.Error) }
    | none =>
      match CalculateLayout g.layout g.template.Elements with
      | (m, some err) =>
        { generator := { g with layout := m }, calls := []
          result := .error ("layout calculation failed: " ++ err) }
      | (m, none) =>
        let g1 := { g with layout := m }
        let renderCtx : Context :=
          { PageSize := { Width := g.template.Size.Width, Height := g.template.Size.Height }
            Margins := g.margins }
        match renderPages B g.registry renderCtx m [] (pageNumbers (TotalPages m)) with
        | (pdf, .error err) => { generator := g1, calls := pdf, result := .error err }
        | (pdf, .panic msg) => { generator := g1, calls := pdf, result := .panic msg }
        | (pdf, .ok) =>
          match B.outputError pdf with
          | some err =>
            { generator := g1, calls := pdf ++ [Call.Output]
              result := .error ("failed to write PDF: " ++ err) }
          | none =>
            { generator := g1, calls := pdf ++ [Call.Output], result := .ok pdf }

/-- `Generator.RegisterRenderer`. -/
def RegisterRenderer (g : Generator) (elementType : String) (renderer : ElementRenderer) :
    Generator :=
  { g with registry := render.RegisterRenderer g.registry elementType renderer }

/-- `Generator.SetMargins`. -/
def SetMargins (g : Generator) (margins : Padding) : Generator :=
  { g with margins := margins, layout := NewManager g.template.Size margins }

end generator

namespace render

open model gofmt

/-- The calls that `TextRenderer.Render` makes for the font and the colour
of a style. -/
def textSetup (style : Style) : List Call :=
  (if style.FontFamily ≠ "" then [Call.SetFont style.FontFamily "" style.FontSize] else []) ++
    (if style.FontColor ≠ "" then [Call.SetTextColor 0 0 0] else [])

/-- A call of `SetFont`. -/
def isSetFont : Call → Bool
  | .SetFont _ _ _ => true
  | _ => false

/-- The first byte of the UTF-8 encoding of a string, 0 for the empty string. -/
def firstByte (s : String) : Nat :=
  match s.toUTF8.data.toList with
  | [] => 0
  | b :: _ => b.toNat

/-- A backend in which a string that is empty or starts with a zero byte
measures 0, every other string measures 50 once the document has received a
`SetFont`, and measuring it before that panics on the width table that is not
there, indexed by the first byte of the string; a point is 127/360 mm, and
writing the document succeeds. -/
def sampleBackend : Backend :=
  { stringWidth := fun calls s =>
      if firstByte s = 0 then .ok 0
      else if calls.any isSetFont then .ok 50
      else .error ("runtime error: index out of range [" ++ toString (firstByte s) ++
        "] with length 0")
    pointToUnit := fun pt => pt * (127 / 360)
    outputError := fun _ => none }

/-- A centered style. -/
def centeredStyle : Style :=
  { FontFamily := "Arial", FontSize := 14, FontColor := "#333333", Background := "",
    Border := none, Padding := none, Alignment := "center" }

/-- A centered text element of width 170. -/
def centeredText : Element :=
  { ID := "header-customer"
    Typ := "text"
    Bounds := { Position := { X := 20, Y := 44 }, Size := { Width := 170, Height := 12 } }
    Content := .str "CUSTOMER"
    Style := some centeredStyle
    Metadata := [] }

/-- The rendering context of an A4 page with margins of 10. -/
def sampleContext : Context :=
  { PageSize := { Width := 210, Height := 297 }, Margins := generator.defaultMargins }

end render

namespace generator

open model layout render errors gofmt

/-- A text element without a style. -/
def textNoStyle : Element :=
  { ID := "a"
    Typ := "text"
    Bounds := { Position := { X := 0, Y := 0 }, Size := { Width := 100, Height := 10 } }
    Content := .str "hi"
    Style := none
    Metadata := [] }

/-- An element of kind barcode. -/
def barcodeElement : Element :=
  { ID := "b"
    Typ := "barcode"
    Bounds := { Position := { X := 0, Y := 0 }, Size := { Width := 100, Height := 10 } }
    Content := .str "12345"
    Style := none
    Metadata := [] }

/-- A template whose only element is a barcode. -/
def barcodeOnly : Template :=
  { Name := "t", Version := "1.0", Size := { Width := 210, Height := 297 },
    Elements := [barcodeElement], Schema := none }

/-- A template with a text element without a style, then a barcode. -/
def textThenBarcode : Template :=
  { Name := "t", Version := "1.0", Size := { Width := 210, Height := 297 },
    Elements := [textNoStyle, barcodeElement], Schema := none }

end generator

namespace service

open model

/-- The Go struct `service.Config`. -/
structure Config where
  UploadBaseURL : String
  BearerToken : String

/-- `Config.Validate`: the returned error, `none` for nil. -/
def Config.Validate (c : Config) : Option String :=
  if c.UploadBaseURL = "" then some "upload base URL is required"
  else if c.BearerToken = "" then some "bearer token is required"
  else none

end service

namespace render

open model gofmt

/-- A call other than `AddPage` and `Output`. -/
def isDraw : Call → Bool
  | .AddPage => false
  | .Output => false
  | _ => true

/-- The string of a `Text` call. -/
def textOf : Call → Option String
  | .Text _ _ txt => some txt
  | _ => none

/-- The strings drawn by the `Text` calls of a document, in call order. -/
def drawnTexts (calls : List Call) : List String :=
  calls.filterMap textOf

/-- A value that is a `[]interface{}`. -/
def isRow : Value → Bool
  | .array _ => true
  | _ => false

/-- The cells of a row. -/
def rowCells : Value → List Value
  | .array cells => cells
  | _ => []

/-- The border calls that `TableRenderer.Render` makes for one cell. -/
def borderCalls (element : Element) (x y w h : ℚ) : List Call :=
  match element.Style with
  | some st =>
    match st.Border with
    | some border => [Call.SetLineWidth border.Width, Call.Rect x y w h "D"]
    | none => []
  | none => []

/-- The font call that `TableRenderer.Render` makes for the style of an element. -/
def tableFont (element : Element) : List Call :=
  match element.Style with
  | some st => if st.FontFamily ≠ "" then [Call.SetFont st.FontFamily "" st.FontSize] else []
  | none => []

/-- The font size that `TableRenderer.Render` uses for an element. -/
def tableFontSize (element : Element) : ℚ :=
  match element.Style with
  | some st => if st.FontFamily ≠ "" then st.FontSize else 10
  | none => 10

/-- A table element with a given content and no style. -/
def tableWith (content : Value) : Element :=
  { ID := "t"
    Typ := "table"
    Bounds := { Position := { X := 10, Y := 10 }, Size := { Width := 190, Height := 40 } }
    Content := content
    Style := none
    Metadata := [] }

/-- A table element with a given content and a style that names a font. -/
def tableInFont (content : Value) : Element :=
  { ID := "t"
    Typ := "table"
    Bounds := { Position := { X := 10, Y := 10 }, Size := { Width := 190, Height := 40 } }
    Content := content
    Style := some
      { FontFamily := "Arial", FontSize := 10, FontColor := "", Background := "",
        Border := none, Padding := none, Alignment := "" }
    Metadata := [] }

/-- The rows `[["a", "b"], ["c"]]`, of two cells and of one cell. -/
def raggedRows : Value :=
  .array [.array [.str "a", .str "b"], .array [.str "c"]]

/-- The row `["Product A", 2, 29.99, true]`. -/
def productRow : Value :=
  .array [.str "Product A", .int 2, .float64 dynamic.float2999 "29.99", .bool true]

end render

namespace generator

open model layout render errors gofmt

/-- The chunk of calls that rendering one element adds: the registry of
`NewRegistry` has a renderer for the element's type, and that renderer, run on
the document `before`, returns nil and leaves `before ++ chunk`; no call of
the chunk is `AddPage` or `Output`. -/
def RenderedBy (B : Backend) (ctx : Context) (before : List Call) (e : Element)
    (chunk : List Call) : Prop :=
  (∀ c ∈ chunk, c ≠ Call.AddPage ∧ c ≠ Call.Output) ∧
    ∃ r, GetRenderer NewRegistry e.Typ = .ok r ∧ r.Render B ctx before e = (before ++ chunk, .ok)

/-- The chunks of one page: one chunk per element, in placement order, each
rendered on the document as the chunks before it have left it. -/
def PageRendered (B : Backend) (ctx : Context) :
    List Call → List Element → List (List Call) → Prop
  | _, [], [] => True
  | before, e :: els, chunk :: chunks =>
    RenderedBy B ctx before e chunk ∧ PageRendered B ctx (before ++ chunk) els chunks
  | _, _, _ => False

/-- The chunks of the pages: for each page number in turn an `AddPage`, then
the chunks of the elements of that page. -/
def PagesRendered (B : Backend) (ctx : Context) (m : Manager) :
    List Call → List Int → List (List (List Call)) → Prop
  | _, [], [] => True
  | before, page :: pages, seg :: segs =>
    PageRendered B ctx (before ++ [Call.AddPage]) (GetPageElements m page) seg ∧
      PagesRendered B ctx m (before ++ Call.AddPage :: seg.flatten) pages segs
  | _, _, _ => False

/-- The calls of a document made of the given pages of chunks. -/
def pagesCalls (segs : List (List (List Call))) : List Call :=
  (segs.map (fun seg => Call.AddPage :: seg.flatten)).flatten

/-- A template whose page width is NaN, with a name, a height of 297 and one
element. -/
def nanTemplate : TemplateOf Float64 :=
  { Name := "t", Version := "1.0", Size := { Width := .nan, Height := .finite false 297 0 },
    Elements := [barcodeElement], Schema := none }

/-- A template whose only element is the centered text. -/
def centeredOnly : Template :=
  { Name := "t", Version := "1.0", Size := { Width := 210, Height := 297 },
    Elements := [centeredText], Schema := none }

end generator

/-! ## The layout manager: how one element and a run of elements change the state -/

namespace layout

open model

theorem positionElement_snd (m : Manager) (e : Element) : (positionElement m e).2 = none := rfl

theorem positionElement_eq (m : Manager) (e : Element) :
    positionElement m e = (step m e, none) := rfl

theorem layoutLoop_cons (m : Manager) (e : Element) (rest : List Element) :
    layoutLoop m (e :: rest) = layoutLoop (step m e) rest := by
  simp [layoutLoop, positionElement_eq]

theorem layoutLoop_snd (m : Manager) (els : List Element) : (layoutLoop m els).2 = none := by
  induction els generalizing m with
  | nil => rfl
  | cons e rest ih => rw [layoutLoop_cons]; exact ih _

theorem run_nil (m : Manager) : run m [] = m := rfl

theorem run_cons (m : Manager) (e : Element) (rest : List Element) :
    run m (e :: rest) = run (step m e) rest := by
  simp [run, layoutLoop_cons]

theorem run_append (m : Manager) (xs ys : List Element) :
    run m (xs ++ ys) = run (run m xs) ys := by
  induction xs generalizing m with
  | nil => rfl
  | cons e rest ih => simp [run_cons, ih]

theorem step_margins (m : Manager) (e : Element) : (step m e).margins = m.margins := by
  unfold step positionElement startNewPage
  by_cases h : e.Bounds.Size.Height > m.pageSize.Height - m.currentY - m.margins.Bottom <;> simp [h]

theorem step_pageSize (m : Manager) (e : Element) : (step m e).pageSize = m.pageSize := by
  unfold step positionElement startNewPage
  by_cases h : e.Bounds.Size.Height > m.pageSize.Height - m.currentY - m.margins.Bottom <;> simp [h]

theorem step_currentPage (m : Manager) (e : Element) :
    (step m e).currentPage = targetPage m e := by
  unfold step positionElement startNewPage targetPage
  by_cases h : e.Bounds.Size.Height > m.pageSize.Height - m.currentY - m.margins.Bottom <;> simp [h]

theorem step_currentY (m : Manager) (e : Element) :
    (step m e).currentY = targetY m e + e.Bounds.Size.Height := by
  unfold step positionElement startNewPage targetY setPosition
  by_cases h : e.Bounds.Size.Height > m.pageSize.Height - m.currentY - m.margins.Bottom <;> simp [h]

theorem step_pageElements (m : Manager) (e : Element) (p : Int) :
    (step m e).pageElements p =
      if p = targetPage m e
      then m.pageElements (targetPage m e) ++ [setPosition e m.margins.Left (targetY m e)]
      else m.pageElements p := by
  unfold step positionElement startNewPage targetPage targetY
  by_cases h : e.Bounds.Size.Height > m.pageSize.Height - m.currentY - m.margins.Bottom <;> simp [h]

theorem run_margins (m : Manager) (els : List Element) : (run m els).margins = m.margins := by
  induction els generalizing m with
  | nil => rfl
  | cons e rest ih => rw [run_cons, ih, step_margins]

theorem run_pageSize (m : Manager) (els : List Element) : (run m els).pageSize = m.pageSize := by
  induction els generalizing m with
  | nil => rfl
  | cons e rest ih => rw [run_cons, ih, step_pageSize]

end layout

/-! ## The layout manager: the elements are kept, in order -/

namespace layout

open model

theorem flatMap_range_pages (pe : Int → List Element) (n : Nat) :
    (List.range n).flatMap (fun i => pe ((i : Int) + 1)) = pagesUpTo pe n := by
  induction n with
  | zero => rfl
  | succ n ih => simp [List.range_succ, List.flatMap_append, ih, pagesUpTo]

theorem pagesUpTo_congr (pe pe' : Int → List Element) (n : Nat)
    (h : ∀ p : Int, 1 ≤ p → p ≤ n → pe p = pe' p) : pagesUpTo pe n = pagesUpTo pe' n := by
  induction n with
  | zero => rfl
  | succ n ih =>
    simp only [pagesUpTo]
    rw [ih (fun p h1 h2 => h p h1 (by push_cast; omega)), h ((n : Int) + 1) (by omega) (by push_cast; omega)]

theorem inv_new (pageSize : Size) (margins : Padding) : Inv (NewManager pageSize margins) :=
  ⟨le_refl _, fun _ _ => rfl⟩

theorem targetPage_cases (m : Manager) (e : Element) :
    targetPage m e = m.currentPage ∨ targetPage m e = m.currentPage + 1 := by
  unfold targetPage
  split <;> simp

theorem inv_step (m : Manager) (e : Element) (h : Inv m) : Inv (step m e) := by
  constructor
  · rw [step_currentPage]
    rcases targetPage_cases m e with h1 | h1 <;> rw [h1] <;> have := h.one_le <;> omega
  · intro p hp
    rw [step_currentPage] at hp
    rw [step_pageElements]
    have h0 := h.one_le
    rcases targetPage_cases m e with h1 | h1 <;> rw [h1] at hp ⊢
    · rw [if_neg (by omega)]; exact h.outside p hp
    · rw [if_neg (by omega)]; exact h.outside p (by omega)

theorem inv_run (m : Manager) (els : List Element) (h : Inv m) : Inv (run m els) := by
  induction els generalizing m with
  | nil => exact h
  | cons e rest ih => rw [run_cons]; exact ih _ (inv_step m e h)

theorem pagesUpTo_step (m : Manager) (e : Element) (h : Inv m) :
    pagesUpTo (step m e).pageElements (step m e).currentPage.toNat =
      pagesUpTo m.pageElements m.currentPage.toNat ++
        [setPosition e m.margins.Left (targetY m e)] := by
  have h0 := h.one_le
  obtain ⟨k, hk⟩ : ∃ k : Nat, m.currentPage = (k : Int) + 1 :=
    ⟨(m.currentPage - 1).toNat, by omega⟩
  rw [step_currentPage]
  rcases targetPage_cases m e with h1 | h1
  · rw [h1, hk]
    have e1 : ((k : Int) + 1).toNat = k + 1 := by omega
    rw [e1]
    simp only [pagesUpTo]
    rw [pagesUpTo_congr (step m e).pageElements m.pageElements k
      (fun p hp1 hp2 => by rw [step_pageElements, if_neg (by omega)])]
    rw [step_pageElements, h1, hk, if_pos rfl, List.append_assoc]
  · rw [h1, hk]
    have e1 : ((k : Int) + 1 + 1).toNat = (k + 1) + 1 := by omega
    have e2 : ((k : Int) + 1).toNat = k + 1 := by omega
    rw [e1, e2]
    rw [pagesUpTo]
    rw [pagesUpTo_congr (step m e).pageElements m.pageElements (k + 1)
      (fun p hp1 hp2 => by rw [step_pageElements, if_neg (by push_cast at hp2; omega)])]
    rw [step_pageElements, h1, hk]
    have e3 : ((k + 1 : Nat) : Int) + 1 = (k : Int) + 1 + 1 := by push_cast; ring
    rw [e3, if_pos rfl, h.outside _ (by omega)]
    rfl

theorem sameButPosition_setPosition (e : Element) (x y : ℚ) :
    SameButPosition e (setPosition e x y) :=
  ⟨rfl, rfl, rfl, rfl, rfl, rfl⟩

theorem pagesUpTo_run (m : Manager) (els : List Element) (h : Inv m) :
    ∃ out, pagesUpTo (run m els).pageElements (run m els).currentPage.toNat =
        pagesUpTo m.pageElements m.currentPage.toNat ++ out ∧
      List.Forall₂ SameButPosition els out := by
  induction els generalizing m with
  | nil => exact ⟨[], by simp [run_nil], List.Forall₂.nil⟩
  | cons e rest ih =>
    obtain ⟨out, h1, h2⟩ := ih (step m e) (inv_step m e h)
    refine ⟨setPosition e m.margins.Left (targetY m e) :: out, ?_, ?_⟩
    · rw [run_cons, h1, pagesUpTo_step m e h, List.append_assoc]; rfl
    · exact List.Forall₂.cons (sameButPosition_setPosition _ _ _) h2

/-- C1: on a freshly constructed Manager, CalculateLayout returns no error; the
pages 1 .. TotalPages(), concatenated in increasing page order, are the input
elements in input order, one for one, each with its ID, Type, Size, Content,
Style and Metadata unchanged (only the position differs); TotalPages() is at
least 1 and no page outside 1 .. TotalPages() holds an element. -/
theorem calculateLayout_keeps_elements (pageSize : Size) (margins : Padding)
    (elements : List Element) :
    (CalculateLayout (NewManager pageSize margins) elements).2 = none ∧
    List.Forall₂
      (fun a b => a.ID = b.ID ∧ a.Typ = b.Typ ∧ a.Bounds.Size = b.Bounds.Size ∧
        a.Content = b.Content ∧ a.Style = b.Style ∧ a.Metadata = b.Metadata)
      elements
      ((List.range (TotalPages (CalculateLayout (NewManager pageSize margins) elements).1).toNat).flatMap
        (fun i => GetPageElements (CalculateLayout (NewManager pageSize margins) elements).1
          ((i : Int) + 1))) ∧
    1 ≤ TotalPages (CalculateLayout (NewManager pageSize margins) elements).1 ∧
    ∀ p : Int, p < 1 ∨ TotalPages (CalculateLayout (NewManager pageSize margins) elements).1 < p →
      GetPageElements (CalculateLayout (NewManager pageSize margins) elements).1 p = [] := by
  have hinv : Inv { NewManager pageSize margins with elements := elements } :=
    ⟨le_refl _, fun _ _ => rfl⟩
  have hr := inv_run _ elements hinv
  obtain ⟨out, h1, h2⟩ := pagesUpTo_run _ elements hinv
  refine ⟨layoutLoop_snd _ _, ?_, hr.one_le, hr.outside⟩
  unfold TotalPages GetPageElements CalculateLayout
  rw [flatMap_range_pages]
  change List.Forall₂ _ elements (pagesUpTo (run _ elements).pageElements (run _ elements).currentPage.toNat)
  rw [h1]
  simpa [NewManager, pagesUpTo] using h2

end layout

/-! ## The layout manager: pages are stacked and stay inside the body -/

namespace layout

open model

theorem sumHeights_append (l1 l2 : List Element) :
    sumHeights (l1 ++ l2) = sumHeights l1 + sumHeights l2 := by
  simp [sumHeights, List.sum_append]

theorem stacked_snoc (x y : ℚ) (l : List Element) (e : Element)
    (h : Stacked x y l) (hx : e.Bounds.Position.X = x)
    (hy : e.Bounds.Position.Y = y + sumHeights l) : Stacked x y (l ++ [e]) := by
  induction l generalizing y with
  | nil => simpa [Stacked, sumHeights] using And.intro hx hy
  | cons a rest ih =>
    obtain ⟨h1, h2, h3⟩ := h
    refine ⟨h1, h2, ih _ h3 ?_⟩
    rw [hy]
    simp [sumHeights]
    ring

theorem stacked_x (x y : ℚ) (l : List Element) (h : Stacked x y l) :
    ∀ e ∈ l, e.Bounds.Position.X = x := by
  induction l generalizing y with
  | nil => simp
  | cons a rest ih =>
    intro e he
    rcases List.mem_cons.mp he with h1 | h1
    · rw [h1]; exact h.1
    · exact ih _ h.2.2 e h1

theorem stacked_head (x y : ℚ) (l : List Element) (h : Stacked x y l) :
    ∀ e ∈ l.head?, e.Bounds.Position.Y = y := by
  cases l with
  | nil => simp
  | cons a rest => simpa using h.2.1

theorem stacked_chain (x y : ℚ) (l : List Element) (h : Stacked x y l) :
    List.Chain' (fun a b : Element =>
      b.Bounds.Position.Y = a.Bounds.Position.Y + a.Bounds.Size.Height) l := by
  induction l generalizing y with
  | nil => exact List.chain'_nil
  | cons a rest ih =>
    rw [List.chain'_cons']
    refine ⟨?_, ih _ h.2.2⟩
    intro b hb
    rw [stacked_head x _ rest h.2.2 b hb, h.2.1]

theorem targetY_eq (m : Manager) (e : Element) (h : StackInv m) :
    targetY m e = m.margins.Top + sumHeights (m.pageElements (targetPage m e)) := by
  unfold targetY targetPage
  split
  · rw [h.inv.outside _ (Or.inr (by omega))]; simp [sumHeights]
  · exact h.cursor

theorem stackInv_step (m : Manager) (e : Element) (h : StackInv m) : StackInv (step m e) := by
  refine ⟨inv_step m e h.inv, ?_, ?_⟩
  · intro p
    rw [step_margins, step_pageElements]
    split
    · exact stacked_snoc _ _ _ _ (h.stacked _) rfl (targetY_eq m e h)
    · exact h.stacked p
  · rw [step_currentY, step_margins, step_pageElements, step_currentPage, if_pos rfl,
      sumHeights_append, targetY_eq m e h]
    simp [sumHeights, setPosition]
    ring

theorem stackInv_run (m : Manager) (els : List Element) (h : StackInv m) :
    StackInv (run m els) := by
  induction els generalizing m with
  | nil => exact h
  | cons e rest ih => rw [run_cons]; exact ih _ (stackInv_step m e h)

/-- In exact arithmetic, on every page each element has X = margins.Left, the
first element of the page (if any) has Y = margins.Top, and each later element
has Y equal to the Y of the element before it plus that element's Height. -/
theorem stacks_pages_exact (pageSize : Size) (margins : Padding)
    (elements : List Element) (p : Int) :
    (∀ e ∈ GetPageElements (CalculateLayout (NewManager pageSize margins) elements).1 p,
      e.Bounds.Position.X = margins.Left) ∧
    (∀ e ∈ (GetPageElements (CalculateLayout (NewManager pageSize margins) elements).1 p).head?,
      e.Bounds.Position.Y = margins.Top) ∧
    List.Chain' (fun a b : Element =>
        b.Bounds.Position.Y = a.Bounds.Position.Y + a.Bounds.Size.Height)
      (GetPageElements (CalculateLayout (NewManager pageSize margins) elements).1 p) := by
  have h0 : StackInv { NewManager pageSize margins with elements := elements } :=
    ⟨⟨le_refl _, fun _ _ => rfl⟩, fun _ => trivial, by simp [NewManager, sumHeights]⟩
  have h := (stackInv_run _ elements h0).stacked p
  have hm : (run { NewManager pageSize margins with elements := elements } elements).margins
      = margins := by rw [run_margins]; rfl
  rw [hm] at h
  exact ⟨stacked_x _ _ _ h, stacked_head _ _ _ h, stacked_chain _ _ _ h⟩

theorem targetY_ge (m : Manager) (e : Element) (h : m.margins.Top ≤ m.currentY) :
    m.margins.Top ≤ targetY m e := by
  unfold targetY
  split
  · exact le_refl _
  · exact h

theorem targetY_fits (m : Manager) (e : Element)
    (hfit : e.Bounds.Size.Height ≤ m.pageSize.Height - m.margins.Top - m.margins.Bottom) :
    targetY m e + e.Bounds.Size.Height ≤ m.pageSize.Height - m.margins.Bottom := by
  unfold targetY
  split
  · linarith
  · rename_i hn
    have := not_lt.mp hn
    linarith

theorem bodyInv_step (m : Manager) (e : Element) (h : BodyInv m)
    (he : 0 ≤ e.Bounds.Size.Height) : BodyInv (step m e) := by
  have hge := targetY_ge m e h.cursor_ge
  refine ⟨?_, ?_⟩
  · rw [step_margins, step_currentY]; linarith
  · intro p x hx
    rw [step_margins, step_pageSize]
    rw [step_pageElements] at hx
    split at hx
    · rcases List.mem_append.mp hx with h1 | h1
      · exact h.inside _ x h1
      · rw [List.mem_singleton] at h1
        subst h1
        intro hfit
        exact ⟨hge, targetY_fits m e hfit⟩
    · exact h.inside p x hx

theorem bodyInv_run (m : Manager) (els : List Element) (h : BodyInv m)
    (hels : ∀ e ∈ els, 0 ≤ e.Bounds.Size.Height) : BodyInv (run m els) := by
  induction els generalizing m with
  | nil => exact h
  | cons e rest ih =>
    rw [run_cons]
    exact ih _ (bodyInv_step m e h (hels e (List.mem_cons_self _ _)))
      (fun x hx => hels x (List.mem_cons_of_mem _ hx))

/-- In exact arithmetic, for elements with non-negative heights laid out on a
fresh Manager, every placed element whose height is at most the page body
height satisfies margins.Top <= Y and Y + Height <= pageSize.Height -
margins.Bottom. -/
theorem inside_body_exact (pageSize : Size) (margins : Padding)
    (elements : List Element) (hnonneg : ∀ e ∈ elements, 0 ≤ e.Bounds.Size.Height)
    (p : Int) (e : Element)
    (he : e ∈ GetPageElements (CalculateLayout (NewManager pageSize margins) elements).1 p)
    (hfit : e.Bounds.Size.Height ≤ pageSize.Height - margins.Top - margins.Bottom) :
    margins.Top ≤ e.Bounds.Position.Y ∧
      e.Bounds.Position.Y + e.Bounds.Size.Height ≤ pageSize.Height - margins.Bottom := by
  have h0 : BodyInv { NewManager pageSize margins with elements := elements } :=
    ⟨le_refl _, fun _ x hx => by simp [NewManager] at hx⟩
  have h := (bodyInv_run _ elements h0 hnonneg).inside p e he
  rw [run_margins, run_pageSize] at h
  exact h hfit

end layout

/-! ## The layout manager: runs that stay on a page and runs of full pages -/

namespace layout

open model

theorem targetPage_ge (m : Manager) (e : Element) : m.currentPage ≤ targetPage m e := by
  rcases targetPage_cases m e with h | h <;> omega

theorem run_currentPage_ge (m : Manager) (els : List Element) :
    m.currentPage ≤ (run m els).currentPage := by
  induction els generalizing m with
  | nil => exact le_refl _
  | cons e rest ih =>
    rw [run_cons]
    have h1 := ih (step m e)
    rw [step_currentPage] at h1
    exact le_trans (targetPage_ge m e) h1

theorem run_below (m : Manager) (els : List Element) (p : Int) (hp : p < m.currentPage) :
    (run m els).pageElements p = m.pageElements p := by
  induction els generalizing m with
  | nil => rfl
  | cons e rest ih =>
    rw [run_cons, ih (step m e) (by rw [step_currentPage]; have := targetPage_ge m e; omega),
      step_pageElements, if_neg (by have := targetPage_ge m e; omega)]

theorem run_extends (m : Manager) (els : List Element) (p : Int) :
    ∃ extra, (run m els).pageElements p = m.pageElements p ++ extra := by
  induction els generalizing m with
  | nil => exact ⟨[], by simp [run_nil]⟩
  | cons e rest ih =>
    obtain ⟨extra, h⟩ := ih (step m e)
    rw [run_cons, h, step_pageElements]
    split
    · rename_i hp
      exact ⟨[setPosition e m.margins.Left (targetY m e)] ++ extra, by rw [hp, List.append_assoc]⟩
    · exact ⟨extra, rfl⟩

theorem sumHeights_cons (e : Element) (l : List Element) :
    sumHeights (e :: l) = e.Bounds.Size.Height + sumHeights l := by
  simp [sumHeights]

theorem sumHeights_nonneg (l : List Element) (h : ∀ e ∈ l, 0 ≤ e.Bounds.Size.Height) :
    0 ≤ sumHeights l := by
  induction l with
  | nil => simp [sumHeights]
  | cons a rest ih =>
    rw [sumHeights_cons]
    have h1 := h a (List.mem_cons_self _ _)
    have h2 := ih (fun x hx => h x (List.mem_cons_of_mem _ hx))
    linarith

/-- A run of elements that fits under the cursor stays on the current page. -/
theorem run_fits (m : Manager) (els : List Element)
    (hnonneg : ∀ e ∈ els, 0 ≤ e.Bounds.Size.Height)
    (hfit : m.currentY + sumHeights els ≤ m.pageSize.Height - m.margins.Bottom) :
    (run m els).currentPage = m.currentPage ∧
      ∃ out, List.Forall₂ SameButPosition els out ∧
        (run m els).pageElements m.currentPage = m.pageElements m.currentPage ++ out := by
  induction els generalizing m with
  | nil => exact ⟨rfl, [], List.Forall₂.nil, by simp [run_nil]⟩
  | cons e rest ih =>
    have h1 := hnonneg e (List.mem_cons_self _ _)
    have h2 := sumHeights_nonneg rest (fun x hx => hnonneg x (List.mem_cons_of_mem _ hx))
    rw [sumHeights_cons] at hfit
    have hno : ¬ e.Bounds.Size.Height > m.pageSize.Height - m.currentY - m.margins.Bottom := by
      rw [gt_iff_lt, not_lt]; linarith
    have hp : targetPage m e = m.currentPage := by unfold targetPage; rw [if_neg hno]
    have hy : targetY m e = m.currentY := by unfold targetY; rw [if_neg hno]
    obtain ⟨hc, out, ho1, ho2⟩ := ih (step m e)
      (fun x hx => hnonneg x (List.mem_cons_of_mem _ hx))
      (by rw [step_currentY, step_pageSize, step_margins, hy]; linarith)
    rw [step_currentPage, hp] at hc ho2
    rw [step_pageElements, hp, if_pos rfl] at ho2
    refine ⟨by rw [run_cons, hc], setPosition e m.margins.Left (targetY m e) :: out,
      List.Forall₂.cons (sameButPosition_setPosition _ _ _) ho1, ?_⟩
    rw [run_cons, ho2, List.append_assoc]
    rfl

/-- A run of full-page elements started with the cursor at the bottom margin
opens one new page per element and leaves the earlier pages as they are. -/
theorem run_full (m : Manager) (els : List Element) (hinv : Inv m)
    (hbody : 0 < m.pageSize.Height - m.margins.Top - m.margins.Bottom)
    (hcur : m.currentY = m.pageSize.Height - m.margins.Bottom)
    (hfull : ∀ e ∈ els,
      e.Bounds.Size.Height = m.pageSize.Height - m.margins.Top - m.margins.Bottom) :
    (run m els).currentPage = m.currentPage + els.length ∧
      (∀ p : Int, p ≤ m.currentPage → (run m els).pageElements p = m.pageElements p) ∧
      ∀ (i : Nat) (hi : i < els.length),
        (run m els).pageElements (m.currentPage + 1 + i) =
          [setPosition els[i] m.margins.Left m.margins.Top] := by
  induction els generalizing m with
  | nil => exact ⟨by simp [run_nil], fun _ _ => rfl, fun i hi => absurd hi (by simp)⟩
  | cons e rest ih =>
    have he := hfull e (List.mem_cons_self _ _)
    have hyes : e.Bounds.Size.Height > m.pageSize.Height - m.currentY - m.margins.Bottom := by
      rw [gt_iff_lt, he, hcur]; linarith
    have hp : targetPage m e = m.currentPage + 1 := by unfold targetPage; rw [if_pos hyes]
    have hy : targetY m e = m.margins.Top := by unfold targetY; rw [if_pos hyes]
    obtain ⟨hc, hkeep, hpages⟩ := ih (step m e) (inv_step m e hinv)
      (by rw [step_pageSize, step_margins]; exact hbody)
      (by rw [step_currentY, step_pageSize, step_margins, hy, he]; ring)
      (by rw [step_pageSize, step_margins]
          exact fun x hx => hfull x (List.mem_cons_of_mem _ hx))
    rw [step_currentPage, hp] at hc hkeep hpages
    refine ⟨by rw [run_cons, hc]; simp; ring, ?_, ?_⟩
    · intro p hle
      rw [run_cons, hkeep p (by omega), step_pageElements, hp, if_neg (by omega)]
    · intro i hi
      rw [run_cons]
      cases i with
      | zero =>
        rw [Nat.cast_zero, add_zero, hkeep _ (le_refl _), step_pageElements, hp, if_pos rfl, hy,
          hinv.outside (m.currentPage + 1) (Or.inr (by omega))]
        rfl
      | succ j =>
        have := hpages j (by simpa using hi)
        rw [step_margins] at this
        simp only [List.getElem_cons_succ]
        rw [← this]
        congr 1
        push_cast
        ring

end layout

/-! ## The layout manager: full pages, and a second run on the same manager -/

namespace layout

open model

/-- In exact arithmetic, for N >= 1 elements, each of height exactly
pageBodyHeight = pageSize.Height - margins.Top - margins.Bottom > 0,
CalculateLayout on a fresh Manager gives TotalPages() = N, and page i + 1 holds
exactly the element of index i, placed at (margins.Left, margins.Top). -/
theorem full_pages_exact (pageSize : Size) (margins : Padding)
    (elements : List Element) (hN : 1 ≤ elements.length)
    (hbody : 0 < pageSize.Height - margins.Top - margins.Bottom)
    (hfull : ∀ e ∈ elements,
      e.Bounds.Size.Height = pageSize.Height - margins.Top - margins.Bottom) :
    TotalPages (CalculateLayout (NewManager pageSize margins) elements).1 = elements.length ∧
      ∀ (i : Nat) (hi : i < elements.length),
        GetPageElements (CalculateLayout (NewManager pageSize margins) elements).1 ((i : Int) + 1) =
          [setPosition elements[i] margins.Left margins.Top] := by
  cases elements with
  | nil => simp at hN
  | cons e rest =>
    let m0 : Manager := { NewManager pageSize margins with elements := e :: rest }
    have he := hfull e (List.mem_cons_self _ _)
    have hno : ¬ e.Bounds.Size.Height > m0.pageSize.Height - m0.currentY - m0.margins.Bottom := by
      rw [gt_iff_lt, not_lt, he]; exact le_refl _
    have hp : targetPage m0 e = 1 := by unfold targetPage; rw [if_neg hno]; rfl
    have hy : targetY m0 e = margins.Top := by unfold targetY; rw [if_neg hno]; rfl
    have hinv0 : Inv m0 := ⟨le_refl _, fun _ _ => rfl⟩
    obtain ⟨hc, hkeep, hpages⟩ := run_full (step m0 e) rest (inv_step m0 e hinv0)
      (by rw [step_pageSize, step_margins]; exact hbody)
      (by rw [step_currentY, step_pageSize, step_margins, hy, he]
          change margins.Top + (pageSize.Height - margins.Top - margins.Bottom) =
            pageSize.Height - margins.Bottom
          ring)
      (by rw [step_pageSize, step_margins]
          exact fun x hx => hfull x (List.mem_cons_of_mem _ hx))
    rw [step_currentPage, hp] at hc hkeep hpages
    have hrun : (CalculateLayout (NewManager pageSize margins) (e :: rest)).1 =
        run (step m0 e) rest := by
      change run m0 (e :: rest) = _
      rw [run_cons]
    rw [hrun]
    refine ⟨by unfold TotalPages; rw [hc]; simp; ring, ?_⟩
    intro i hi
    unfold GetPageElements
    cases i with
    | zero =>
      rw [Nat.cast_zero, zero_add, hkeep 1 (le_refl _), step_pageElements, hp, if_pos rfl, hy]
      rfl
    | succ j =>
      have := hpages j (by simpa using hi)
      rw [step_margins, show m0.margins = margins from rfl] at this
      simp only [List.getElem_cons_succ]
      rw [← this]
      congr 1
      push_cast
      ring

theorem sameLayout_setElements (m : Manager) (z : List Element) :
    SameLayout { m with elements := z } m :=
  ⟨rfl, rfl, rfl, rfl, rfl⟩

theorem sameLayout_step (a b : Manager) (e : Element) (h : SameLayout a b) :
    SameLayout (step a e) (step b e) := by
  obtain ⟨h1, h2, h3, h4, h5⟩ := h
  have hp : targetPage a e = targetPage b e := by unfold targetPage; rw [h1, h2, h3, h4]
  have hy : targetY a e = targetY b e := by unfold targetY; rw [h1, h2, h4]
  refine ⟨by rw [step_pageSize, step_pageSize, h1], by rw [step_margins, step_margins, h2],
    by rw [step_currentPage, step_currentPage, hp], by rw [step_currentY, step_currentY, hy], ?_⟩
  funext p
  rw [step_pageElements, step_pageElements, hp, hy, h2, h5]

theorem sameLayout_run (a b : Manager) (els : List Element) (h : SameLayout a b) :
    SameLayout (run a els) (run b els) := by
  induction els generalizing a b with
  | nil => exact h
  | cons e rest ih => rw [run_cons, run_cons]; exact ih _ _ (sameLayout_step a b e h)

/-- C5, amended: CalculateLayout does not reset the Manager; it continues from the
page counter, cursor and pages that the Manager holds.  Running it on xs and
then on ys leaves the TotalPages() and the GetPageElements(p) of a single run
on xs ++ ys from the same starting state (a fresh Manager included). -/
theorem calculateLayout_continues (m : Manager) (xs ys : List Element) :
    TotalPages (CalculateLayout (CalculateLayout m xs).1 ys).1 =
        TotalPages (CalculateLayout m (xs ++ ys)).1 ∧
      ∀ p : Int, GetPageElements (CalculateLayout (CalculateLayout m xs).1 ys).1 p =
        GetPageElements (CalculateLayout m (xs ++ ys)).1 p := by
  have h1 : SameLayout (CalculateLayout (CalculateLayout m xs).1 ys).1 (run (run m xs) ys) := by
    change SameLayout (run { run { m with elements := xs } xs with elements := ys } ys) _
    apply sameLayout_run
    obtain ⟨a, b, c, d, e⟩ := sameLayout_run _ _ xs (sameLayout_setElements m xs)
    exact ⟨a, b, c, d, e⟩
  have h2 : SameLayout (CalculateLayout m (xs ++ ys)).1 (run (run m xs) ys) := by
    change SameLayout (run { m with elements := xs ++ ys } (xs ++ ys)) _
    rw [← run_append]
    exact sameLayout_run _ _ _ (sameLayout_setElements m _)
  unfold TotalPages GetPageElements
  rw [h1.2.2.1, h2.2.2.1, h1.2.2.2.2, h2.2.2.2.2]
  exact ⟨rfl, fun _ => rfl⟩

end layout

/-! ## The layout manager: an element taller than the page body -/

namespace layout

open model

/-- C6: in a list of elements with non-negative heights laid out on a fresh
Manager, an element (after pre, before post) whose height exceeds the page body
height pageSize.Height - margins.Top - margins.Bottom raises no error and is
stored whole as the first element of a page p in 1 .. TotalPages(), at
(margins.Left, margins.Top); the pages before p hold exactly as many elements
as precede it in the input. -/
theorem calculateLayout_tall_element (pageSize : Size) (margins : Padding)
    (pre post : List Element) (e : Element)
    (hnonneg : ∀ x ∈ pre ++ e :: post, 0 ≤ x.Bounds.Size.Height)
    (htall : e.Bounds.Size.Height > pageSize.Height - margins.Top - margins.Bottom) :
    (CalculateLayout (NewManager pageSize margins) (pre ++ e :: post)).2 = none ∧
      ∃ p : Int, 1 ≤ p ∧
        p ≤ TotalPages (CalculateLayout (NewManager pageSize margins) (pre ++ e :: post)).1 ∧
        ((List.range (p - 1).toNat).flatMap (fun i =>
          GetPageElements (CalculateLayout (NewManager pageSize margins) (pre ++ e :: post)).1
            ((i : Int) + 1))).length = pre.length ∧
        ∃ rest,
          GetPageElements (CalculateLayout (NewManager pageSize margins) (pre ++ e :: post)).1 p =
            setPosition e margins.Left margins.Top :: rest := by
  refine ⟨layoutLoop_snd _ _, ?_⟩
  let m0 : Manager := { NewManager pageSize margins with elements := pre ++ e :: post }
  have hinv0 : Inv m0 := ⟨le_refl _, fun _ _ => rfl⟩
  have hbody0 : BodyInv m0 := ⟨le_refl _, fun _ x hx => by simp [m0, NewManager] at hx⟩
  have hinv1 : Inv (run m0 pre) := inv_run m0 pre hinv0
  have hbody1 : BodyInv (run m0 pre) :=
    bodyInv_run m0 pre hbody0 (fun x hx => hnonneg x (List.mem_append_left _ hx))
  have hps : (run m0 pre).pageSize = pageSize := by rw [run_pageSize]; rfl
  have hmg : (run m0 pre).margins = margins := by rw [run_margins]; rfl
  have hge := hbody1.cursor_ge
  rw [hmg] at hge
  have hyes : e.Bounds.Size.Height >
      (run m0 pre).pageSize.Height - (run m0 pre).currentY - (run m0 pre).margins.Bottom := by
    rw [hps, hmg]
    have := gt_iff_lt.mp htall
    rw [gt_iff_lt]
    linarith
  have hp : targetPage (run m0 pre) e = (run m0 pre).currentPage + 1 := by
    unfold targetPage; rw [if_pos hyes]
  have hy : targetY (run m0 pre) e = margins.Top := by
    unfold targetY; rw [if_pos hyes, hmg]
  have hrun : (CalculateLayout (NewManager pageSize margins) (pre ++ e :: post)).1 =
      run (step (run m0 pre) e) post := by
    change run m0 (pre ++ e :: post) = _
    rw [run_append, run_cons]
  rw [hrun]
  have h1 := hinv1.one_le
  refine ⟨(run m0 pre).currentPage + 1, by omega, ?_, ?_, ?_⟩
  · have := run_currentPage_ge (step (run m0 pre) e) post
    rw [step_currentPage, hp] at this
    exact this
  · unfold GetPageElements
    rw [flatMap_range_pages]
    have e1 : ((run m0 pre).currentPage + 1 - 1).toNat = (run m0 pre).currentPage.toNat := by
      congr 1; ring
    rw [e1]
    rw [pagesUpTo_congr _ (run m0 pre).pageElements _ (fun q hq1 hq2 => by
      rw [run_below _ _ _ (by rw [step_currentPage, hp]; omega), step_pageElements, hp,
        if_neg (by omega)])]
    obtain ⟨out, ho1, ho2⟩ := pagesUpTo_run m0 pre hinv0
    rw [ho1]
    have := ho2.length_eq
    simp [m0, NewManager, pagesUpTo, this]
  · obtain ⟨extra, hex⟩ := run_extends (step (run m0 pre) e) post ((run m0 pre).currentPage + 1)
    refine ⟨extra, ?_⟩
    unfold GetPageElements
    rw [hex, step_pageElements, hp, if_pos rfl, hy, hmg, hinv1.outside _ (Or.inr (by omega))]
    rfl

end layout

/-! ## The rounding of an exact result to a float64 -/

namespace float64

theorem bitLength_spec : ∀ (fuel n : Nat), n ≤ fuel → 0 < n →
    2 ^ (bitLength fuel n - 1) ≤ n ∧ n < 2 ^ bitLength fuel n := by
  intro fuel
  induction fuel with
  | zero => intro n h1 h2; omega
  | succ f ih =>
    intro n h1 h2
    have hn : n ≠ 0 := by omega
    simp only [bitLength, hn, if_false, Nat.add_sub_cancel]
    by_cases h : n / 2 = 0
    · have hn1 : n = 1 := by omega
      subst hn1
      cases f <;> simp [bitLength]
    · obtain ⟨a, b⟩ := ih (n / 2) (by omega) (by omega)
      have hpos : 0 < bitLength f (n / 2) := by
        cases f with
        | zero => omega
        | succ g => simp [bitLength, h]
      obtain ⟨k, hk⟩ : ∃ k, bitLength f (n / 2) = k + 1 := ⟨bitLength f (n / 2) - 1, by omega⟩
      rw [hk] at a b ⊢
      simp only [Nat.add_sub_cancel] at a
      rw [pow_succ] at b ⊢
      constructor <;> omega

/-- The binary exponent of a positive rational brackets it between two powers
of two. -/
theorem binExp_spec (a : ℚ) (h : 0 < a) :
    (2 : ℚ) ^ binExp a ≤ a ∧ a < (2 : ℚ) ^ (binExp a + 1) := by
  have hnum : 0 < a.num := Rat.num_pos.mpr h
  have hn0 : 0 < a.num.natAbs := Int.natAbs_pos.mpr (ne_of_gt hnum)
  have hd0 : 0 < a.den := a.den_pos
  obtain ⟨n1, n2⟩ := bitLength_spec a.num.natAbs a.num.natAbs (le_refl _) hn0
  obtain ⟨d1, d2⟩ := bitLength_spec a.den a.den (le_refl _) hd0
  have hbn : 0 < bitLength a.num.natAbs a.num.natAbs := by
    rcases Nat.eq_zero_or_pos (bitLength a.num.natAbs a.num.natAbs) with h0 | h0
    · rw [h0, pow_zero] at n2; omega
    · exact h0
  have hbd : 0 < bitLength a.den a.den := by
    rcases Nat.eq_zero_or_pos (bitLength a.den a.den) with h0 | h0
    · rw [h0, pow_zero] at d2; omega
    · exact h0
  obtain ⟨p, hp⟩ : ∃ p, bitLength a.num.natAbs a.num.natAbs = p + 1 := ⟨_, (Nat.succ_pred_eq_of_pos hbn).symm⟩
  obtain ⟨q, hq⟩ : ∃ q, bitLength a.den a.den = q + 1 := ⟨_, (Nat.succ_pred_eq_of_pos hbd).symm⟩
  rw [hp] at n1 n2
  rw [hq] at d1 d2
  simp only [Nat.add_sub_cancel] at n1 d1
  have ha : a = (a.num.natAbs : ℚ) / (a.den : ℚ) := by
    rw [Nat.cast_natAbs, abs_of_pos (by exact_mod_cast hnum)]
    exact (Rat.num_div_den a).symm
  have hdq : (0 : ℚ) < (a.den : ℚ) := by exact_mod_cast hd0
  have n1' : (2 : ℚ) ^ p ≤ (a.num.natAbs : ℚ) := by exact_mod_cast n1
  have n2' : (a.num.natAbs : ℚ) < (2 : ℚ) ^ (p + 1) := by exact_mod_cast n2
  have d1' : (2 : ℚ) ^ q ≤ (a.den : ℚ) := by exact_mod_cast d1
  have d2' : (a.den : ℚ) < (2 : ℚ) ^ (q + 1) := by exact_mod_cast d2
  have he : ((bitLength a.num.natAbs a.num.natAbs : Int) - (bitLength a.den a.den : Int)) =
      (p : Int) - (q : Int) := by rw [hp, hq]; push_cast; ring
  have h2pos : ∀ z : Int, (0 : ℚ) < (2 : ℚ) ^ z := fun z => zpow_pos (by norm_num) z
  -- upper bound: a < 2^(p - q + 1)
  have hupper : a < (2 : ℚ) ^ ((p : Int) - (q : Int) + 1) := by
    have : (2 : ℚ) ^ ((p : Int) - (q : Int) + 1) = (2 : ℚ) ^ (p + 1) / (2 : ℚ) ^ q := by
      rw [show ((p : Int) - (q : Int) + 1) = ((p + 1 : Nat) : Int) - ((q : Nat) : Int) by push_cast; ring,
        zpow_sub₀ (by norm_num : (2 : ℚ) ≠ 0), zpow_natCast, zpow_natCast]
    rw [this, ha, div_lt_div_iff₀ hdq (by positivity)]
    calc (a.num.natAbs : ℚ) * 2 ^ q < 2 ^ (p + 1) * 2 ^ q := by
          apply mul_lt_mul_of_pos_right n2' (by positivity)
      _ ≤ 2 ^ (p + 1) * (a.den : ℚ) := by
          apply mul_le_mul_of_nonneg_left d1' (by positivity)
  -- lower bound: 2^(p - q - 1) ≤ a
  have hlower : (2 : ℚ) ^ ((p : Int) - (q : Int) - 1) ≤ a := by
    have : (2 : ℚ) ^ ((p : Int) - (q : Int) - 1) = (2 : ℚ) ^ p / (2 : ℚ) ^ (q + 1) := by
      rw [show ((p : Int) - (q : Int) - 1) = ((p : Nat) : Int) - ((q + 1 : Nat) : Int) by push_cast; ring,
        zpow_sub₀ (by norm_num : (2 : ℚ) ≠ 0), zpow_natCast, zpow_natCast]
    rw [this, ha, div_le_div_iff₀ (by positivity) hdq]
    calc (2 : ℚ) ^ p * (a.den : ℚ) ≤ (a.num.natAbs : ℚ) * (a.den : ℚ) := by
          apply mul_le_mul_of_nonneg_right n1' (le_of_lt hdq)
      _ ≤ (a.num.natAbs : ℚ) * 2 ^ (q + 1) := by
          apply mul_le_mul_of_nonneg_left (le_of_lt d2') (by positivity)
  unfold binExp
  rw [he]
  split_ifs with hc
  · exact ⟨hc, hupper⟩
  · refine ⟨hlower, ?_⟩
    rw [show (p : Int) - (q : Int) - 1 + 1 = (p : Int) - (q : Int) by ring]
    exact not_le.mp hc

/-- The binary exponent of a positive rational is its integer logarithm to the
base 2. -/
theorem binExp_eq_log (a : ℚ) (h : 0 < a) : binExp a = Int.log 2 a := by
  obtain ⟨h1, h2⟩ := binExp_spec a h
  have hle : binExp a ≤ Int.log 2 a := (Int.zpow_le_iff_le_log (by norm_num) h).mp (by exact_mod_cast h1)
  have hlt : Int.log 2 a < binExp a + 1 := (Int.lt_zpow_iff_log_lt (by norm_num) h).mp (by exact_mod_cast h2)
  omega

/-- Rounding to the nearest integer moves a rational by at most one half. -/
theorem roundHalfEven_near (x : ℚ) : |x - (roundHalfEven x : ℚ)| ≤ 1 / 2 := by
  have h1 : (Int.floor x : ℚ) ≤ x := Int.floor_le x
  have h2 : x < (Int.floor x : ℚ) + 1 := Int.lt_floor_add_one x
  unfold roundHalfEven
  split_ifs with a b c
  · rw [abs_le]; constructor <;> linarith
  · rw [abs_le]; push_cast; constructor <;> linarith
  · rw [abs_le]; constructor <;> linarith
  · rw [abs_le]; push_cast; constructor <;> linarith

/-- A rational half way between two integers is rounded to the even one. -/
theorem roundHalfEven_tie (x : ℚ) (h : x - Int.floor x = 1 / 2) : roundHalfEven x % 2 = 0 := by
  unfold roundHalfEven
  rw [h]
  simp only [lt_self_iff_false, if_false]
  split_ifs with c
  · exact c
  · omega

/-- The rounded value is a multiple of the spacing at the magnitude of the
exact value, and differs from the exact value by at most half the spacing. -/
theorem round_near (x : ℚ) :
    (∃ n : Int, round x = (n : ℚ) * (2 : ℚ) ^ ulpExp |x|) ∧
    |x - round x| ≤ (2 : ℚ) ^ ulpExp |x| / 2 := by
  refine ⟨⟨_, rfl⟩, ?_⟩
  have hp : (0 : ℚ) < (2 : ℚ) ^ ulpExp |x| := zpow_pos (by norm_num) _
  have hn := roundHalfEven_near (x / (2 : ℚ) ^ ulpExp |x|)
  unfold round
  have : x - (roundHalfEven (x / (2 : ℚ) ^ ulpExp |x|) : ℚ) * (2 : ℚ) ^ ulpExp |x| =
      (x / (2 : ℚ) ^ ulpExp |x| - (roundHalfEven (x / (2 : ℚ) ^ ulpExp |x|) : ℚ)) *
        (2 : ℚ) ^ ulpExp |x| := by
    field_simp
    ring
  rw [this, abs_mul, abs_of_pos hp]
  calc _ ≤ 1 / 2 * (2 : ℚ) ^ ulpExp |x| := mul_le_mul_of_nonneg_right hn (le_of_lt hp)
    _ = _ := by ring


theorem binExp_unique (a : ℚ) (e : Int) (h1 : (2 : ℚ) ^ e ≤ a) (h2 : a < (2 : ℚ) ^ (e + 1)) :
    binExp a = e := by
  have ha : 0 < a := lt_of_lt_of_le (zpow_pos (by norm_num) e) h1
  rw [binExp_eq_log a ha]
  have hle : e ≤ Int.log 2 a := (Int.zpow_le_iff_le_log (by norm_num) ha).mp (by exact_mod_cast h1)
  have hlt : Int.log 2 a < e + 1 := (Int.lt_zpow_iff_log_lt (by norm_num) ha).mp (by exact_mod_cast h2)
  omega

theorem roundHalfEven_int (n : Int) : roundHalfEven (n : ℚ) = n := by
  unfold roundHalfEven
  simp

/-- If the spacing at the magnitude of `x` is `2^q` and `x` is a multiple of
it, then `x` is not rounded. -/
theorem round_multiple (n q : Int) (h : ulpExp |(n : ℚ) * (2 : ℚ) ^ q| = q) :
    round ((n : ℚ) * (2 : ℚ) ^ q) = (n : ℚ) * (2 : ℚ) ^ q := by
  unfold round
  rw [h]
  have hp : (2 : ℚ) ^ q ≠ 0 := ne_of_gt (zpow_pos (by norm_num) q)
  rw [mul_div_assoc, div_self hp, mul_one, roundHalfEven_int]

/-- Every normal `float64`, a significand of 53 bits times a power of two not
below `2^(-1074)`, is left as it is by the rounding. -/
theorem round_normal (n q : Int) (hlo : (2 : Int) ^ 52 ≤ |n|) (hhi : |n| < (2 : Int) ^ 53)
    (hq : -1074 ≤ q) : round ((n : ℚ) * (2 : ℚ) ^ q) = (n : ℚ) * (2 : ℚ) ^ q := by
  apply round_multiple
  have hp : (0 : ℚ) < (2 : ℚ) ^ q := zpow_pos (by norm_num) q
  have habs : |(n : ℚ) * (2 : ℚ) ^ q| = (|n| : ℚ) * (2 : ℚ) ^ q := by
    rw [abs_mul, abs_of_pos hp]
  have hlo' : ((2 : ℚ) ^ (52 : ℕ)) ≤ (|n| : ℚ) := by exact_mod_cast hlo
  have hhi' : (|n| : ℚ) < ((2 : ℚ) ^ (53 : ℕ)) := by exact_mod_cast hhi
  have hb : binExp |(n : ℚ) * (2 : ℚ) ^ q| = 52 + q := by
    apply binExp_unique
    · rw [habs, zpow_add₀ (by norm_num : (2 : ℚ) ≠ 0)]
      exact mul_le_mul_of_nonneg_right (by exact_mod_cast hlo') (le_of_lt hp)
    · rw [habs, show (52 + q + 1 : Int) = 53 + q by ring, zpow_add₀ (by norm_num : (2 : ℚ) ≠ 0)]
      exact mul_lt_mul_of_pos_right (by exact_mod_cast hhi') hp
  unfold ulpExp
  rw [hb]
  omega

theorem round_zero : round 0 = 0 := by
  unfold round
  rw [zero_div]
  have := roundHalfEven_int 0
  simp only [Int.cast_zero] at this
  rw [this]
  simp

/-- A whole number below `2^53` in absolute value is a `float64`: it is left
as it is by the rounding. -/
theorem round_int (n : Int) (h : |n| < (2 : Int) ^ 53) : round (n : ℚ) = (n : ℚ) := by
  by_cases h0 : n = 0
  · subst h0; simpa using round_zero
  have hpos : (0 : ℚ) < |(n : ℚ)| := abs_pos.mpr (by exact_mod_cast h0)
  have hone : (1 : ℚ) ≤ |(n : ℚ)| := by
    have : (1 : Int) ≤ |n| := Int.one_le_abs h0
    exact_mod_cast this
  have hlt : |(n : ℚ)| < (2 : ℚ) ^ (53 : Int) := by
    have : ((|n| : Int) : ℚ) < (((2 : Int) ^ 53 : Int) : ℚ) := by exact_mod_cast h
    rw [show (53 : Int) = ((53 : Nat) : Int) from rfl, zpow_natCast]
    push_cast at this
    exact this
  obtain ⟨s1, s2⟩ := binExp_spec |(n : ℚ)| hpos
  have he0 : 0 ≤ binExp |(n : ℚ)| := by
    by_contra hc
    have hneg : binExp |(n : ℚ)| + 1 ≤ 0 := by omega
    have : (2 : ℚ) ^ (binExp |(n : ℚ)| + 1) ≤ (2 : ℚ) ^ (0 : Int) :=
      zpow_le_zpow_right₀ (by norm_num) hneg
    simp only [zpow_zero] at this
    linarith
  have he52 : binExp |(n : ℚ)| ≤ 52 := by
    by_contra hc
    have hge : (53 : Int) ≤ binExp |(n : ℚ)| := by omega
    have : (2 : ℚ) ^ (53 : Int) ≤ (2 : ℚ) ^ binExp |(n : ℚ)| :=
      zpow_le_zpow_right₀ (by norm_num) hge
    linarith
  obtain ⟨k, hk⟩ : ∃ k : Nat, (k : Int) = 52 - binExp |(n : ℚ)| :=
    ⟨(52 - binExp |(n : ℚ)|).toNat, by omega⟩
  have hq : binExp |(n : ℚ)| - 52 = -(k : Int) := by omega
  have hmul : (((n * (2 : Int) ^ k : Int)) : ℚ) * (2 : ℚ) ^ (binExp |(n : ℚ)| - 52) = (n : ℚ) := by
    rw [hq, zpow_neg, zpow_natCast]
    push_cast
    field_simp
  have hu : ulpExp |(((n * (2 : Int) ^ k : Int)) : ℚ) * (2 : ℚ) ^ (binExp |(n : ℚ)| - 52)| =
      binExp |(n : ℚ)| - 52 := by
    rw [hmul]
    unfold ulpExp
    omega
  have := round_multiple (n * (2 : Int) ^ k) (binExp |(n : ℚ)| - 52) hu
  rw [hmul] at this
  exact this

end float64

/-! ## The layout manager in rounded arithmetic -/

namespace layout

open model

theorem rounded_positionElement_eq (fl : ℚ → ℚ) (m : Manager) (e : Element) :
    rounded.positionElement fl m e = (rounded.step fl m e, none) := rfl

theorem rounded_layoutLoop_cons (fl : ℚ → ℚ) (m : Manager) (e : Element)
    (rest : List Element) :
    rounded.layoutLoop fl m (e :: rest) = rounded.layoutLoop fl (rounded.step fl m e) rest := by
  simp [rounded.layoutLoop, rounded_positionElement_eq]

theorem rounded_layoutLoop_snd (fl : ℚ → ℚ) (m : Manager) (els : List Element) :
    (rounded.layoutLoop fl m els).2 = none := by
  induction els generalizing m with
  | nil => rfl
  | cons e rest ih => rw [rounded_layoutLoop_cons]; exact ih _

theorem rounded_run_nil (fl : ℚ → ℚ) (m : Manager) : rounded.run fl m [] = m := rfl

theorem rounded_run_cons (fl : ℚ → ℚ) (m : Manager) (e : Element) (rest : List Element) :
    rounded.run fl m (e :: rest) = rounded.run fl (rounded.step fl m e) rest := by
  simp [rounded.run, rounded_layoutLoop_cons]

theorem rounded_step_margins (fl : ℚ → ℚ) (m : Manager) (e : Element) :
    (rounded.step fl m e).margins = m.margins := by
  unfold rounded.step rounded.positionElement startNewPage
  by_cases h : e.Bounds.Size.Height >
    fl (fl (m.pageSize.Height - m.currentY) - m.margins.Bottom) <;> simp [h]

theorem rounded_step_pageSize (fl : ℚ → ℚ) (m : Manager) (e : Element) :
    (rounded.step fl m e).pageSize = m.pageSize := by
  unfold rounded.step rounded.positionElement startNewPage
  by_cases h : e.Bounds.Size.Height >
    fl (fl (m.pageSize.Height - m.currentY) - m.margins.Bottom) <;> simp [h]

theorem rounded_step_currentPage (fl : ℚ → ℚ) (m : Manager) (e : Element) :
    (rounded.step fl m e).currentPage = rounded.targetPage fl m e := by
  unfold rounded.step rounded.positionElement startNewPage rounded.targetPage rounded.available
  by_cases h : e.Bounds.Size.Height >
    fl (fl (m.pageSize.Height - m.currentY) - m.margins.Bottom) <;> simp [h]

theorem rounded_step_currentY (fl : ℚ → ℚ) (m : Manager) (e : Element) :
    (rounded.step fl m e).currentY = fl (rounded.targetY fl m e + e.Bounds.Size.Height) := by
  unfold rounded.step rounded.positionElement startNewPage rounded.targetY rounded.available
    setPosition
  by_cases h : e.Bounds.Size.Height >
    fl (fl (m.pageSize.Height - m.currentY) - m.margins.Bottom) <;> simp [h]

theorem rounded_step_pageElements (fl : ℚ → ℚ) (m : Manager) (e : Element) (p : Int) :
    (rounded.step fl m e).pageElements p =
      if p = rounded.targetPage fl m e
      then m.pageElements (rounded.targetPage fl m e) ++
        [setPosition e m.margins.Left (rounded.targetY fl m e)]
      else m.pageElements p := by
  unfold rounded.step rounded.positionElement startNewPage rounded.targetPage rounded.targetY
    rounded.available
  by_cases h : e.Bounds.Size.Height >
    fl (fl (m.pageSize.Height - m.currentY) - m.margins.Bottom) <;> simp [h]

theorem rounded_run_margins (fl : ℚ → ℚ) (m : Manager) (els : List Element) :
    (rounded.run fl m els).margins = m.margins := by
  induction els generalizing m with
  | nil => rfl
  | cons e rest ih => rw [rounded_run_cons, ih, rounded_step_margins]

theorem rounded_run_pageSize (fl : ℚ → ℚ) (m : Manager) (els : List Element) :
    (rounded.run fl m els).pageSize = m.pageSize := by
  induction els generalizing m with
  | nil => rfl
  | cons e rest ih => rw [rounded_run_cons, ih, rounded_step_pageSize]

theorem rounded_targetPage_cases (fl : ℚ → ℚ) (m : Manager) (e : Element) :
    rounded.targetPage fl m e = m.currentPage ∨
      rounded.targetPage fl m e = m.currentPage + 1 := by
  unfold rounded.targetPage
  split <;> simp

theorem rounded_inv_step (fl : ℚ → ℚ) (m : Manager) (e : Element) (h : Inv m) :
    Inv (rounded.step fl m e) := by
  constructor
  · rw [rounded_step_currentPage]
    rcases rounded_targetPage_cases fl m e with h1 | h1 <;> rw [h1] <;>
      have := h.one_le <;> omega
  · intro p hp
    rw [rounded_step_currentPage] at hp
    rw [rounded_step_pageElements]
    have h0 := h.one_le
    rcases rounded_targetPage_cases fl m e with h1 | h1 <;> rw [h1] at hp ⊢
    · rw [if_neg (by omega)]; exact h.outside p hp
    · rw [if_neg (by omega)]; exact h.outside p (by omega)

theorem rounded_inv_run (fl : ℚ → ℚ) (m : Manager) (els : List Element) (h : Inv m) :
    Inv (rounded.run fl m els) := by
  induction els generalizing m with
  | nil => exact h
  | cons e rest ih => rw [rounded_run_cons]; exact ih _ (rounded_inv_step fl m e h)

theorem rounded_pagesUpTo_step (fl : ℚ → ℚ) (m : Manager) (e : Element) (h : Inv m) :
    pagesUpTo (rounded.step fl m e).pageElements (rounded.step fl m e).currentPage.toNat =
      pagesUpTo m.pageElements m.currentPage.toNat ++
        [setPosition e m.margins.Left (rounded.targetY fl m e)] := by
  have h0 := h.one_le
  obtain ⟨k, hk⟩ : ∃ k : Nat, m.currentPage = (k : Int) + 1 :=
    ⟨(m.currentPage - 1).toNat, by omega⟩
  rw [rounded_step_currentPage]
  rcases rounded_targetPage_cases fl m e with h1 | h1
  · rw [h1, hk]
    have e1 : ((k : Int) + 1).toNat = k + 1 := by omega
    rw [e1]
    simp only [pagesUpTo]
    rw [pagesUpTo_congr (rounded.step fl m e).pageElements m.pageElements k
      (fun p hp1 hp2 => by rw [rounded_step_pageElements, if_neg (by omega)])]
    rw [rounded_step_pageElements, h1, hk, if_pos rfl, List.append_assoc]
  · rw [h1, hk]
    have e1 : ((k : Int) + 1 + 1).toNat = (k + 1) + 1 := by omega
    have e2 : ((k : Int) + 1).toNat = k + 1 := by omega
    rw [e1, e2]
    rw [pagesUpTo]
    rw [pagesUpTo_congr (rounded.step fl m e).pageElements m.pageElements (k + 1)
      (fun p hp1 hp2 => by rw [rounded_step_pageElements, if_neg (by push_cast at hp2; omega)])]
    rw [rounded_step_pageElements, h1, hk]
    have e3 : ((k + 1 : Nat) : Int) + 1 = (k : Int) + 1 + 1 := by push_cast; ring
    rw [e3, if_pos rfl, h.outside _ (by omega)]
    rfl

theorem rounded_pagesUpTo_run (fl : ℚ → ℚ) (m : Manager) (els : List Element) (h : Inv m) :
    ∃ out, pagesUpTo (rounded.run fl m els).pageElements
        (rounded.run fl m els).currentPage.toNat =
        pagesUpTo m.pageElements m.currentPage.toNat ++ out ∧
      List.Forall₂ SameButPosition els out := by
  induction els generalizing m with
  | nil => exact ⟨[], by simp [rounded_run_nil], List.Forall₂.nil⟩
  | cons e rest ih =>
    obtain ⟨out, h1, h2⟩ := ih (rounded.step fl m e) (rounded_inv_step fl m e h)
    refine ⟨setPosition e m.margins.Left (rounded.targetY fl m e) :: out, ?_, ?_⟩
    · rw [rounded_run_cons, h1, rounded_pagesUpTo_step fl m e h, List.append_assoc]; rfl
    · exact List.Forall₂.cons (sameButPosition_setPosition _ _ _) h2

theorem rounded_stacked_snoc (fl : ℚ → ℚ) (x y : ℚ) (l : List Element) (e : Element)
    (h : rounded.Stacked fl x y l) (hx : e.Bounds.Position.X = x)
    (hy : e.Bounds.Position.Y = rounded.cursorBelow fl y l) :
    rounded.Stacked fl x y (l ++ [e]) := by
  induction l generalizing y with
  | nil => exact ⟨hx, hy, trivial⟩
  | cons a rest ih =>
    obtain ⟨h1, h2, h3⟩ := h
    exact ⟨h1, h2, ih _ h3 hy⟩

theorem rounded_cursorBelow_snoc (fl : ℚ → ℚ) (y : ℚ) (l : List Element) (e : Element) :
    rounded.cursorBelow fl y (l ++ [e]) =
      fl (rounded.cursorBelow fl y l + e.Bounds.Size.Height) := by
  induction l generalizing y with
  | nil => rfl
  | cons a rest ih => exact ih _

theorem rounded_stacked_x (fl : ℚ → ℚ) (x y : ℚ) (l : List Element)
    (h : rounded.Stacked fl x y l) : ∀ e ∈ l, e.Bounds.Position.X = x := by
  induction l generalizing y with
  | nil => simp
  | cons a rest ih =>
    intro e he
    rcases List.mem_cons.mp he with h1 | h1
    · rw [h1]; exact h.1
    · exact ih _ h.2.2 e h1

theorem rounded_stacked_head (fl : ℚ → ℚ) (x y : ℚ) (l : List Element)
    (h : rounded.Stacked fl x y l) : ∀ e ∈ l.head?, e.Bounds.Position.Y = y := by
  cases l with
  | nil => simp
  | cons a rest => simpa using h.2.1

theorem rounded_stacked_chain (fl : ℚ → ℚ) (x y : ℚ) (l : List Element)
    (h : rounded.Stacked fl x y l) :
    List.Chain' (fun a b : Element =>
      b.Bounds.Position.Y = fl (a.Bounds.Position.Y + a.Bounds.Size.Height)) l := by
  induction l generalizing y with
  | nil => exact List.chain'_nil
  | cons a rest ih =>
    rw [List.chain'_cons']
    refine ⟨?_, ih _ h.2.2⟩
    intro b hb
    rw [rounded_stacked_head fl x _ rest h.2.2 b hb, h.2.1]

theorem rounded_targetY_eq (fl : ℚ → ℚ) (m : Manager) (e : Element)
    (h : rounded.StackInv fl m) :
    rounded.targetY fl m e =
      rounded.cursorBelow fl m.margins.Top (m.pageElements (rounded.targetPage fl m e)) := by
  unfold rounded.targetY rounded.targetPage
  split
  · rw [h.inv.outside _ (Or.inr (by omega))]; rfl
  · exact h.cursor

theorem rounded_stackInv_step (fl : ℚ → ℚ) (m : Manager) (e : Element)
    (h : rounded.StackInv fl m) : rounded.StackInv fl (rounded.step fl m e) := by
  refine ⟨rounded_inv_step fl m e h.inv, ?_, ?_⟩
  · intro p
    rw [rounded_step_margins, rounded_step_pageElements]
    split
    · exact rounded_stacked_snoc fl _ _ _ _ (h.stacked _) rfl (rounded_targetY_eq fl m e h)
    · exact h.stacked p
  · rw [rounded_step_currentY, rounded_step_margins, rounded_step_pageElements,
      rounded_step_currentPage, if_pos rfl, rounded_cursorBelow_snoc,
      rounded_targetY_eq fl m e h]
    rfl

theorem rounded_stackInv_run (fl : ℚ → ℚ) (m : Manager) (els : List Element)
    (h : rounded.StackInv fl m) : rounded.StackInv fl (rounded.run fl m els) := by
  induction els generalizing m with
  | nil => exact h
  | cons e rest ih => rw [rounded_run_cons]; exact ih _ (rounded_stackInv_step fl m e h)

/-- With the identity for the rounding, the rounded step is the exact step. -/
theorem rounded_step_id (m : Manager) (e : Element) : rounded.step id m e = step m e := rfl

theorem rounded_layoutLoop_id (m : Manager) (els : List Element) :
    rounded.layoutLoop id m els = layoutLoop m els := by
  induction els generalizing m with
  | nil => rfl
  | cons e rest ih =>
    rw [rounded_layoutLoop_cons, layoutLoop_cons, rounded_step_id, ih]

/-- With the identity for the rounding, the rounded layout is the exact one. -/
theorem rounded_calculateLayout_id (m : Manager) (els : List Element) :
    rounded.CalculateLayout id m els = CalculateLayout m els :=
  rounded_layoutLoop_id _ els

/-- A step in which no operation is rounded is the exact step. -/
theorem rounded_step_exact (fl : ℚ → ℚ) (m : Manager) (e : Element)
    (h : rounded.ExactStep fl m e) : rounded.step fl m e = step m e := by
  obtain ⟨h1, h2, h3⟩ := h
  have ha : rounded.available fl m = m.pageSize.Height - m.currentY - m.margins.Bottom := by
    unfold rounded.available
    rw [h2, h1]
  have hy : rounded.targetY fl m e = targetY m e := by
    unfold rounded.targetY targetY
    rw [ha]
  rw [hy] at h3
  unfold rounded.step rounded.positionElement step layout.positionElement
  have ha' : fl (fl (m.pageSize.Height - m.currentY) - m.margins.Bottom) =
      m.pageSize.Height - m.currentY - m.margins.Bottom := ha
  simp only [ha']
  unfold targetY at h3
  by_cases hc : e.Bounds.Size.Height > m.pageSize.Height - m.currentY - m.margins.Bottom
  · simp only [hc, if_true] at h3 ⊢
    simp only [startNewPage, setPosition] at h3 ⊢
    rw [h3]
  · simp only [hc, if_false] at h3 ⊢
    simp only [setPosition] at h3 ⊢
    rw [h3]

/-- A run in which no operation is rounded is the exact run. -/
theorem rounded_run_exact (fl : ℚ → ℚ) (m : Manager) (els : List Element)
    (h : rounded.ExactRun fl m els) : rounded.layoutLoop fl m els = layoutLoop m els := by
  induction els generalizing m with
  | nil => rfl
  | cons e rest ih =>
    obtain ⟨h1, h2⟩ := h
    rw [rounded_layoutLoop_cons, layoutLoop_cons, ← rounded_step_exact fl m e h1]
    exact ih _ h2

theorem rounded_exactRun_congr (fl : ℚ → ℚ) (a b : Manager) (els : List Element)
    (hab : SameLayout a b) (h : rounded.ExactRun fl b els) : rounded.ExactRun fl a els := by
  induction els generalizing a b with
  | nil => trivial
  | cons e rest ih =>
    obtain ⟨h1, h2⟩ := h
    obtain ⟨s1, s2, s3, s4, s5⟩ := hab
    have hty : rounded.targetY fl a e = rounded.targetY fl b e := by
      unfold rounded.targetY rounded.available; rw [s1, s2, s4]
    have htp : rounded.targetPage fl a e = rounded.targetPage fl b e := by
      unfold rounded.targetPage rounded.available; rw [s1, s2, s3, s4]
    have hstep : rounded.ExactStep fl a e := by
      unfold rounded.ExactStep at h1 ⊢
      rw [s1, s2, s4, hty]
      exact h1
    refine ⟨hstep, ih (rounded.step fl a e) (rounded.step fl b e) ?_ h2⟩
    refine ⟨by rw [rounded_step_pageSize, rounded_step_pageSize, s1],
      by rw [rounded_step_margins, rounded_step_margins, s2],
      by rw [rounded_step_currentPage, rounded_step_currentPage, htp],
      by rw [rounded_step_currentY, rounded_step_currentY, hty], ?_⟩
    funext p
    rw [rounded_step_pageElements, rounded_step_pageElements, htp, hty, s2, s5]

/-- When no operation of the run on a fresh manager is rounded, the layout in
rounded arithmetic is the exact layout. -/
theorem rounded_calculateLayout_exact (fl : ℚ → ℚ) (pageSize : Size) (margins : Padding)
    (elements : List Element)
    (h : rounded.ExactRun fl (NewManager pageSize margins) elements) :
    rounded.CalculateLayout fl (NewManager pageSize margins) elements =
      CalculateLayout (NewManager pageSize margins) elements := by
  unfold rounded.CalculateLayout CalculateLayout
  exact rounded_run_exact fl _ elements
    (rounded_exactRun_congr fl _ _ elements (sameLayout_setElements _ _) h)

/-- When the page height, the top and bottom margins and the heights of the
elements are whole numbers from 0 to 2^50, and the cursor is one from 0 to
2^51, no operation of the run in float64 is rounded. -/
theorem rounded_exactRun_whole_from (elements : List Element) :
    ∀ m : Manager, rounded.WholeUpTo (2 ^ 50) m.pageSize.Height →
      rounded.WholeUpTo (2 ^ 50) m.margins.Top →
      rounded.WholeUpTo (2 ^ 50) m.margins.Bottom →
      rounded.WholeUpTo (2 ^ 51) m.currentY →
      (∀ e ∈ elements, rounded.WholeUpTo (2 ^ 50) e.Bounds.Size.Height) →
      rounded.ExactRun float64.round m elements := by
  induction elements with
  | nil => intro m _ _ _ _ _; trivial
  | cons e rest ih =>
    intro m hH hT hB hy hels
    obtain ⟨H, hH1, hH2, hH3⟩ := hH
    obtain ⟨T, hT1, hT2, hT3⟩ := hT
    obtain ⟨B, hB1, hB2, hB3⟩ := hB
    obtain ⟨y, hy1, hy2, hy3⟩ := hy
    obtain ⟨h, hh1, hh2, hh3⟩ := hels e (List.mem_cons_self _ _)
    have r1 : float64.round (m.pageSize.Height - m.currentY) =
        m.pageSize.Height - m.currentY := by
      rw [hH1, hy1, ← Int.cast_sub]
      exact float64.round_int _ (by rw [abs_lt]; constructor <;> omega)
    have r2 : float64.round (m.pageSize.Height - m.currentY - m.margins.Bottom) =
        m.pageSize.Height - m.currentY - m.margins.Bottom := by
      rw [hH1, hy1, hB1, ← Int.cast_sub, ← Int.cast_sub]
      exact float64.round_int _ (by rw [abs_lt]; constructor <;> omega)
    have hav : rounded.available float64.round m =
        m.pageSize.Height - m.currentY - m.margins.Bottom := by
      unfold rounded.available
      rw [r1, r2]
    have hty : rounded.WholeUpTo (2 ^ 51) (rounded.targetY float64.round m e +
        e.Bounds.Size.Height) := by
      unfold rounded.targetY
      rw [hav]
      split_ifs with hc
      · exact ⟨T + h, by rw [hT1, hh1]; push_cast; ring, by omega, by omega⟩
      · refine ⟨y + h, by rw [hy1, hh1]; push_cast; ring, by omega, ?_⟩
        rw [hh1, hH1, hy1, hB1] at hc
        have hc' : (h : ℚ) ≤ ((H - y - B : Int) : ℚ) := by
          push_cast; exact not_lt.mp hc
        have : h ≤ H - y - B := by exact_mod_cast hc'
        omega
    have r3 : float64.round (rounded.targetY float64.round m e + e.Bounds.Size.Height) =
        rounded.targetY float64.round m e + e.Bounds.Size.Height := by
      obtain ⟨z, hz1, hz2, hz3⟩ := hty
      rw [hz1]
      exact float64.round_int _ (by rw [abs_lt]; constructor <;> omega)
    refine ⟨⟨r1, by rw [r1]; exact r2, r3⟩, ?_⟩
    apply ih
    · rw [rounded_step_pageSize]; exact ⟨H, hH1, hH2, hH3⟩
    · rw [rounded_step_margins]; exact ⟨T, hT1, hT2, hT3⟩
    · rw [rounded_step_margins]; exact ⟨B, hB1, hB2, hB3⟩
    · rw [rounded_step_currentY, r3]; exact hty
    · exact fun x hx => hels x (List.mem_cons_of_mem _ hx)

/-- When the page height, the top and bottom margins and the heights of the
elements are whole numbers from 0 to 2^50, no operation of the run of
CalculateLayout on a fresh manager in float64 is rounded. -/
theorem rounded_exactRun_whole (pageSize : Size) (margins : Padding) (elements : List Element)
    (hH : rounded.WholeUpTo (2 ^ 50) pageSize.Height)
    (hT : rounded.WholeUpTo (2 ^ 50) margins.Top)
    (hB : rounded.WholeUpTo (2 ^ 50) margins.Bottom)
    (hels : ∀ e ∈ elements, rounded.WholeUpTo (2 ^ 50) e.Bounds.Size.Height) :
    rounded.ExactRun float64.round (NewManager pageSize margins) elements := by
  apply rounded_exactRun_whole_from elements _ hH hT hB _ hels
  obtain ⟨T, hT1, hT2, hT3⟩ := hT
  exact ⟨T, hT1, hT2, by omega⟩

end layout

/-! ## The layout manager: stacked pages, full pages and the page body in float64 -/

namespace layout

open model

/-- The pages of a layout in rounded arithmetic on a fresh manager: in page
order they are the input elements, and every page is stacked from the top
margin. -/
theorem rounded_stacks_pages (fl : ℚ → ℚ) (pageSize : Size) (margins : Padding)
    (elements : List Element) :
    List.Forall₂
      (fun a b => a.ID = b.ID ∧ a.Typ = b.Typ ∧ a.Bounds.Size = b.Bounds.Size ∧
        a.Content = b.Content ∧ a.Style = b.Style ∧ a.Metadata = b.Metadata)
      elements
      ((List.range (TotalPages
          (rounded.CalculateLayout fl (NewManager pageSize margins) elements).1).toNat).flatMap
        (fun i => GetPageElements
          (rounded.CalculateLayout fl (NewManager pageSize margins) elements).1 ((i : Int) + 1))) ∧
    ∀ p : Int,
      (∀ e ∈ GetPageElements (rounded.CalculateLayout fl (NewManager pageSize margins) elements).1 p,
        e.Bounds.Position.X = margins.Left) ∧
      (∀ e ∈ (GetPageElements
          (rounded.CalculateLayout fl (NewManager pageSize margins) elements).1 p).head?,
        e.Bounds.Position.Y = margins.Top) ∧
      List.Chain' (fun a b : Element =>
          b.Bounds.Position.Y = fl (a.Bounds.Position.Y + a.Bounds.Size.Height))
        (GetPageElements (rounded.CalculateLayout fl (NewManager pageSize margins) elements).1 p) := by
  have hinv : Inv { NewManager pageSize margins with elements := elements } :=
    ⟨le_refl _, fun _ _ => rfl⟩
  have h0 : rounded.StackInv fl { NewManager pageSize margins with elements := elements } :=
    ⟨hinv, fun _ => trivial, rfl⟩
  obtain ⟨out, h1, h2⟩ := rounded_pagesUpTo_run fl _ elements hinv
  constructor
  · unfold TotalPages GetPageElements rounded.CalculateLayout
    rw [flatMap_range_pages]
    change List.Forall₂ _ elements (pagesUpTo (rounded.run fl _ elements).pageElements
      (rounded.run fl _ elements).currentPage.toNat)
    rw [h1]
    simpa [NewManager, pagesUpTo] using h2
  · intro p
    have h := (rounded_stackInv_run fl _ elements h0).stacked p
    have hm : (rounded.run fl { NewManager pageSize margins with elements := elements }
        elements).margins = margins := by rw [rounded_run_margins]; rfl
    rw [hm] at h
    exact ⟨rounded_stacked_x fl _ _ _ h, rounded_stacked_head fl _ _ _ h,
      rounded_stacked_chain fl _ _ _ h⟩

/-- For whole numbers from 0 to 2^50 the statement of full pages holds in the
float64 arithmetic of the code. -/
theorem full_pages_whole (pageSize : Size) (margins : Padding)
    (elements : List Element) (hN : 1 ≤ elements.length)
    (hbody : 0 < pageSize.Height - margins.Top - margins.Bottom)
    (hfull : ∀ e ∈ elements,
      e.Bounds.Size.Height = pageSize.Height - margins.Top - margins.Bottom)
    (hH : rounded.WholeUpTo (2 ^ 50) pageSize.Height)
    (hT : rounded.WholeUpTo (2 ^ 50) margins.Top)
    (hB : rounded.WholeUpTo (2 ^ 50) margins.Bottom) :
    TotalPages (rounded.CalculateLayout float64.round (NewManager pageSize margins)
        elements).1 = elements.length ∧
      ∀ (i : Nat) (hi : i < elements.length),
        GetPageElements (rounded.CalculateLayout float64.round (NewManager pageSize margins)
            elements).1 ((i : Int) + 1) =
          [setPosition elements[i] margins.Left margins.Top] := by
  have hels : ∀ e ∈ elements, rounded.WholeUpTo (2 ^ 50) e.Bounds.Size.Height := by
    intro e he
    obtain ⟨H, hH1, hH2, hH3⟩ := hH
    obtain ⟨T, hT1, hT2, hT3⟩ := hT
    obtain ⟨B, hB1, hB2, hB3⟩ := hB
    rw [hH1, hT1, hB1] at hbody
    have hb : (0 : ℚ) < ((H - T - B : Int) : ℚ) := by push_cast; exact hbody
    have hb' : 0 < H - T - B := by exact_mod_cast hb
    exact ⟨H - T - B, by rw [hfull e he, hH1, hT1, hB1]; push_cast; ring, by omega, by omega⟩
  rw [rounded_calculateLayout_exact float64.round pageSize margins elements
    (rounded_exactRun_whole pageSize margins elements hH hT hB hels)]
  exact full_pages_exact pageSize margins elements hN hbody hfull

/-- For whole numbers from 0 to 2^50 every placed element that fits the page
body lies inside it, in the float64 arithmetic of the code. -/
theorem inside_body_whole (pageSize : Size) (margins : Padding)
    (elements : List Element)
    (hH : rounded.WholeUpTo (2 ^ 50) pageSize.Height)
    (hT : rounded.WholeUpTo (2 ^ 50) margins.Top)
    (hB : rounded.WholeUpTo (2 ^ 50) margins.Bottom)
    (hels : ∀ e ∈ elements, rounded.WholeUpTo (2 ^ 50) e.Bounds.Size.Height)
    (p : Int) (e : Element)
    (he : e ∈ GetPageElements
      (rounded.CalculateLayout float64.round (NewManager pageSize margins) elements).1 p)
    (hfit : e.Bounds.Size.Height ≤ pageSize.Height - margins.Top - margins.Bottom) :
    margins.Top ≤ e.Bounds.Position.Y ∧
      e.Bounds.Position.Y + e.Bounds.Size.Height ≤ pageSize.Height - margins.Bottom := by
  rw [rounded_calculateLayout_exact float64.round pageSize margins elements
    (rounded_exactRun_whole pageSize margins elements hH hT hB hels)] at he
  refine inside_body_exact pageSize margins elements ?_ p e he hfit
  intro x hx
  obtain ⟨n, hn1, hn2, _⟩ := hels x hx
  rw [hn1]
  exact_mod_cast hn2

/-- C4: after CalculateLayout on a fresh Manager, the pages 1 .. TotalPages(),
in page order, hold the input elements in input order, one for one (only the
position differs); on every page each element has X = margins.Left, the first
element of the page (if any) has Y = margins.Top, and each later element has Y
equal to the Y of the element before it plus that element's Height.  This
holds in exact arithmetic and, with the sum rounded as the float64 addition of
the code rounds it, for every rounding. -/
theorem calculateLayout_stacks_pages (pageSize : Size) (margins : Padding)
    (elements : List Element) :
    (List.Forall₂
        (fun a b => a.ID = b.ID ∧ a.Typ = b.Typ ∧ a.Bounds.Size = b.Bounds.Size ∧
          a.Content = b.Content ∧ a.Style = b.Style ∧ a.Metadata = b.Metadata)
        elements
        ((List.range (TotalPages
            (CalculateLayout (NewManager pageSize margins) elements).1).toNat).flatMap
          (fun i => GetPageElements
            (CalculateLayout (NewManager pageSize margins) elements).1 ((i : Int) + 1))) ∧
      ∀ p : Int,
        (∀ e ∈ GetPageElements (CalculateLayout (NewManager pageSize margins) elements).1 p,
          e.Bounds.Position.X = margins.Left) ∧
        (∀ e ∈ (GetPageElements (CalculateLayout (NewManager pageSize margins) elements).1 p).head?,
          e.Bounds.Position.Y = margins.Top) ∧
        List.Chain' (fun a b : Element =>
            b.Bounds.Position.Y = a.Bounds.Position.Y + a.Bounds.Size.Height)
          (GetPageElements (CalculateLayout (NewManager pageSize margins) elements).1 p)) ∧
    ∀ fl : ℚ → ℚ,
      List.Forall₂
        (fun a b => a.ID = b.ID ∧ a.Typ = b.Typ ∧ a.Bounds.Size = b.Bounds.Size ∧
          a.Content = b.Content ∧ a.Style = b.Style ∧ a.Metadata = b.Metadata)
        elements
        ((List.range (TotalPages
            (rounded.CalculateLayout fl (NewManager pageSize margins) elements).1).toNat).flatMap
          (fun i => GetPageElements
            (rounded.CalculateLayout fl (NewManager pageSize margins) elements).1
              ((i : Int) + 1))) ∧
      ∀ p : Int,
        (∀ e ∈ GetPageElements
            (rounded.CalculateLayout fl (NewManager pageSize margins) elements).1 p,
          e.Bounds.Position.X = margins.Left) ∧
        (∀ e ∈ (GetPageElements
            (rounded.CalculateLayout fl (NewManager pageSize margins) elements).1 p).head?,
          e.Bounds.Position.Y = margins.Top) ∧
        List.Chain' (fun a b : Element =>
            b.Bounds.Position.Y = fl (a.Bounds.Position.Y + a.Bounds.Size.Height))
          (GetPageElements
            (rounded.CalculateLayout fl (NewManager pageSize margins) elements).1 p) := by
  refine ⟨?_, fun fl => rounded_stacks_pages fl pageSize margins elements⟩
  have h := rounded_stacks_pages id pageSize margins elements
  rw [rounded_calculateLayout_id] at h
  exact h

/-- C2, amended: for N >= 1 elements, each of height exactly
pageBodyHeight = pageSize.Height - margins.Top - margins.Bottom > 0, laid out
by CalculateLayout on a fresh Manager in the float64 arithmetic of the code,
when none of the subtractions and additions of the run is rounded:
TotalPages() = N, and page i + 1 holds exactly the element of index i, placed
at (margins.Left, margins.Top). -/
theorem calculateLayout_full_pages (fl : ℚ → ℚ) (pageSize : Size) (margins : Padding)
    (elements : List Element) (hN : 1 ≤ elements.length)
    (hbody : 0 < pageSize.Height - margins.Top - margins.Bottom)
    (hfull : ∀ e ∈ elements,
      e.Bounds.Size.Height = pageSize.Height - margins.Top - margins.Bottom)
    (hexact : rounded.ExactRun fl (NewManager pageSize margins) elements) :
    TotalPages (rounded.CalculateLayout fl (NewManager pageSize margins) elements).1 =
        elements.length ∧
      ∀ (i : Nat) (hi : i < elements.length),
        GetPageElements (rounded.CalculateLayout fl (NewManager pageSize margins) elements).1
            ((i : Int) + 1) =
          [setPosition elements[i] margins.Left margins.Top] := by
  rw [rounded_calculateLayout_exact fl pageSize margins elements hexact]
  exact full_pages_exact pageSize margins elements hN hbody hfull

theorem calculateLayout_full_pages_witness :
    1 ≤ [sampleElement "a" 80, sampleElement "b" 80].length ∧
    0 < samplePage.Height - sampleMargins.Top - sampleMargins.Bottom ∧
    (∀ e ∈ [sampleElement "a" 80, sampleElement "b" 80],
      e.Bounds.Size.Height = samplePage.Height - sampleMargins.Top - sampleMargins.Bottom) ∧
    rounded.ExactRun float64.round (NewManager samplePage sampleMargins)
      [sampleElement "a" 80, sampleElement "b" 80] ∧
    (TotalPages (rounded.CalculateLayout float64.round (NewManager samplePage sampleMargins)
        [sampleElement "a" 80, sampleElement "b" 80]).1 =
        [sampleElement "a" 80, sampleElement "b" 80].length ∧
      ∀ (i : Nat) (hi : i < [sampleElement "a" 80, sampleElement "b" 80].length),
        GetPageElements (rounded.CalculateLayout float64.round
          (NewManager samplePage sampleMargins)
          [sampleElement "a" 80, sampleElement "b" 80]).1 ((i : Int) + 1) =
          [setPosition ([sampleElement "a" 80, sampleElement "b" 80][i])
            sampleMargins.Left sampleMargins.Top]) :=
  have h1 : 1 ≤ [sampleElement "a" 80, sampleElement "b" 80].length := by decide
  have h2 : 0 < samplePage.Height - sampleMargins.Top - sampleMargins.Bottom := by
    norm_num [samplePage, sampleMargins]
  have h3 : ∀ e ∈ [sampleElement "a" 80, sampleElement "b" 80],
      e.Bounds.Size.Height = samplePage.Height - sampleMargins.Top - sampleMargins.Bottom := by
    intro e he
    simp at he
    rcases he with h | h <;> subst h <;> norm_num [sampleElement, samplePage, sampleMargins]
  have h4 : rounded.ExactRun float64.round (NewManager samplePage sampleMargins)
      [sampleElement "a" 80, sampleElement "b" 80] := by decide!
  ⟨h1, h2, h3, h4,
    calculateLayout_full_pages float64.round samplePage sampleMargins _ h1 h2 h3 h4⟩

/-- C2, counterexample: on a page of height 1 with the float64 margins 0.3 at
the top and 0.2 at the bottom the exact page body height is 1/2; two elements
of height exactly 1/2 are laid out on three pages, the first page empty,
because the available height that the code computes for the first element,
(1 - 0.3) - 0.2 rounded twice, is below 1/2.  And on a page of height 2^53 + 2
with margins 2^53 at the top and 1 at the bottom the exact page body height
is 1; three elements of height 1 are laid out on one page, because the cursor
2^53 + 1 is rounded back to 2^53. -/
theorem calculateLayout_full_pages_rounding :
    f03 = 5404319552844595 / 18014398509481984 ∧
    f02 = 3602879701896397 / 18014398509481984 ∧
    unitPage.Height - marginsTopBottom.Top - marginsTopBottom.Bottom = 1 / 2 ∧
    [sampleElement "a" (1 / 2), sampleElement "b" (1 / 2)].map
      (fun e => e.Bounds.Size.Height) = [1 / 2, 1 / 2] ∧
    rounded.available float64.round (NewManager unitPage marginsTopBottom) =
      9007199254740991 / 18014398509481984 ∧
    TotalPages (rounded.CalculateLayout float64.round (NewManager unitPage marginsTopBottom)
      [sampleElement "a" (1 / 2), sampleElement "b" (1 / 2)]).1 = 3 ∧
    (GetPageElements (rounded.CalculateLayout float64.round (NewManager unitPage marginsTopBottom)
      [sampleElement "a" (1 / 2), sampleElement "b" (1 / 2)]).1 1).map (fun e => e.ID) = [] ∧
    (GetPageElements (rounded.CalculateLayout float64.round (NewManager unitPage marginsTopBottom)
      [sampleElement "a" (1 / 2), sampleElement "b" (1 / 2)]).1 2).map (fun e => e.ID) = ["a"] ∧
    (GetPageElements (rounded.CalculateLayout float64.round (NewManager unitPage marginsTopBottom)
      [sampleElement "a" (1 / 2), sampleElement "b" (1 / 2)]).1 3).map (fun e => e.ID) = ["b"] ∧
    tallPage.Height - marginsTopLarge.Top - marginsTopLarge.Bottom = 1 ∧
    [sampleElement "a" 1, sampleElement "b" 1, sampleElement "c" 1].map
      (fun e => e.Bounds.Size.Height) = [1, 1, 1] ∧
    float64.round (marginsTopLarge.Top + 1) = marginsTopLarge.Top ∧
    TotalPages (rounded.CalculateLayout float64.round (NewManager tallPage marginsTopLarge)
      [sampleElement "a" 1, sampleElement "b" 1, sampleElement "c" 1]).1 = 1 ∧
    (GetPageElements (rounded.CalculateLayout float64.round (NewManager tallPage marginsTopLarge)
      [sampleElement "a" 1, sampleElement "b" 1, sampleElement "c" 1]).1 1).map
        (fun e => e.ID) = ["a", "b", "c"] := by
  refine ⟨by decide!, by decide!, by decide!, by decide!, by decide!, by decide!, by decide!,
    by decide!, by decide!, by decide!, by decide!, by decide!, by decide!, by decide!⟩

/-- C3, amended: for elements with non-negative heights laid out by
CalculateLayout on a fresh Manager in the float64 arithmetic of the code, when
none of the subtractions and additions of the run is rounded, every placed
element whose height is at most the page body height
(pageSize.Height - margins.Top - margins.Bottom) satisfies margins.Top <= Y and
Y + Height <= pageSize.Height - margins.Bottom. -/
theorem calculateLayout_inside_body (fl : ℚ → ℚ) (pageSize : Size) (margins : Padding)
    (elements : List Element) (hnonneg : ∀ e ∈ elements, 0 ≤ e.Bounds.Size.Height)
    (hexact : rounded.ExactRun fl (NewManager pageSize margins) elements)
    (p : Int) (e : Element)
    (he : e ∈ GetPageElements
      (rounded.CalculateLayout fl (NewManager pageSize margins) elements).1 p)
    (hfit : e.Bounds.Size.Height ≤ pageSize.Height - margins.Top - margins.Bottom) :
    margins.Top ≤ e.Bounds.Position.Y ∧
      e.Bounds.Position.Y + e.Bounds.Size.Height ≤ pageSize.Height - margins.Bottom := by
  rw [rounded_calculateLayout_exact fl pageSize margins elements hexact] at he
  exact inside_body_exact pageSize margins elements hnonneg p e he hfit

theorem calculateLayout_inside_body_witness :
    (∀ e ∈ [sampleElement "a" 30, sampleElement "b" 40], 0 ≤ e.Bounds.Size.Height) ∧
    rounded.ExactRun float64.round (NewManager samplePage sampleMargins)
      [sampleElement "a" 30, sampleElement "b" 40] ∧
    setPosition (sampleElement "b" 40) 10 40 ∈
      GetPageElements (rounded.CalculateLayout float64.round
        (NewManager samplePage sampleMargins) [sampleElement "a" 30, sampleElement "b" 40]).1 1 ∧
    (setPosition (sampleElement "b" 40) 10 40).Bounds.Size.Height ≤
      samplePage.Height - sampleMargins.Top - sampleMargins.Bottom ∧
    (sampleMargins.Top ≤ (setPosition (sampleElement "b" 40) 10 40).Bounds.Position.Y ∧
      (setPosition (sampleElement "b" 40) 10 40).Bounds.Position.Y +
        (setPosition (sampleElement "b" 40) 10 40).Bounds.Size.Height ≤
        samplePage.Height - sampleMargins.Bottom) :=
  have h1 : ∀ e ∈ [sampleElement "a" 30, sampleElement "b" 40], 0 ≤ e.Bounds.Size.Height := by
    intro e he
    simp at he
    rcases he with h | h <;> subst h <;> norm_num [sampleElement]
  have hx : rounded.ExactRun float64.round (NewManager samplePage sampleMargins)
      [sampleElement "a" 30, sampleElement "b" 40] := by decide!
  have h2 : setPosition (sampleElement "b" 40) 10 40 ∈
      GetPageElements (rounded.CalculateLayout float64.round
        (NewManager samplePage sampleMargins) [sampleElement "a" 30, sampleElement "b" 40]).1 1 := by
    rw [rounded_calculateLayout_exact float64.round samplePage sampleMargins _ hx]
    norm_num [GetPageElements, CalculateLayout, layoutLoop, positionElement, NewManager,
      startNewPage, setPosition, sampleElement, samplePage, sampleMargins]
  have h3 : (setPosition (sampleElement "b" 40) 10 40).Bounds.Size.Height ≤
      samplePage.Height - sampleMargins.Top - sampleMargins.Bottom := by
    norm_num [setPosition, sampleElement, samplePage, sampleMargins]
  ⟨h1, hx, h2, h3,
    calculateLayout_inside_body float64.round samplePage sampleMargins _ h1 hx 1 _ h2 h3⟩

/-- C3, counterexample: on a page of height 3 with the float64 margin 0.1 at
the bottom, the elements of the float64 heights 0.8 and 2.1, each at most the
page body height, are both put on page 1, the second at Y = 0.8, because the
available height that the code computes for it, (3 - 0.8) - 0.1 rounded twice,
is 2.1; but 0.8 + 2.1 is greater than 3 - 0.1, exactly and as float64
operations: the second element crosses the bottom margin. -/
theorem calculateLayout_inside_body_rounding :
    f01 = 3602879701896397 / 36028797018963968 ∧
    f08 = 3602879701896397 / 4503599627370496 ∧
    f21 = 4728779608739021 / 2251799813685248 ∧
    (0 : ℚ) ≤ f08 ∧ (0 : ℚ) ≤ f21 ∧
    f08 ≤ threePage.Height - marginBottomTenth.Top - marginBottomTenth.Bottom ∧
    f21 ≤ threePage.Height - marginBottomTenth.Top - marginBottomTenth.Bottom ∧
    TotalPages (rounded.CalculateLayout float64.round (NewManager threePage marginBottomTenth)
      [sampleElement "a" f08, sampleElement "b" f21]).1 = 1 ∧
    (GetPageElements (rounded.CalculateLayout float64.round
      (NewManager threePage marginBottomTenth)
      [sampleElement "a" f08, sampleElement "b" f21]).1 1).map
        (fun e => (e.ID, e.Bounds.Position.Y, e.Bounds.Size.Height)) =
      [("a", 0, f08), ("b", f08, f21)] ∧
    ¬ (f08 + f21 ≤ threePage.Height - marginBottomTenth.Bottom) ∧
    ¬ (float64.round (f08 + f21) ≤
      float64.round (threePage.Height - marginBottomTenth.Bottom)) := by
  refine ⟨by decide!, by decide!, by decide!, by decide!, by decide!, by decide!, by decide!,
    by decide!, by decide!, by decide!, by decide!⟩

end layout

/-! ## The layout manager: the theorems at sample inputs -/

namespace layout

open model

theorem calculateLayout_tall_element_witness :
    (∀ x ∈ [sampleElement "a" 30] ++ sampleElement "tall" 200 :: [sampleElement "b" 30],
      0 ≤ x.Bounds.Size.Height) ∧
    (sampleElement "tall" 200).Bounds.Size.Height >
      samplePage.Height - sampleMargins.Top - sampleMargins.Bottom ∧
    ((CalculateLayout (NewManager samplePage sampleMargins)
        ([sampleElement "a" 30] ++ sampleElement "tall" 200 :: [sampleElement "b" 30])).2 = none ∧
      ∃ p : Int, 1 ≤ p ∧
        p ≤ TotalPages (CalculateLayout (NewManager samplePage sampleMargins)
          ([sampleElement "a" 30] ++ sampleElement "tall" 200 :: [sampleElement "b" 30])).1 ∧
        ((List.range (p - 1).toNat).flatMap (fun i =>
          GetPageElements (CalculateLayout (NewManager samplePage sampleMargins)
            ([sampleElement "a" 30] ++ sampleElement "tall" 200 :: [sampleElement "b" 30])).1
            ((i : Int) + 1))).length = [sampleElement "a" 30].length ∧
        ∃ rest,
          GetPageElements (CalculateLayout (NewManager samplePage sampleMargins)
            ([sampleElement "a" 30] ++ sampleElement "tall" 200 :: [sampleElement "b" 30])).1 p =
            setPosition (sampleElement "tall" 200) sampleMargins.Left sampleMargins.Top :: rest) :=
  have h1 : ∀ x ∈ [sampleElement "a" 30] ++ sampleElement "tall" 200 :: [sampleElement "b" 30],
      0 ≤ x.Bounds.Size.Height := by
    intro x hx
    simp at hx
    rcases hx with h | h | h <;> subst h <;> norm_num [sampleElement]
  have h2 : (sampleElement "tall" 200).Bounds.Size.Height >
      samplePage.Height - sampleMargins.Top - sampleMargins.Bottom := by
    norm_num [sampleElement, samplePage, sampleMargins]
  ⟨h1, h2, calculateLayout_tall_element samplePage sampleMargins _ _ _ h1 h2⟩

/-- C5, counterexample: on a Manager that has already laid out one element of
height 30 (100 x 100 page, margins 10), laying out the same element again
leaves two elements on page 1, where a freshly constructed Manager with the
same page size and margins leaves one. -/
theorem calculateLayout_second_run_appends :
    (GetPageElements (CalculateLayout
        (CalculateLayout (NewManager samplePage sampleMargins) [sampleElement "a" 30]).1
        [sampleElement "a" 30]).1 1).length = 2 ∧
    (GetPageElements (CalculateLayout
        (NewManager
          (CalculateLayout (NewManager samplePage sampleMargins) [sampleElement "a" 30]).1.pageSize
          (CalculateLayout (NewManager samplePage sampleMargins) [sampleElement "a" 30]).1.margins)
        [sampleElement "a" 30]).1 1).length = 1 := by
  norm_num [GetPageElements, CalculateLayout, layoutLoop, positionElement, NewManager,
    startNewPage, setPosition, sampleElement, samplePage, sampleMargins]

end layout

/-! ## Template synthesis, and the synthesized customer template on one page -/

namespace dynamic

open model gofmt layout

/-- On a string of ASCII characters every case table gives the upper-casing
of the ASCII letters. -/
theorem toUpper_ascii (U : CaseTable) (s : String) (h : ∀ c ∈ s.data, c.toNat < 128) :
    ToUpper U s = ToUpper asciiCase s := by
  unfold ToUpper
  congr 1
  apply List.map_congr_left
  intro c hc
  exact U.ascii c (h c hc)

theorem toUpper_customer (U : CaseTable) : ToUpper U "customer" = "CUSTOMER" := by
  rw [toUpper_ascii U "customer" (by decide)]
  decide

/-- The three elements synthesized from the customer object. -/
theorem customer_elements (U : CaseTable) :
    (GenerateTemplate U NewGenerator customerData).Elements =
      [ { ID := "title"
          Typ := "text"
          Bounds := { Position := { X := 20, Y := 20 }, Size := { Width := 170, Height := 16 } }
          Content := .str "Data Report"
          Style := some
            { FontFamily := "Arial", FontSize := 24, FontColor := "#000000", Background := "",
              Border := none, Padding := none, Alignment := "center" }
          Metadata := [] },
        { ID := "header-customer"
          Typ := "text"
          Bounds := { Position := { X := 20, Y := 44 }, Size := { Width := 170, Height := 12 } }
          Content := .str "CUSTOMER"
          Style := some
            { FontFamily := "Arial", FontSize := 14, FontColor := "#333333",
              Background := "#f5f5f5", Border := none,
              Padding := some { Top := 2, Right := 5, Bottom := 2, Left := 5 }, Alignment := "" }
          Metadata := [] },
        { ID := "field-customer.name"
          Typ := "text"
          Bounds := { Position := { X := 20, Y := 56 }, Size := { Width := 170, Height := 8 } }
          Content := .str "customer.name: John"
          Style := some
            { FontFamily := "Arial", FontSize := 12, FontColor := "#000000", Background := "",
              Border := none, Padding := none, Alignment := "" }
          Metadata := [] } ] := by
  simp [GenerateTemplate, processData, processEntries, NewGenerator, customerData,
    createSectionHeader, createValueElement, formatValue]
  norm_num
  exact toUpper_customer U

/-- In exact arithmetic, elements with non-negative heights whose heights sum
to at most the page body height all go on page 1. -/
theorem single_page_exact (pageSize : Size) (margins : Padding) (elements : List Element)
    (hnonneg : ∀ e ∈ elements, 0 ≤ e.Bounds.Size.Height)
    (hsum : (elements.map (fun e => e.Bounds.Size.Height)).sum ≤
      pageSize.Height - margins.Top - margins.Bottom) :
    TotalPages (CalculateLayout (NewManager pageSize margins) elements).1 = 1 ∧
      List.Forall₂
        (fun a b => a.ID = b.ID ∧ a.Typ = b.Typ ∧ a.Bounds.Size = b.Bounds.Size ∧
          a.Content = b.Content ∧ a.Style = b.Style ∧ a.Metadata = b.Metadata)
        elements
        (GetPageElements (CalculateLayout (NewManager pageSize margins) elements).1 1) := by
  obtain ⟨hc, out, ho1, ho2⟩ :=
    run_fits { NewManager pageSize margins with elements := elements } elements hnonneg
      (by change margins.Top + sumHeights elements ≤ pageSize.Height - margins.Bottom
          unfold sumHeights; linarith)
  refine ⟨hc, ?_⟩
  change List.Forall₂ _ elements ((run _ elements).pageElements 1)
  have h1 : (run { NewManager pageSize margins with elements := elements }
      elements).pageElements 1 = out := by
    rw [show (1 : Int) =
      ({ NewManager pageSize margins with elements := elements } : Manager).currentPage
      from rfl, ho2]
    rfl
  rw [h1]
  exact ho1

/-- For whole numbers from 0 to 2^50 whose heights sum to at most the page
body height, all elements go on page 1 in the float64 arithmetic of the
code. -/
theorem single_page_whole (pageSize : Size) (margins : Padding) (elements : List Element)
    (hH : rounded.WholeUpTo (2 ^ 50) pageSize.Height)
    (hT : rounded.WholeUpTo (2 ^ 50) margins.Top)
    (hB : rounded.WholeUpTo (2 ^ 50) margins.Bottom)
    (hels : ∀ e ∈ elements, rounded.WholeUpTo (2 ^ 50) e.Bounds.Size.Height)
    (hsum : (elements.map (fun e => e.Bounds.Size.Height)).sum ≤
      pageSize.Height - margins.Top - margins.Bottom) :
    TotalPages (rounded.CalculateLayout float64.round (NewManager pageSize margins)
        elements).1 = 1 ∧
      List.Forall₂
        (fun a b => a.ID = b.ID ∧ a.Typ = b.Typ ∧ a.Bounds.Size = b.Bounds.Size ∧
          a.Content = b.Content ∧ a.Style = b.Style ∧ a.Metadata = b.Metadata)
        elements
        (GetPageElements (rounded.CalculateLayout float64.round (NewManager pageSize margins)
          elements).1 1) := by
  rw [rounded_calculateLayout_exact float64.round pageSize margins elements
    (rounded_exactRun_whole pageSize margins elements hH hT hB hels)]
  refine single_page_exact pageSize margins elements ?_ hsum
  intro x hx
  obtain ⟨n, hn1, hn2, _⟩ := hels x hx
  rw [hn1]
  exact_mod_cast hn2

/-- C7, amended: for elements with non-negative heights whose heights sum to at
most the page body height pageSize.Height - margins.Top - margins.Bottom, laid
out by CalculateLayout on a fresh Manager in the float64 arithmetic of the
code, when none of the subtractions and additions of the run is rounded:
TotalPages() = 1 and page 1 holds the input elements, one for one and in
order.  In particular the three elements synthesized from the customer object
(heights 16, 12, 8), laid out in float64 on a 210 x 297 page with margins of
10, give TotalPages() = 1 with all three on page 1. -/
theorem calculateLayout_single_page :
    (∀ (fl : ℚ → ℚ) (pageSize : Size) (margins : Padding) (elements : List Element),
      (∀ e ∈ elements, 0 ≤ e.Bounds.Size.Height) →
      (elements.map (fun e => e.Bounds.Size.Height)).sum ≤
        pageSize.Height - margins.Top - margins.Bottom →
      rounded.ExactRun fl (NewManager pageSize margins) elements →
      TotalPages (rounded.CalculateLayout fl (NewManager pageSize margins) elements).1 = 1 ∧
        List.Forall₂
          (fun a b => a.ID = b.ID ∧ a.Typ = b.Typ ∧ a.Bounds.Size = b.Bounds.Size ∧
            a.Content = b.Content ∧ a.Style = b.Style ∧ a.Metadata = b.Metadata)
          elements
          (GetPageElements
            (rounded.CalculateLayout fl (NewManager pageSize margins) elements).1 1)) ∧
    (∀ U : CaseTable,
      (GenerateTemplate U NewGenerator customerData).Elements.map
        (fun e => e.Bounds.Size.Height) = [16, 12, 8] ∧
      rounded.ExactRun float64.round
        (NewManager { Width := 210, Height := 297 } generator.defaultMargins)
        (GenerateTemplate U NewGenerator customerData).Elements ∧
      TotalPages (rounded.CalculateLayout float64.round
        (NewManager { Width := 210, Height := 297 } generator.defaultMargins)
        (GenerateTemplate U NewGenerator customerData).Elements).1 = 1 ∧
      (GetPageElements (rounded.CalculateLayout float64.round
        (NewManager { Width := 210, Height := 297 } generator.defaultMargins)
        (GenerateTemplate U NewGenerator customerData).Elements).1 1).map (fun e => e.ID) =
        ["title", "header-customer", "field-customer.name"]) := by
  constructor
  · intro fl pageSize margins elements hnonneg hsum hexact
    rw [rounded_calculateLayout_exact fl pageSize margins elements hexact]
    exact single_page_exact pageSize margins elements hnonneg hsum
  · intro U
    rw [customer_elements U]
    refine ⟨by simp, by decide!, by decide!, by decide!⟩

theorem calculateLayout_single_page_witness :
    (∀ e ∈ [sampleElement "a" 30, sampleElement "b" 40], 0 ≤ e.Bounds.Size.Height) ∧
    ([sampleElement "a" 30, sampleElement "b" 40].map (fun e => e.Bounds.Size.Height)).sum ≤
      samplePage.Height - sampleMargins.Top - sampleMargins.Bottom ∧
    rounded.ExactRun float64.round (NewManager samplePage sampleMargins)
      [sampleElement "a" 30, sampleElement "b" 40] ∧
    (TotalPages (rounded.CalculateLayout float64.round (NewManager samplePage sampleMargins)
        [sampleElement "a" 30, sampleElement "b" 40]).1 = 1 ∧
      List.Forall₂
        (fun a b => a.ID = b.ID ∧ a.Typ = b.Typ ∧ a.Bounds.Size = b.Bounds.Size ∧
          a.Content = b.Content ∧ a.Style = b.Style ∧ a.Metadata = b.Metadata)
        [sampleElement "a" 30, sampleElement "b" 40]
        (GetPageElements (rounded.CalculateLayout float64.round
          (NewManager samplePage sampleMargins)
          [sampleElement "a" 30, sampleElement "b" 40]).1 1)) :=
  have h1 : ∀ e ∈ [sampleElement "a" 30, sampleElement "b" 40], 0 ≤ e.Bounds.Size.Height := by
    intro e he
    simp at he
    rcases he with h | h <;> subst h <;> norm_num [sampleElement]
  have h2 : ([sampleElement "a" 30, sampleElement "b" 40].map
      (fun e => e.Bounds.Size.Height)).sum ≤
      samplePage.Height - sampleMargins.Top - sampleMargins.Bottom := by
    norm_num [sampleElement, samplePage, sampleMargins]
  have h3 : rounded.ExactRun float64.round (NewManager samplePage sampleMargins)
      [sampleElement "a" 30, sampleElement "b" 40] := by decide!
  ⟨h1, h2, h3,
    calculateLayout_single_page.1 float64.round samplePage sampleMargins _ h1 h2 h3⟩

/-- C7, counterexample: on a page of height 1 with the float64 margin 0.3 at the
bottom, the elements of the float64 heights 0.3 and 0.4 have non-negative
heights that sum to the page body height exactly (and as float64 operations,
0.3 + 0.4 <= 1 - 0.3); yet the second is put on page 2, because the available
height that the code computes for it, (1 - 0.3) - 0.3 rounded twice, is below
0.4: TotalPages() is 2. -/
theorem calculateLayout_single_page_rounding :
    f03 = 5404319552844595 / 18014398509481984 ∧
    f04 = 3602879701896397 / 9007199254740992 ∧
    (0 : ℚ) ≤ f03 ∧ (0 : ℚ) ≤ f04 ∧
    ([sampleElement "a" f03, sampleElement "b" f04].map (fun e => e.Bounds.Size.Height)).sum ≤
      unitPage.Height - marginBottomThreeTenths.Top - marginBottomThreeTenths.Bottom ∧
    float64.round (f03 + f04) ≤
      float64.round (float64.round (unitPage.Height - marginBottomThreeTenths.Top) -
        marginBottomThreeTenths.Bottom) ∧
    rounded.available float64.round
      (rounded.step float64.round (NewManager unitPage marginBottomThreeTenths)
        (sampleElement "a" f03)) = 7205759403792793 / 18014398509481984 ∧
    (7205759403792793 / 18014398509481984 : ℚ) < f04 ∧
    TotalPages (rounded.CalculateLayout float64.round
      (NewManager unitPage marginBottomThreeTenths)
      [sampleElement "a" f03, sampleElement "b" f04]).1 = 2 ∧
    (GetPageElements (rounded.CalculateLayout float64.round
      (NewManager unitPage marginBottomThreeTenths)
      [sampleElement "a" f03, sampleElement "b" f04]).1 1).map (fun e => e.ID) = ["a"] ∧
    (GetPageElements (rounded.CalculateLayout float64.round
      (NewManager unitPage marginBottomThreeTenths)
      [sampleElement "a" f03, sampleElement "b" f04]).1 2).map (fun e => e.ID) = ["b"] := by
  refine ⟨by decide!, by decide!, by decide!, by decide!, by decide!, by decide!, by decide!,
    by decide!, by decide!, by decide!, by decide!⟩

/-- C8: for every input value the Elements of the generated template are not
empty and start with the title (ID "title", Type text, Content "Data Report");
for an empty root object the title is the only element. -/
theorem generateTemplate_title_first (U : CaseTable) (g : Generator) (data : Value) :
    (GenerateTemplate U g data).Elements ≠ [] ∧
    (∃ title rest, (GenerateTemplate U g data).Elements = title :: rest ∧
      title.ID = "title" ∧ title.Typ = ElementTypeText ∧ title.Content = .str "Data Report") ∧
    (∃ title, (GenerateTemplate U g (.object [])).Elements = [title] ∧
      title.ID = "title" ∧ title.Typ = ElementTypeText ∧ title.Content = .str "Data Report") := by
  refine ⟨by simp [GenerateTemplate], ?_, ?_⟩
  · simp [GenerateTemplate, ElementTypeText]
  · simp [GenerateTemplate, processData, processEntries, ElementTypeText]

/-- C10: formatValue returns a string for every value of every variant; null
gives "N/A", a string gives itself, and a boolean gives "true" or "false". -/
theorem formatValue_total (g : Generator) :
    (∀ v : Value, ∃ s : String, formatValue g v = s) ∧
    formatValue g .null = "N/A" ∧
    (∀ s : String, formatValue g (.str s) = s) ∧
    formatValue g (.bool true) = "true" ∧
    formatValue g (.bool false) = "false" :=
  ⟨fun v => ⟨formatValue g v, rfl⟩, rfl, fun _ => rfl, rfl, rfl⟩

/-- C9: GenerateTemplate on the customer object returns exactly three elements,
in this order: the title (Content "Data Report"), the section header with
Content "CUSTOMER", and the field with Content "customer.name: John". -/
theorem generateTemplate_customer (U : CaseTable) :
    (GenerateTemplate U NewGenerator customerData).Elements =
      [ { ID := "title"
          Typ := "text"
          Bounds := { Position := { X := 20, Y := 20 }, Size := { Width := 170, Height := 16 } }
          Content := .str "Data Report"
          Style := some
            { FontFamily := "Arial", FontSize := 24, FontColor := "#000000", Background := "",
              Border := none, Padding := none, Alignment := "center" }
          Metadata := [] },
        { ID := "header-customer"
          Typ := "text"
          Bounds := { Position := { X := 20, Y := 44 }, Size := { Width := 170, Height := 12 } }
          Content := .str "CUSTOMER"
          Style := some
            { FontFamily := "Arial", FontSize := 14, FontColor := "#333333",
              Background := "#f5f5f5", Border := none,
              Padding := some { Top := 2, Right := 5, Bottom := 2, Left := 5 }, Alignment := "" }
          Metadata := [] },
        { ID := "field-customer.name"
          Typ := "text"
          Bounds := { Position := { X := 20, Y := 56 }, Size := { Width := 170, Height := 8 } }
          Content := .str "customer.name: John"
          Style := some
            { FontFamily := "Arial", FontSize := 12, FontColor := "#000000", Background := "",
              Border := none, Padding := none, Alignment := "" }
          Metadata := [] } ] :=
  customer_elements U

end dynamic

/-! ## Formatting: texts without a line break -/

namespace gofmt

open model

theorem noBreak_append (a b : String) : NoBreak (a ++ b) ↔ NoBreak a ∧ NoBreak b := by
  simp [NoBreak, String.data_append, not_or]

theorem digitChar_isDigit (d : Nat) (h : d < 10) : (Nat.digitChar d).isDigit = true := by
  interval_cases d <;> decide

theorem toDigitsCore_isDigit (fuel n : Nat) (ds : List Char)
    (h : ∀ c ∈ ds, c.isDigit = true) : ∀ c ∈ Nat.toDigitsCore 10 fuel n ds, c.isDigit = true := by
  induction fuel generalizing n ds with
  | zero => simpa [Nat.toDigitsCore] using h
  | succ fuel ih =>
    have hd : ∀ c ∈ Nat.digitChar (n % 10) :: ds, c.isDigit = true := by
      intro c hc
      rcases List.mem_cons.mp hc with h1 | h1
      · rw [h1]; exact digitChar_isDigit _ (Nat.mod_lt _ (by decide))
      · exact h c h1
    unfold Nat.toDigitsCore
    by_cases h0 : n / 10 = 0
    · simpa [h0] using hd
    · simpa [h0] using ih _ _ hd

theorem natToString_isDigit (n : Nat) : ∀ c ∈ (toString n).data, c.isDigit = true := by
  intro c hc
  exact toDigitsCore_isDigit _ _ [] (by simp) c hc

theorem noBreak_natToString (n : Nat) : NoBreak (toString n) := by
  intro h
  have := natToString_isDigit n _ h
  exact absurd this (by decide)

theorem noBreak_fmtInt (i : Int) : NoBreak (fmtInt i) := by
  unfold fmtInt
  cases i with
  | ofNat m => exact noBreak_natToString m
  | negSucc m =>
    change NoBreak ("-" ++ toString m.succ)
    rw [noBreak_append]
    exact ⟨by decide, noBreak_natToString _⟩

theorem noBreak_fmtBool (b : Bool) : NoBreak (fmtBool b) := by
  cases b <;> decide

theorem noBreak_fmtFixed2 (x : Float64) : NoBreak (fmtFixed2 x) := by
  cases x with
  | nan => decide
  | inf neg => cases neg <;> decide
  | finite neg mant exp =>
    simp only [fmtFixed2]
    rw [noBreak_append, noBreak_append, noBreak_append]
    refine ⟨⟨⟨by cases neg <;> decide, noBreak_natToString _⟩, by decide⟩, ?_⟩
    intro h
    simp only [List.mem_cons, List.mem_singleton, List.not_mem_nil, or_false] at h
    rcases h with h | h
    · have := digitChar_isDigit _ (Nat.mod_lt (roundHalfEven (mant * 100 * 2 ^ exp.toNat) (2 ^ (-exp).toNat) / 10) (by decide : 0 < 10))
      rw [← h] at this
      exact absurd this (by decide)
    · have := digitChar_isDigit _ (Nat.mod_lt (roundHalfEven (mant * 100 * 2 ^ exp.toNat) (2 ^ (-exp).toNat)) (by decide : 0 < 10))
      rw [← h] at this
      exact absurd this (by decide)

theorem noBreak_intercalate_go (sep : String) (hsep : NoBreak sep) (l : List String)
    (acc : String) (hacc : NoBreak acc) (hl : ∀ s ∈ l, NoBreak s) :
    NoBreak (String.intercalate.go acc sep l) := by
  induction l generalizing acc with
  | nil => simpa [String.intercalate.go] using hacc
  | cons a rest ih =>
    simp only [String.intercalate.go]
    apply ih
    · rw [noBreak_append, noBreak_append]
      exact ⟨⟨hacc, hsep⟩, hl a (List.mem_cons_self _ _)⟩
    · exact fun s hs => hl s (List.mem_cons_of_mem _ hs)

theorem noBreak_intercalate (sep : String) (hsep : NoBreak sep) (l : List String)
    (hl : ∀ s ∈ l, NoBreak s) : NoBreak (sep.intercalate l) := by
  cases l with
  | nil => simp [String.intercalate, NoBreak]
  | cons a rest =>
    simp only [String.intercalate]
    exact noBreak_intercalate_go sep hsep rest a (hl a (List.mem_cons_self _ _))
      (fun s hs => hl s (List.mem_cons_of_mem _ hs))

mutual
theorem noBreak_fmtV : ∀ v : Value, noLineBreak v = true → NoBreak (fmtV v)
  | .null, _ => by decide
  | .bool b, _ => noBreak_fmtBool b
  | .str s, h => by simpa [noLineBreak, fmtV, NoBreak] using h
  | .int i, _ => noBreak_fmtInt i
  | .float64 _ natural, h => by simpa [noLineBreak, fmtV, NoBreak] using h
  | .other _ natural, h => by simpa [noLineBreak, fmtV, NoBreak] using h
  | .array items, h => by
    simp only [fmtV]
    rw [noBreak_append, noBreak_append]
    refine ⟨⟨by decide, ?_⟩, by decide⟩
    exact noBreak_intercalate _ (by decide) _ (noBreak_fmtVItems items (by simpa [noLineBreak] using h))
  | .object entries, h => by
    simp only [fmtV]
    rw [noBreak_append, noBreak_append]
    refine ⟨⟨by decide, ?_⟩, by decide⟩
    apply noBreak_intercalate _ (by decide)
    intro s hs
    obtain ⟨kv, hkv, rfl⟩ := List.mem_map.mp hs
    rw [List.mem_insertionSort] at hkv
    have := noBreak_fmtVEntries entries (by simpa [noLineBreak] using h) kv hkv
    rw [noBreak_append, noBreak_append]
    exact ⟨⟨this.1, by decide⟩, this.2⟩
theorem noBreak_fmtVItems : ∀ items : List Value, noLineBreakItems items = true →
    ∀ s ∈ fmtVItems items, NoBreak s
  | [], _ => by simp [fmtVItems]
  | v :: rest, h => by
    simp only [noLineBreakItems, Bool.and_eq_true] at h
    intro s hs
    simp only [fmtVItems, List.mem_cons] at hs
    rcases hs with h1 | h1
    · rw [h1]; exact noBreak_fmtV v h.1
    · exact noBreak_fmtVItems rest h.2 s h1
theorem noBreak_fmtVEntries : ∀ entries : List (String × Value),
    noLineBreakEntries entries = true →
    ∀ kv ∈ fmtVEntries entries, NoBreak kv.1 ∧ NoBreak kv.2
  | [], _ => by simp [fmtVEntries]
  | (k, v) :: rest, h => by
    simp only [noLineBreakEntries, Bool.and_eq_true, decide_eq_true_eq] at h
    intro kv hkv
    simp only [fmtVEntries, List.mem_cons] at hkv
    rcases hkv with h1 | h1
    · rw [h1]; exact ⟨h.1.1, noBreak_fmtV v h.1.2⟩
    · exact noBreak_fmtVEntries rest h.2 kv h1
end

end gofmt

/-! ## Template synthesis: numbers and scalar fields -/

namespace dynamic

open model gofmt layout

/-- C11, counterexample: the integer 3, carried as an `int`, is formatted as "3",
with no decimal point and no decimals. -/
theorem formatValue_int_three :
    formatValue NewGenerator (.int 3) = "3" ∧ formatValue NewGenerator (.int 3) ≠ "3.00" := by
  decide

/-- C11, amended: for every finite float64, formatValue returns an optional minus
sign, the decimal digits of a whole number, a decimal point and exactly two
digits (the float64 nearest 29.99 gives "29.99", the float64 3 gives "3.00");
NaN and the infinities give "NaN", "+Inf" and "-Inf"; a number carried as an
int is formatted by `%d` in its natural form, without decimals (3 gives "3"). -/
theorem formatValue_number (g : Generator) :
    (∀ (neg : Bool) (mant : Nat) (exp : Int) (natural : String),
      ∃ (whole : Nat) (d1 d2 : Char), d1.isDigit = true ∧ d2.isDigit = true ∧
        (∀ c ∈ (toString whole).data, c.isDigit = true) ∧
        formatValue g (.float64 (.finite neg mant exp) natural) =
          (if neg then "-" else "") ++ toString whole ++ "." ++ String.mk [d1, d2]) ∧
    formatValue g (.float64 float2999 "29.99") = "29.99" ∧
    formatValue g (.float64 float3 "3") = "3.00" ∧
    formatValue g (.float64 .nan "NaN") = "NaN" ∧
    formatValue g (.float64 (.inf false) "+Inf") = "+Inf" ∧
    formatValue g (.float64 (.inf true) "-Inf") = "-Inf" ∧
    (∀ i : Int, formatValue g (.int i) = toString i) ∧
    formatValue g (.int 3) = "3" := by
  have h1 : fmtFixed2 float2999 = "29.99" := by decide
  have h2 : fmtFixed2 float3 = "3.00" := by decide
  have h3 : fmtInt 3 = "3" := by decide
  refine ⟨?_, h1, h2, rfl, rfl, rfl, fun _ => rfl, h3⟩
  intro neg mant exp natural
  exact ⟨_, _, _, digitChar_isDigit _ (Nat.mod_lt _ (by decide)),
    digitChar_isDigit _ (Nat.mod_lt _ (by decide)), natToString_isDigit _, rfl⟩

/-- C12: for a scalar value v (string, number, boolean or null) at path p,
processData returns exactly one element, with ID "field-" + p, Type text,
Content p + ": " + formatValue(v), Height lineHeight and Y the cursor on entry,
and leaves the cursor advanced by exactly lineHeight. -/
theorem processData_scalar (U : CaseTable) (g : Generator) (v : Value) (p : String) (currentY : ℚ)
    (hv : isScalar v = true) :
    ∃ e : Element, processData U g v p currentY = ([e], currentY + g.lineHeight) ∧
      e.ID = "field-" ++ p ∧ e.Typ = ElementTypeText ∧
      e.Content = .str (p ++ ": " ++ formatValue g v) ∧
      e.Bounds.Size.Height = g.lineHeight ∧ e.Bounds.Position.Y = currentY := by
  refine ⟨createValueElement g p v currentY, ?_, rfl, rfl, rfl, rfl, rfl⟩
  cases v <;> first
    | rfl
    | simp [isScalar] at hv

theorem processData_scalar_witness :
    isScalar (.str "John") = true ∧
    ∃ e : Element,
      processData asciiCase NewGenerator (.str "John") "customer.name" 56 =
        ([e], 56 + NewGenerator.lineHeight) ∧
      e.ID = "field-" ++ "customer.name" ∧ e.Typ = ElementTypeText ∧
      e.Content = .str ("customer.name" ++ ": " ++ formatValue NewGenerator (.str "John")) ∧
      e.Bounds.Size.Height = NewGenerator.lineHeight ∧ e.Bounds.Position.Y = 56 :=
  ⟨rfl, processData_scalar asciiCase NewGenerator (.str "John") "customer.name" 56 rfl⟩

end dynamic

/-! ## Template synthesis: array blocks -/

namespace dynamic

open model gofmt layout

theorem arrayItemText_eq (g : Generator) (item : Value) :
    arrayItemText g item = arrayItemLine g item ++ "\n" := by
  cases item <;> simp [arrayItemText, arrayItemLine, String.append_assoc]
  rfl

theorem foldl_append_eq (l : List String) (init : String) :
    l.foldl (fun acc s => acc ++ s) init = init ++ String.join l := by
  induction l generalizing init with
  | nil => simp [String.join]
  | cons a rest ih =>
    simp only [List.foldl_cons, String.join]
    rw [ih, ih ("" ++ a), String.append_assoc]
    simp [String.join]

theorem noLineBreakItems_mem (items : List Value) (h : noLineBreakItems items = true) :
    ∀ it ∈ items, noLineBreak it = true := by
  induction items with
  | nil => simp
  | cons v rest ih =>
    simp only [noLineBreakItems, Bool.and_eq_true] at h
    intro it hit
    rcases List.mem_cons.mp hit with h1 | h1
    · rw [h1]; exact h.1
    · exact ih h.2 it h1

theorem noLineBreakEntries_mem (entries : List (String × Value))
    (h : noLineBreakEntries entries = true) :
    ∀ kv ∈ entries, NoBreak kv.1 ∧ noLineBreak kv.2 = true := by
  induction entries with
  | nil => simp
  | cons kv rest ih =>
    obtain ⟨k, v⟩ := kv
    simp only [noLineBreakEntries, Bool.and_eq_true, decide_eq_true_eq] at h
    intro x hx
    rcases List.mem_cons.mp hx with h1 | h1
    · rw [h1]; exact ⟨h.1.1, h.1.2⟩
    · exact ih h.2 x h1

theorem noBreak_formatValue (g : Generator) (v : Value) (h : noLineBreak v = true) :
    NoBreak (formatValue g v) := by
  cases v with
  | null => exact (by decide : NoBreak "N/A")
  | bool b => exact noBreak_fmtBool b
  | str s => simpa [noLineBreak, formatValue, NoBreak] using h
  | int i => exact noBreak_fmtInt i
  | float64 x natural => exact noBreak_fmtFixed2 x
  | array items => exact noBreak_fmtV _ h
  | object entries => exact noBreak_fmtV _ h
  | other t natural => exact noBreak_fmtV _ h

theorem noBreak_arrayItemLine (g : Generator) (item : Value) (h : noLineBreak item = true) :
    NoBreak (arrayItemLine g item) := by
  have hdef : ∀ v : Value, noLineBreak v = true → NoBreak ("- " ++ formatValue g v) := by
    intro v hv
    rw [noBreak_append]
    exact ⟨by decide, noBreak_formatValue g v hv⟩
  cases item with
  | object entries =>
    simp only [arrayItemLine]
    rw [noBreak_append]
    refine ⟨by decide, noBreak_intercalate _ (by decide) _ ?_⟩
    intro s hs
    obtain ⟨kv, hkv, rfl⟩ := List.mem_map.mp hs
    have := noLineBreakEntries_mem entries (by simpa [noLineBreak] using h) kv hkv
    rw [noBreak_append, noBreak_append]
    exact ⟨⟨this.1, by decide⟩, noBreak_fmtV _ this.2⟩
  | null => exact hdef _ h
  | bool b => exact hdef _ h
  | str s => exact hdef _ h
  | int i => exact hdef _ h
  | float64 x natural => exact hdef _ h
  | array items => exact hdef _ h
  | other t natural => exact hdef _ h

theorem arrayItemLine_scalar (g : Generator) (item : Value) (h : isScalar item = true) :
    arrayItemLine g item = "- " ++ formatValue g item := by
  cases item <;> first
    | rfl
    | simp [isScalar] at h

/-- C13: for an array with n items at path p (items of any kind), processData
returns exactly one element: ID "array-" + p, Type text, Height
lineHeight x (n + 1), and Content the line p + ":" followed by one line per
item in item order, each ended by a line break; a scalar item gives the line
"- " + formatValue(item); and no line contains a line break when no string
inside the items does. -/
theorem processData_array (U : CaseTable) (g : Generator) (items : List Value) (p : String) (currentY : ℚ)
    (hnb : noLineBreakItems items = true) :
    ∃ (e : Element) (lines : List String),
      (processData U g (.array items) p currentY).1 = [e] ∧
      e.ID = "array-" ++ p ∧ e.Typ = ElementTypeText ∧
      e.Bounds.Size.Height = g.lineHeight * ((items.length : ℚ) + 1) ∧
      e.Content = .str (p ++ ":\n" ++ String.join (lines.map (fun l => l ++ "\n"))) ∧
      lines.length = items.length ∧
      ∀ (i : Nat) (hi : i < items.length) (hl : i < lines.length),
        NoBreak lines[i] ∧
          (isScalar items[i] = true → lines[i] = "- " ++ formatValue g items[i]) := by
  refine ⟨createArrayElement g p items currentY, items.map (arrayItemLine g), rfl, rfl, rfl,
    ?_, ?_, by simp, ?_⟩
  · simp [createArrayElement]
  · simp only [createArrayElement, foldl_append_eq, List.map_map]
    congr 3
    exact List.map_congr_left (fun it _ => arrayItemText_eq g it)
  · intro i hi hl
    simp only [List.getElem_map]
    exact ⟨noBreak_arrayItemLine g _ (noLineBreakItems_mem items hnb _ (List.getElem_mem _)),
      arrayItemLine_scalar g _⟩

theorem processData_array_witness :
    noLineBreakItems sampleItems = true ∧
    ∃ (e : Element) (lines : List String),
      (processData asciiCase NewGenerator (.array sampleItems) "items" 44).1 = [e] ∧
      e.ID = "array-" ++ "items" ∧ e.Typ = ElementTypeText ∧
      e.Bounds.Size.Height = NewGenerator.lineHeight * ((sampleItems.length : ℚ) + 1) ∧
      e.Content = .str ("items" ++ ":\n" ++ String.join (lines.map (fun l => l ++ "\n"))) ∧
      lines.length = sampleItems.length ∧
      ∀ (i : Nat) (hi : i < sampleItems.length) (hl : i < lines.length),
        NoBreak lines[i] ∧
          (isScalar sampleItems[i] = true →
            lines[i] = "- " ++ formatValue NewGenerator sampleItems[i]) :=
  ⟨by decide, processData_array asciiCase NewGenerator sampleItems "items" 44 (by decide)⟩

end dynamic

/-! ## Template synthesis: objects, and the order of their entries -/

namespace dynamic

open model gofmt layout

/-- C14: inside an array block the values of an object item are printed with
`%v`, not with formatValue: a null value gives "a: <nil>" where formatValue
gives "N/A" (and where a null that is itself an array item gives "- N/A"),
and the float64 3, whose `%v` text is "3", gives "a: 3" where formatValue
gives "3.00". -/
theorem createArrayElement_object_item_values :
    (createArrayElement NewGenerator "items" [.object [("a", .null)]] 44).Content =
      .str "items:\n- a: <nil>\n" ∧
    formatValue NewGenerator .null = "N/A" ∧
    (createArrayElement NewGenerator "items" [.null] 44).Content = .str "items:\n- N/A\n" ∧
    (createArrayElement NewGenerator "items" [.object [("a", .float64 float3 "3")]] 44).Content =
      .str "items:\n- a: 3\n" ∧
    formatValue NewGenerator (.float64 float3 "3") = "3.00" := by
  refine ⟨?_, rfl, ?_, ?_, by decide⟩ <;>
    simp [createArrayElement, arrayItemText, formatValue, fmtV] <;> decide

/-- C16: the elements follow the order in which the entries of an object are
visited, and nothing sorts the keys: the map with keys a and b gives the
fields in the order a, b when visited a, b and in the order b, a when visited
b, a; the same holds for the "key: value" pairs of an object item in an array
block. -/
theorem generateTemplate_follows_visit_order (U : CaseTable) :
    (GenerateTemplate U NewGenerator twoKeysAB).Elements.map (fun e => e.ID) =
      ["title", "field-a", "field-b"] ∧
    (GenerateTemplate U NewGenerator twoKeysBA).Elements.map (fun e => e.ID) =
      ["title", "field-b", "field-a"] ∧
    (createArrayElement NewGenerator "items" [twoKeysAB] 44).Content =
      .str "items:\n- a: 1, b: 2\n" ∧
    (createArrayElement NewGenerator "items" [twoKeysBA] 44).Content =
      .str "items:\n- b: 2, a: 1\n" := by
  refine ⟨?_, ?_, ?_, ?_⟩
  · simp [GenerateTemplate, processData, processEntries, twoKeysAB, createValueElement]
  · simp [GenerateTemplate, processData, processEntries, twoKeysBA, createValueElement]
  · simp [createArrayElement, arrayItemText, twoKeysAB, fmtV]; decide
  · simp [createArrayElement, arrayItemText, twoKeysBA, fmtV]; decide

theorem processEntries_foldl (U : CaseTable) (g : Generator) (pfx : String) (entries : List (String × Value))
    (acc : List Element × ℚ) :
    entries.foldl (fun acc kv =>
        (acc.1 ++ (processData U g kv.2 (if pfx ≠ "" then pfx ++ "." ++ kv.1 else kv.1) acc.2).1,
          (processData U g kv.2 (if pfx ≠ "" then pfx ++ "." ++ kv.1 else kv.1) acc.2).2)) acc =
      (acc.1 ++ (processEntries U g entries pfx acc.2).1, (processEntries U g entries pfx acc.2).2) := by
  induction entries generalizing acc with
  | nil => simp [processEntries]
  | cons kv rest ih =>
    obtain ⟨k, v⟩ := kv
    rw [List.foldl_cons, ih]
    simp [processEntries, List.append_assoc]

/-- C15: for an object at a non-empty path p, processData returns first a
section header (ID "header-" + p, Type text, Content p upper-cased, Height
1.5 x lineHeight, Y the cursor on entry) and after it the elements of the
entries, each entry (key, value) processed in turn with path p + "." + key;
for an object at the empty root path there is no header and each entry is
processed with path key.  The Content of the header is p with every character
mapped through unicode.ToUpper, which on a path of ASCII characters is p with
its letters a..z turned into A..Z. -/
theorem processData_object (U : CaseTable) (g : Generator) (entries : List (String × Value))
    (p : String) (currentY : ℚ) :
    (p ≠ "" →
      ∃ header : Element,
        (processData U g (.object entries) p currentY).1 =
          header :: (entries.foldl (fun acc kv =>
            (acc.1 ++ (processData U g kv.2 (p ++ "." ++ kv.1) acc.2).1,
              (processData U g kv.2 (p ++ "." ++ kv.1) acc.2).2))
            ([], currentY + g.lineHeight * (3 / 2))).1 ∧
        header.ID = "header-" ++ p ∧ header.Typ = ElementTypeText ∧
        header.Content = .str (ToUpper U p) ∧
        header.Content = .str (String.mk (p.data.map U.toUpper)) ∧
        ((∀ c ∈ p.data, c.toNat < 128) →
          header.Content = .str (String.mk (p.data.map Char.toUpper))) ∧
        header.Bounds.Size.Height = (3 / 2) * g.lineHeight ∧
        header.Bounds.Position.Y = currentY) ∧
    (processData U g (.object entries) "" currentY).1 =
      (entries.foldl (fun acc kv =>
        (acc.1 ++ (processData U g kv.2 kv.1 acc.2).1, (processData U g kv.2 kv.1 acc.2).2))
        ([], currentY)).1 := by
  constructor
  · intro hp
    refine ⟨createSectionHeader U g p currentY, ?_, rfl, rfl, rfl, rfl, ?_, ?_, rfl⟩
    · have := processEntries_foldl U g p entries ([], currentY + g.lineHeight * (3 / 2))
      simp only [hp, ne_eq, not_false_eq_true, if_true] at this
      rw [this]
      simp [processData, hp]
    · intro hascii
      have := toUpper_ascii U p hascii
      simp only [createSectionHeader]
      rw [this]
      rfl
    · simp [createSectionHeader]; ring
  · have := processEntries_foldl U g "" entries ([], currentY)
    simp only [ne_eq, not_true_eq_false, if_false] at this
    rw [this]
    simp [processData]

theorem processData_object_witness :
    "café" ≠ "" ∧ ToUpper latinCase "café" = "CAFÉ" ∧
    ∃ header : Element,
      (processData latinCase NewGenerator (.object [("name", .str "John")]) "café" 44).1 =
        header :: ([("name", Value.str "John")].foldl (fun acc kv =>
          (acc.1 ++ (processData latinCase NewGenerator kv.2 ("café" ++ "." ++ kv.1) acc.2).1,
            (processData latinCase NewGenerator kv.2 ("café" ++ "." ++ kv.1) acc.2).2))
          ([], 44 + NewGenerator.lineHeight * (3 / 2))).1 ∧
      header.ID = "header-" ++ "café" ∧ header.Typ = ElementTypeText ∧
      header.Content = .str (ToUpper latinCase "café") ∧
      header.Content = .str (String.mk ("café".data.map latinCase.toUpper)) ∧
      ((∀ c ∈ "café".data, c.toNat < 128) →
        header.Content = .str (String.mk ("café".data.map Char.toUpper))) ∧
      header.Bounds.Size.Height = (3 / 2) * NewGenerator.lineHeight ∧
      header.Bounds.Position.Y = 44 :=
  ⟨by decide, by decide,
    (processData_object latinCase NewGenerator [("name", .str "John")] "café" 44).1 (by decide)⟩

end dynamic

/-! ## Template synthesis: the vertical cursor -/

namespace dynamic

open model gofmt layout

theorem stacked_append (x y : ℚ) (l1 l2 : List Element) (h1 : Stacked x y l1)
    (h2 : Stacked x (y + sumHeights l1) l2) : Stacked x y (l1 ++ l2) := by
  induction l1 generalizing y with
  | nil => simpa [sumHeights] using h2
  | cons a rest ih =>
    refine ⟨h1.1, h1.2.1, ih _ h1.2.2 ?_⟩
    rw [sumHeights_cons] at h2
    rw [add_assoc]
    exact h2

mutual
theorem processData_stacked (U : CaseTable) (g : Generator) : ∀ (v : Value) (p : String) (y : ℚ),
    Stacked g.margins.Left y (processData U g v p y).1 ∧
      (processData U g v p y).2 = y + sumHeights (processData U g v p y).1
  | .object entries, p, y => by
    by_cases hp : p = ""
    · have := processEntries_stacked U g entries p y
      simpa [processData, hp] using this
    · have := processEntries_stacked U g entries p (y + g.lineHeight * (3 / 2))
      simp only [processData, hp, ne_eq, not_false_eq_true, if_true, List.singleton_append]
      refine ⟨⟨rfl, rfl, ?_⟩, ?_⟩
      · simpa [createSectionHeader] using this.1
      · rw [this.2, sumHeights_cons]
        simp [createSectionHeader]
        ring
  | .array items, p, y => by
    simp [processData, Stacked, sumHeights, createArrayElement]
    ring
  | .null, p, y => by simp [processData, Stacked, sumHeights, createValueElement]
  | .bool _, p, y => by simp [processData, Stacked, sumHeights, createValueElement]
  | .str _, p, y => by simp [processData, Stacked, sumHeights, createValueElement]
  | .int _, p, y => by simp [processData, Stacked, sumHeights, createValueElement]
  | .float64 _ _, p, y => by simp [processData, Stacked, sumHeights, createValueElement]
  | .other _ _, p, y => by simp [processData, Stacked, sumHeights, createValueElement]
theorem processEntries_stacked (U : CaseTable) (g : Generator) : ∀ (entries : List (String × Value))
    (p : String) (y : ℚ),
    Stacked g.margins.Left y (processEntries U g entries p y).1 ∧
      (processEntries U g entries p y).2 = y + sumHeights (processEntries U g entries p y).1
  | [], p, y => by simp [processEntries, Stacked, sumHeights]
  | (k, v) :: rest, p, y => by
    have h1 := processData_stacked U g v (if p ≠ "" then p ++ "." ++ k else k) y
    have h2 := processEntries_stacked U g rest p
      (processData U g v (if p ≠ "" then p ++ "." ++ k else k) y).2
    simp only [processEntries]
    refine ⟨stacked_append _ _ _ _ h1.1 (by rw [← h1.2]; exact h2.1), ?_⟩
    rw [h2.2, sumHeights_append, h1.2]
    ring
end

/-- C17, amended: the cursor starts at the top margin, where the title is put;
the element emitted immediately after the title has
Y = title.Y + title.Height + lineHeight; every later element has Y equal to
the Y of the element emitted before it plus that element's Height, whether
that element is a section header, an array block or a scalar field: the
cursor advances by exactly the element's height, with no extra gap. -/
theorem generateTemplate_cursor (U : CaseTable) (g : Generator) (data : Value) :
    ∃ (title : Element) (rest : List Element),
      (GenerateTemplate U g data).Elements = title :: rest ∧
      title.Bounds.Position.Y = g.margins.Top ∧
      (∀ e ∈ rest.head?,
        e.Bounds.Position.Y = title.Bounds.Position.Y + title.Bounds.Size.Height + g.lineHeight) ∧
      List.Chain' (fun a b : Element =>
        b.Bounds.Position.Y = a.Bounds.Position.Y + a.Bounds.Size.Height) rest := by
  have h := (processData_stacked U g data "" (g.margins.Top + g.lineHeight * 3)).1
  refine ⟨_, (processData U g data "" (g.margins.Top + g.lineHeight * 3)).1, rfl, rfl, ?_,
    stacked_chain _ _ _ h⟩
  intro e he
  rw [stacked_head _ _ _ h e he]
  ring

/-- C17, counterexample: in the customer template the header is at Y 44 with
Height 12 and the field after it is at Y 56, not at 44 + 12 + 1.5 x 8; in the
template of an array followed by a field the array block is at Y 44 with
Height 16 and the field after it is at Y 60, not at 44 + 16 + 8. -/
theorem generateTemplate_no_extra_gap :
    (GenerateTemplate asciiCase NewGenerator customerData).Elements.map
        (fun e => (e.ID, e.Bounds.Position.Y, e.Bounds.Size.Height)) =
      [("title", 20, 16), ("header-customer", 44, 12), ("field-customer.name", 56, 8)] ∧
    (56 : ℚ) ≠ 44 + 12 + (3 / 2) * NewGenerator.lineHeight ∧
    (GenerateTemplate asciiCase NewGenerator itemsThenTotal).Elements.map
        (fun e => (e.ID, e.Bounds.Position.Y, e.Bounds.Size.Height)) =
      [("title", 20, 16), ("array-items", 44, 16), ("field-total", 60, 8)] ∧
    (60 : ℚ) ≠ 44 + 16 + 1 * NewGenerator.lineHeight := by
  refine ⟨?_, by norm_num [NewGenerator], ?_, by norm_num [NewGenerator]⟩
  · simp [GenerateTemplate, processData, processEntries, NewGenerator, customerData,
      createSectionHeader, createValueElement]
    norm_num
  · simp [GenerateTemplate, processData, processEntries, NewGenerator, itemsThenTotal,
      createArrayElement, createValueElement]
    norm_num

end dynamic

/-! ## Template validation -/

namespace generator

open model layout render errors gofmt

/-- Validation in the exact arithmetic of the geometry: no error exactly when
Name is non-empty, both dimensions are positive and Elements is non-empty. -/
theorem validate_exact (t : Template) :
    ((Validate t).2 = none ↔
      t.Name ≠ "" ∧ 0 < t.Size.Width ∧ 0 < t.Size.Height ∧ t.Elements ≠ []) ∧
    (∀ err : PDFError, (Validate t).2 = some err → err.Code = ErrInvalidTemplate) ∧
    (Validate t).1 = t := by
  refine ⟨?_, ?_, ?_⟩
  · unfold Validate
    split_ifs with h1 h2 h3
    · simp [h1]
    · simp only [reduceCtorEq, false_iff, not_and, not_lt]
      intro _ hw hh
      rcases h2 with h2 | h2
      · exact absurd hw (not_lt.mpr h2)
      · exact absurd hh (not_lt.mpr h2)
    · simp [List.length_eq_zero.mp h3]
    · have h2' := not_or.mp h2
      simp only [true_iff]
      exact ⟨h1, not_le.mp h2'.1, not_le.mp h2'.2, fun h => h3 (by rw [h]; rfl)⟩
  · intro err herr
    unfold Validate at herr
    split_ifs at herr <;> simp only [Option.some.injEq, reduceCtorEq] at herr <;>
      rw [← herr] <;> rfl
  · unfold Validate
    split_ifs <;> rfl

theorem float64_value_zero : Float64.value false 0 0 = 0 := by
  simp [Float64.value]

/-- For a `float64`, `x <= 0` is false exactly when `x` is positive or NaN. -/
theorem float64_not_le_zero (x : Float64) : ¬ x ≤ 0 ↔ (0 < x ∨ x = .nan) := by
  change ¬ Float64.le x (.finite false 0 0) = true ↔
    (Float64.lt (.finite false 0 0) x = true ∨ x = .nan)
  cases x with
  | nan => simp [Float64.le, Float64.lt]
  | inf neg => cases neg <;> simp [Float64.le, Float64.lt]
  | finite neg mant exp =>
    simp only [Float64.le, Float64.lt, decide_eq_true_eq, float64_value_zero, not_le,
      reduceCtorEq, or_false]

/-- C18, counterexample: the template with a name, one element, a height of 297
and a width that is NaN passes Validate, although its width is not greater
than 0. -/
theorem validate_accepts_nan :
    (Validate nanTemplate).2 = none ∧ nanTemplate.Name ≠ "" ∧ nanTemplate.Elements ≠ [] ∧
    nanTemplate.Size.Width = .nan ∧ ¬ (0 : Float64) < nanTemplate.Size.Width ∧
    ¬ nanTemplate.Size.Width ≤ (0 : Float64) := by
  refine ⟨?_, by decide, by simp [nanTemplate], rfl, by decide, by decide⟩
  have h1 : ¬ nanTemplate.Size.Width ≤ (0 : Float64) := by decide
  have h2 : ¬ nanTemplate.Size.Height ≤ (0 : Float64) := by
    rw [float64_not_le_zero]
    left
    change Float64.lt (.finite false 0 0) (.finite false 297 0) = true
    simp [Float64.lt, Float64.value]
  unfold Validate
  rw [if_neg (by decide : ¬ nanTemplate.Name = ""), if_neg (not_or.mpr ⟨h1, h2⟩),
    if_neg (by simp [nanTemplate])]

/-- C18, amended: on the float64 dimensions of the code, Template.Validate
returns no error exactly when Name is non-empty, neither Size.Width <= 0 nor
Size.Height <= 0 holds, which is when each dimension is greater than 0 or is
NaN, and Elements is non-empty; for dimensions that are not NaN that is Name
non-empty, Size.Width > 0, Size.Height > 0 and Elements non-empty.  Every
error it returns is a PDFError with Code ErrInvalidTemplate, and the template
after the call is the template before it. -/
theorem validate_iff (t : TemplateOf Float64) :
    ((Validate t).2 = none ↔
      t.Name ≠ "" ∧ (0 < t.Size.Width ∨ t.Size.Width = .nan) ∧
        (0 < t.Size.Height ∨ t.Size.Height = .nan) ∧ t.Elements ≠ []) ∧
    (t.Size.Width ≠ .nan → t.Size.Height ≠ .nan →
      ((Validate t).2 = none ↔
        t.Name ≠ "" ∧ 0 < t.Size.Width ∧ 0 < t.Size.Height ∧ t.Elements ≠ [])) ∧
    (∀ err : PDFError, (Validate t).2 = some err → err.Code = ErrInvalidTemplate) ∧
    (Validate t).1 = t := by
  have hmain : (Validate t).2 = none ↔
      t.Name ≠ "" ∧ (0 < t.Size.Width ∨ t.Size.Width = .nan) ∧
        (0 < t.Size.Height ∨ t.Size.Height = .nan) ∧ t.Elements ≠ [] := by
    rw [← float64_not_le_zero, ← float64_not_le_zero]
    unfold Validate
    split_ifs with h1 h2 h3
    · simp [h1]
    · simp only [reduceCtorEq, false_iff, not_and]
      intro _ hw hh
      rcases h2 with h2 | h2
      · exact absurd h2 hw
      · exact absurd h2 hh
    · simp [List.length_eq_zero.mp h3]
    · have h2' := not_or.mp h2
      simp only [true_iff]
      exact ⟨h1, h2'.1, h2'.2, fun h => h3 (by rw [h]; rfl)⟩
  refine ⟨hmain, ?_, ?_, ?_⟩
  · intro hw hh
    rw [hmain]
    simp [hw, hh]
  · intro err herr
    unfold Validate at herr
    split_ifs at herr <;> simp only [Option.some.injEq, reduceCtorEq] at herr <;>
      rw [← herr] <;> rfl
  · unfold Validate
    split_ifs <;> rfl

end generator

/-! ## The text renderer: where a line is drawn -/

namespace render

open model gofmt

theorem textLoop_spec (B : Backend) (element : Element) (style : Option Style)
    (lineHeight : ℚ) (lines : List String) :
    ∀ (pdf : List Call) (i : Nat), ∃ texts : List Call,
      (textLoop B element style lineHeight pdf i lines).1 = pdf ++ texts ∧
      ((textLoop B element style lineHeight pdf i lines).2 = .ok ∧
          texts.length = lines.length ∨
        ∃ (h : texts.length < lines.length) (msg : String),
          B.stringWidth (pdf ++ texts) lines[texts.length] = .error msg ∧
          (textLoop B element style lineHeight pdf i lines).2 = .panic msg) ∧
      ∀ (j : Nat) (hj : j < lines.length) (ht : j < texts.length),
        ∃ w : ℚ, B.stringWidth (pdf ++ texts.take j) lines[j] = .ok w ∧
          texts[j] = Call.Text (textAlignX style element.Bounds w)
            (element.Bounds.Position.Y + lineHeight + ((i + j : Nat) : ℚ) * lineHeight * (3 / 2))
            lines[j] := by
  induction lines with
  | nil =>
    exact fun pdf i => ⟨[], by simp [textLoop], Or.inl ⟨rfl, rfl⟩, fun j hj => absurd hj (by simp)⟩
  | cons line rest ih =>
    intro pdf i
    cases hw : B.stringWidth pdf line with
    | error msg =>
      refine ⟨[], by simp [textLoop, hw], Or.inr ⟨by simp, msg, by simpa using hw, by simp [textLoop, hw]⟩,
        fun j _ ht => absurd ht (by simp)⟩
    | ok w =>
      obtain ⟨texts, h1, h2, h3⟩ := ih
        (pdf ++ [Call.Text (textAlignX style element.Bounds w)
          (element.Bounds.Position.Y + lineHeight + (i : ℚ) * lineHeight * (3 / 2)) line]) (i + 1)
      have heq : textLoop B element style lineHeight pdf i (line :: rest) =
          textLoop B element style lineHeight
            (pdf ++ [Call.Text (textAlignX style element.Bounds w)
              (element.Bounds.Position.Y + lineHeight + (i : ℚ) * lineHeight * (3 / 2)) line])
            (i + 1) rest := by
        simp only [textLoop, hw]
      refine ⟨_ :: texts, by rw [heq, h1, List.append_assoc]; rfl, ?_, ?_⟩
      · rw [heq]
        rcases h2 with ⟨ho, hl⟩ | ⟨hlt, msg, hm, hp⟩
        · exact Or.inl ⟨ho, by simp [hl]⟩
        · refine Or.inr ⟨by simpa using hlt, msg, ?_, hp⟩
          simpa [List.append_assoc] using hm
      · intro j hj ht
        cases j with
        | zero => exact ⟨w, by simpa using hw, by simp⟩
        | succ k =>
          obtain ⟨w1, hw1, ht1⟩ := h3 k (by simpa using hj) (by simpa using ht)
          refine ⟨w1, by simpa [List.append_assoc] using hw1, ?_⟩
          simp only [List.getElem_cons_succ]
          rw [ht1]
          congr 1
          push_cast; ring

theorem textSetup_not_text (style : Style) :
    ∀ c ∈ textSetup style, ∀ (x y : ℚ) (s : String), c ≠ Call.Text x y s := by
  intro c hc x y s
  unfold textSetup at hc
  rcases List.mem_append.mp hc with h | h
  · split at h
    · rw [List.mem_singleton.mp h]; simp
    · simp at h
  · split at h
    · rw [List.mem_singleton.mp h]; simp
    · simp at h

theorem textRenderer_render_eq (B : Backend) (ctx : Context) (pdf : List Call)
    (element : Element) (content : String) (style : Style)
    (hc : element.Content = .str content) (hs : element.Style = some style) :
    TextRenderer.Render B ctx pdf element =
      textLoop B element (some style) (B.pointToUnit style.FontSize)
        (pdf ++ textSetup style) 0 (SplitLines content) := by
  simp only [TextRenderer.Render, hc, hs, textSetup]
  by_cases hf : style.FontFamily = "" <;> by_cases hcol : style.FontColor = "" <;>
    simp [hf, hcol]

/-- C20: for a text element with string content and a style, TextRenderer.Render
makes the font and colour calls and then, line by line, measures the line and
draws it with one Text call; it draws every line and returns nil, unless the
measuring of a line panics, which ends the call before that line is drawn.
With w the width measured for a line, the line is drawn at X = Bounds.X for
left, X = Bounds.X + (Bounds.Width - w)/2 for center,
X = Bounds.X + Bounds.Width - w for right, and X = Bounds.X for justify and
for an empty alignment; with Bounds.Width = 170 and w = 50, center gives
X = Bounds.X + 60. -/
theorem textRenderer_alignment (B : Backend) (ctx : Context) (pdf : List Call)
    (element : Element) (content : String) (style : Style)
    (hc : element.Content = .str content) (hs : element.Style = some style) :
    ∃ setup texts : List Call,
      (TextRenderer.Render B ctx pdf element).1 = pdf ++ setup ++ texts ∧
      (∀ c ∈ setup, ∀ (x y : ℚ) (s : String), c ≠ Call.Text x y s) ∧
      ((TextRenderer.Render B ctx pdf element).2 = .ok ∧
          texts.length = (SplitLines content).length ∨
        ∃ (h : texts.length < (SplitLines content).length) (msg : String),
          B.stringWidth (pdf ++ setup ++ texts) (SplitLines content)[texts.length] =
            .error msg ∧
          (TextRenderer.Render B ctx pdf element).2 = .panic msg) ∧
      ∀ (i : Nat) (hi : i < (SplitLines content).length) (ht : i < texts.length),
        ∃ w x y : ℚ,
          B.stringWidth (pdf ++ setup ++ texts.take i) (SplitLines content)[i] = .ok w ∧
          texts[i] = Call.Text x y (SplitLines content)[i] ∧
          (style.Alignment = "left" → x = element.Bounds.Position.X) ∧
          (style.Alignment = "center" →
            x = element.Bounds.Position.X + (element.Bounds.Size.Width - w) / 2) ∧
          (style.Alignment = "right" →
            x = element.Bounds.Position.X + element.Bounds.Size.Width - w) ∧
          (style.Alignment = "justify" → x = element.Bounds.Position.X) ∧
          (style.Alignment = "" → x = element.Bounds.Position.X) ∧
          (style.Alignment = "center" → element.Bounds.Size.Width = 170 → w = 50 →
            x = element.Bounds.Position.X + 60) := by
  obtain ⟨texts, h1, h2, h3⟩ := textLoop_spec B element (some style)
    (B.pointToUnit style.FontSize) (SplitLines content) (pdf ++ textSetup style) 0
  rw [← textRenderer_render_eq B ctx pdf element content style hc hs] at h1 h2
  refine ⟨textSetup style, texts, h1, textSetup_not_text style, h2, ?_⟩
  intro i hi ht
  obtain ⟨w, hw, htx⟩ := h3 i hi ht
  refine ⟨w, _, _, hw, htx, ?_, ?_, ?_, ?_, ?_, ?_⟩
  · intro ha; simp [textAlignX, ha, AlignLeft]
  · intro ha; simp [textAlignX, ha, AlignLeft, AlignCenter]
  · intro ha; simp [textAlignX, ha, AlignLeft, AlignCenter, AlignRight]
  · intro ha; simp [textAlignX, ha, AlignLeft, AlignCenter, AlignRight, AlignJustify]
  · intro ha; simp [textAlignX, ha]
  · intro ha hw hm
    simp only [textAlignX, ha, AlignLeft, AlignCenter]
    simp only [ne_eq, String.reduceEq, not_false_eq_true, if_true, if_false]
    rw [hw, hm]
    norm_num

theorem textRenderer_alignment_witness :
    centeredText.Content = .str "CUSTOMER" ∧ centeredText.Style = some centeredStyle ∧
    ∃ setup texts : List Call,
      (TextRenderer.Render sampleBackend sampleContext [Call.AddPage] centeredText).1 =
        [Call.AddPage] ++ setup ++ texts ∧
      (∀ c ∈ setup, ∀ (x y : ℚ) (s : String), c ≠ Call.Text x y s) ∧
      ((TextRenderer.Render sampleBackend sampleContext [Call.AddPage] centeredText).2 = .ok ∧
          texts.length = (SplitLines "CUSTOMER").length ∨
        ∃ (h : texts.length < (SplitLines "CUSTOMER").length) (msg : String),
          sampleBackend.stringWidth ([Call.AddPage] ++ setup ++ texts)
            (SplitLines "CUSTOMER")[texts.length] = .error msg ∧
          (TextRenderer.Render sampleBackend sampleContext [Call.AddPage] centeredText).2 =
            .panic msg) ∧
      ∀ (i : Nat) (hi : i < (SplitLines "CUSTOMER").length) (ht : i < texts.length),
        ∃ w x y : ℚ,
          sampleBackend.stringWidth ([Call.AddPage] ++ setup ++ texts.take i)
            (SplitLines "CUSTOMER")[i] = .ok w ∧
          texts[i] = Call.Text x y (SplitLines "CUSTOMER")[i] ∧
          (centeredStyle.Alignment = "left" → x = centeredText.Bounds.Position.X) ∧
          (centeredStyle.Alignment = "center" →
            x = centeredText.Bounds.Position.X + (centeredText.Bounds.Size.Width - w) / 2) ∧
          (centeredStyle.Alignment = "right" →
            x = centeredText.Bounds.Position.X + centeredText.Bounds.Size.Width - w) ∧
          (centeredStyle.Alignment = "justify" → x = centeredText.Bounds.Position.X) ∧
          (centeredStyle.Alignment = "" → x = centeredText.Bounds.Position.X) ∧
          (centeredStyle.Alignment = "center" → centeredText.Bounds.Size.Width = 170 → w = 50 →
            x = centeredText.Bounds.Position.X + 60) :=
  ⟨rfl, rfl, textRenderer_alignment sampleBackend sampleContext [Call.AddPage] centeredText
    "CUSTOMER" centeredStyle rfl rfl⟩

/-- The centered sample text on a fresh page: the font and the colour are set
and the one line, which measures 50 in a width of 170 from 20, is drawn at
X = 80. -/
theorem textRenderer_centered_sample :
    TextRenderer.Render sampleBackend sampleContext [Call.AddPage] centeredText =
      ([Call.AddPage, Call.SetFont "Arial" "" 14, Call.SetTextColor 0 0 0,
        Call.Text 80 (44 + 14 * (127 / 360)) "CUSTOMER"], .ok) := by
  rw [textRenderer_render_eq sampleBackend sampleContext [Call.AddPage] centeredText
    "CUSTOMER" centeredStyle rfl rfl]
  decide!

end render

/-! ## The generator: an element kind without a renderer -/

namespace generator

open model layout render errors gofmt

theorem getRenderer_newRegistry (k : String) :
    (∃ r, GetRenderer NewRegistry k = .ok r) ↔ (k = "text" ∨ k = "table" ∨ k = "image") := by
  unfold GetRenderer NewRegistry
  simp only [ElementTypeImage, ElementTypeTable, ElementTypeText]
  by_cases h1 : k = "image"
  · simp [h1]
  · by_cases h2 : k = "table"
    · simp [h2]
    · by_cases h3 : k = "text"
      · simp [h3]
      · simp [h1, h2, h3]

theorem renderElements_ok (B : Backend) (registry : Registry) (ctx : Context)
    (els : List Element) :
    ∀ pdf : List Call, (renderElements B registry ctx pdf els).2 = .ok →
      ∀ e ∈ els, ∃ r, GetRenderer registry e.Typ = .ok r := by
  induction els with
  | nil => simp
  | cons a rest ih =>
    intro pdf h e he
    simp only [renderElements] at h
    cases hr : GetRenderer registry a.Typ with
    | error err => rw [hr] at h; simp at h
    | ok renderer =>
      rw [hr] at h
      simp only at h
      rcases List.mem_cons.mp he with h1 | h1
      · rw [h1]; exact ⟨renderer, hr⟩
      · rcases hren : renderer.Render B ctx pdf a with ⟨pdf1, o⟩
        rw [hren] at h
        cases o with
        | ok => exact ih pdf1 h e h1
        | error err => simp at h
        | panic msg => simp at h

theorem renderPages_ok (B : Backend) (registry : Registry) (ctx : Context) (m : Manager)
    (pages : List Int) :
    ∀ pdf : List Call, (renderPages B registry ctx m pdf pages).2 = .ok →
      ∀ page ∈ pages, ∀ e ∈ GetPageElements m page, ∃ r, GetRenderer registry e.Typ = .ok r := by
  induction pages with
  | nil => simp
  | cons a rest ih =>
    intro pdf h page hpage e he
    simp only [renderPages] at h
    rcases hren : renderElements B registry ctx (pdf ++ [Call.AddPage]) (GetPageElements m a)
      with ⟨pdf1, o⟩
    rw [hren] at h
    cases o with
    | ok =>
      rcases List.mem_cons.mp hpage with h1 | h1
      · rw [h1] at he
        exact renderElements_ok B registry ctx _ _ (by rw [hren]) e he
      · exact ih pdf1 h page h1 e he
    | error err => simp at h
    | panic msg => simp at h

theorem mem_pagesUpTo (pe : Int → List Element) (n : Nat) (e : Element)
    (h : e ∈ pagesUpTo pe n) : ∃ i : Nat, i < n ∧ e ∈ pe ((i : Int) + 1) := by
  induction n with
  | zero => simp [pagesUpTo] at h
  | succ n ih =>
    simp only [pagesUpTo, List.mem_append] at h
    rcases h with h | h
    · obtain ⟨i, hi, hmem⟩ := ih h
      exact ⟨i, Nat.lt_succ_of_lt hi, hmem⟩
    · exact ⟨n, Nat.lt_succ_self n, h⟩

theorem forall₂_mem_left {R : Element → Element → Prop} {l1 l2 : List Element}
    (h : List.Forall₂ R l1 l2) : ∀ a ∈ l1, ∃ b ∈ l2, R a b := by
  induction h with
  | nil => simp
  | cons hab _ ih =>
    intro x hx
    rcases List.mem_cons.mp hx with h1 | h1
    · rw [h1]; exact ⟨_, List.mem_cons_self _ _, hab⟩
    · obtain ⟨b, hb, hr⟩ := ih x h1
      exact ⟨b, List.mem_cons_of_mem _ hb, hr⟩

/-- Every input element is on one of the pages `1 .. TotalPages()` of a fresh
manager, with its type unchanged. -/
theorem calculateLayout_places (pageSize : Size) (margins : Padding) (elements : List Element)
    (e : Element) (he : e ∈ elements) :
    ∃ page ∈ pageNumbers (TotalPages (CalculateLayout (NewManager pageSize margins) elements).1),
      ∃ e1 ∈ GetPageElements (CalculateLayout (NewManager pageSize margins) elements).1 page,
        e1.Typ = e.Typ := by
  have hinv : Inv { NewManager pageSize margins with elements := elements } :=
    ⟨le_refl _, fun _ _ => rfl⟩
  obtain ⟨out, h1, h2⟩ := pagesUpTo_run _ elements hinv
  obtain ⟨e1, he1, hsame⟩ := forall₂_mem_left h2 e he
  have hmem : e1 ∈ pagesUpTo
      (run { NewManager pageSize margins with elements := elements } elements).pageElements
      (run { NewManager pageSize margins with elements := elements } elements).currentPage.toNat := by
    rw [h1]
    exact List.mem_append_right _ he1
  obtain ⟨i, hi, hpe⟩ := mem_pagesUpTo _ _ _ hmem
  refine ⟨(i : Int) + 1, ?_, e1, hpe, hsame.2.1.symm⟩
  unfold pageNumbers
  exact List.mem_map_of_mem (fun i : Nat => (i : Int) + 1) (List.mem_range.mpr hi)

/-- A template that passes validation and holds an element whose type has no
renderer never gives a buffer. -/
theorem generate_never_ok (B : Backend) (template : Template) (data : Value)
    (e : Element) (he : e ∈ template.Elements)
    (hk : ∀ r, GetRenderer NewRegistry e.Typ ≠ .ok r) :
    ∀ document, (Generate B (New template) data).result ≠ .ok document := by
  intro document hres
  unfold Generate at hres
  cases hv : (Validate (New template).template).2 with
  | some err => rw [hv] at hres; simp at hres
  | none =>
    rw [hv] at hres
    simp only at hres
    have hvd : ValidateData (New template).template data = none := by
      unfold ValidateData; split <;> rfl
    rw [hvd] at hres
    simp only at hres
    rcases hl : CalculateLayout (New template).layout (New template).template.Elements
      with ⟨m, lerr⟩
    have hlerr : lerr = none := by
      have := layoutLoop_snd { (New template).layout with
        elements := (New template).template.Elements } (New template).template.Elements
      unfold CalculateLayout at hl
      rw [hl] at this
      exact this
    subst hlerr
    rw [hl] at hres
    simp only at hres
    rcases hr : renderPages B (New template).registry
        { PageSize := { Width := (New template).template.Size.Width,
                        Height := (New template).template.Size.Height },
          Margins := (New template).margins } m [] (pageNumbers (TotalPages m)) with ⟨pdf, o⟩
    rw [hr] at hres
    cases o with
    | error err => simp at hres
    | panic msg => simp at hres
    | ok =>
      have hm : m = (CalculateLayout (NewManager template.Size defaultMargins)
          template.Elements).1 := by
        have : (CalculateLayout (New template).layout (New template).template.Elements).1 = m := by
          rw [hl]
        rw [← this]; rfl
      obtain ⟨page, hpage, e1, he1, htyp⟩ :=
        calculateLayout_places template.Size defaultMargins template.Elements e he
      rw [← hm] at hpage he1
      obtain ⟨r, hrr⟩ := renderPages_ok B _ _ m _ [] (by rw [hr]) page hpage e1 he1
      rw [htyp] at hrr
      exact hk r hrr

theorem generate_barcodeOnly (B : Backend) (data : Value) :
    (Generate B (New barcodeOnly) data).result =
      .error "failed to get renderer: no renderer found for element type: barcode" := by
  simp [Generate, New, Validate, ValidateData, barcodeOnly, barcodeElement, CalculateLayout,
    layoutLoop, positionElement, NewManager, startNewPage, setPosition, defaultMargins,
    TotalPages, pageNumbers, renderPages, renderElements, GetPageElements, GetRenderer,
    NewRegistry, ElementTypeImage, ElementTypeTable, ElementTypeText, List.range_succ]
  norm_num [renderPages, renderElements, GetRenderer]
  simp

theorem generate_textThenBarcode (B : Backend) (data : Value) :
    (Generate B (New textThenBarcode) data).result =
      .panic "runtime error: invalid memory address or nil pointer dereference" := by
  simp [Generate, New, Validate, ValidateData, textThenBarcode, textNoStyle, barcodeElement,
    CalculateLayout, layoutLoop, positionElement, NewManager, startNewPage, setPosition,
    defaultMargins, TotalPages, pageNumbers, renderPages, renderElements, GetPageElements,
    GetRenderer, NewRegistry, ElementTypeImage, ElementTypeTable, ElementTypeText,
    List.range_succ]
  norm_num [renderPages, renderElements, GetRenderer, TextRenderer.Render]
  simp [TextRenderer.Render]

/-- C19: on the registry of NewRegistry, GetRenderer succeeds exactly for the
kinds text, table and image, and gives an error for every other kind; a
template that passes validation and holds an element of another kind never
gives a buffer, and the template with only a barcode gives the error of
GetRenderer; but the valid template with a text element without a style
before the barcode makes Generate panic in TextRenderer.Render (the read of
style.FontSize through the nil style) instead of returning an error. -/
theorem generate_unsupported_kind (B : Backend) (data : Value) :
    (∀ k : String,
      (∃ r, GetRenderer NewRegistry k = .ok r) ↔ (k = "text" ∨ k = "table" ∨ k = "image")) ∧
    (∀ k : String, k ≠ "text" → k ≠ "table" → k ≠ "image" →
      GetRenderer NewRegistry k = .error ("no renderer found for element type: " ++ k)) ∧
    (∀ (template : Template) (e : Element), e ∈ template.Elements →
      e.Typ ≠ "text" → e.Typ ≠ "table" → e.Typ ≠ "image" →
      ∀ document, (Generate B (New template) data).result ≠ .ok document) ∧
    (Generate B (New barcodeOnly) data).result =
      .error "failed to get renderer: no renderer found for element type: barcode" ∧
    (Validate textThenBarcode).2 = none ∧
    (Generate B (New textThenBarcode) data).result =
      .panic "runtime error: invalid memory address or nil pointer dereference" := by
  refine ⟨getRenderer_newRegistry, ?_, ?_, generate_barcodeOnly B data, ?_,
    generate_textThenBarcode B data⟩
  · intro k h1 h2 h3
    simp [GetRenderer, NewRegistry, ElementTypeImage, ElementTypeTable, ElementTypeText, h1, h2, h3]
  · intro template e he h1 h2 h3
    apply generate_never_ok B template data e he
    intro r hr
    rcases (getRenderer_newRegistry e.Typ).mp ⟨r, hr⟩ with h | h | h
    · exact h1 h
    · exact h2 h
    · exact h3 h
  · norm_num [Validate, textThenBarcode]
    simp

end generator

/-! ## The upload service: configuration -/

namespace service

open model

/-- C24: Config.Validate returns an error exactly when UploadBaseURL is empty or
BearerToken is empty; a Config with both fields non-empty is accepted. -/
theorem config_validate_iff (c : Config) :
    ((∃ err, c.Validate = some err) ↔ (c.UploadBaseURL = "" ∨ c.BearerToken = "")) ∧
    (c.Validate = none ↔ (c.UploadBaseURL ≠ "" ∧ c.BearerToken ≠ "")) ∧
    Config.Validate { UploadBaseURL := "https://example.com", BearerToken := "test-token" } =
      none ∧
    Config.Validate { UploadBaseURL := "", BearerToken := "test-token" } =
      some "upload base URL is required" ∧
    Config.Validate { UploadBaseURL := "https://example.com", BearerToken := "" } =
      some "bearer token is required" := by
  refine ⟨?_, ?_, by decide, by decide, by decide⟩ <;> unfold Config.Validate <;>
    by_cases h1 : c.UploadBaseURL = "" <;> by_cases h2 : c.BearerToken = "" <;> simp [h1, h2]

end service

/-! ## Template synthesis: elements go down the page without overlap -/

namespace dynamic

open model gofmt layout

mutual
theorem processData_heights (U : CaseTable) (g : Generator) (hg : 0 < g.lineHeight) :
    ∀ (v : Value) (p : String) (y : ℚ), ∀ e ∈ (processData U g v p y).1, 0 < e.Bounds.Size.Height
  | .object entries, p, y => by
    intro e he
    simp only [processData, List.mem_append] at he
    rcases he with h | h
    · split at h
      · rw [List.mem_singleton.mp h]
        simp only [createSectionHeader]
        linarith
      · simp at h
    · exact processEntries_heights U g hg entries p _ e h
  | .array items, p, y => by
    intro e he
    simp only [processData, List.mem_singleton] at he
    rw [he]
    simp only [createArrayElement]
    have : (0 : ℚ) < ((items.length + 1 : Nat) : ℚ) := by exact_mod_cast Nat.succ_pos _
    exact mul_pos hg this
  | .null, p, y => by simpa [processData, createValueElement] using hg
  | .bool _, p, y => by simpa [processData, createValueElement] using hg
  | .str _, p, y => by simpa [processData, createValueElement] using hg
  | .int _, p, y => by simpa [processData, createValueElement] using hg
  | .float64 _ _, p, y => by simpa [processData, createValueElement] using hg
  | .other _ _, p, y => by simpa [processData, createValueElement] using hg
theorem processEntries_heights (U : CaseTable) (g : Generator) (hg : 0 < g.lineHeight) :
    ∀ (entries : List (String × Value)) (p : String) (y : ℚ),
      ∀ e ∈ (processEntries U g entries p y).1, 0 < e.Bounds.Size.Height
  | [], p, y => by simp [processEntries]
  | (k, v) :: rest, p, y => by
    intro e he
    simp only [processEntries, List.mem_append] at he
    rcases he with h | h
    · exact processData_heights U g hg v _ y e h
    · exact processEntries_heights U g hg rest p _ e h
end

theorem stacked_increasing (x y : ℚ) (l : List Element) (h : Stacked x y l)
    (hpos : ∀ e ∈ l, 0 < e.Bounds.Size.Height) :
    List.Chain' (fun a b : Element =>
      a.Bounds.Position.Y < b.Bounds.Position.Y ∧
        a.Bounds.Position.Y + a.Bounds.Size.Height ≤ b.Bounds.Position.Y) l := by
  induction l generalizing y with
  | nil => exact List.chain'_nil
  | cons a rest ih =>
    rw [List.chain'_cons']
    refine ⟨?_, ih _ h.2.2 (fun e he => hpos e (List.mem_cons_of_mem _ he))⟩
    intro b hb
    have hby := stacked_head x _ rest h.2.2 b hb
    have ha := hpos a (List.mem_cons_self _ _)
    have hay : a.Bounds.Position.Y = y := h.2.1
    constructor <;> linarith

/-- C28: for every input value, with the generator of NewGenerator
(margins.Top = 20, lineHeight = 8), the title, first in the returned
elements, is at Y = 20, and each element has a Y strictly greater than the Y
of the element before it and at least that element's Y plus its Height. -/
theorem generateTemplate_increasing (U : CaseTable) (data : Value) :
    NewGenerator.margins.Top = 20 ∧ NewGenerator.lineHeight = 8 ∧
    (∀ e ∈ (GenerateTemplate U NewGenerator data).Elements.head?, e.Bounds.Position.Y = 20) ∧
    List.Chain' (fun a b : Element =>
      a.Bounds.Position.Y < b.Bounds.Position.Y ∧
        a.Bounds.Position.Y + a.Bounds.Size.Height ≤ b.Bounds.Position.Y)
      (GenerateTemplate U NewGenerator data).Elements := by
  have hg : 0 < NewGenerator.lineHeight := by norm_num [NewGenerator]
  have hst := (processData_stacked U NewGenerator data ""
    (NewGenerator.margins.Top + NewGenerator.lineHeight * 3)).1
  have hch := stacked_increasing _ _ _ hst (processData_heights U NewGenerator hg data "" _)
  refine ⟨rfl, rfl, by simp [GenerateTemplate, NewGenerator], ?_⟩
  simp only [GenerateTemplate, List.singleton_append]
  rw [List.chain'_cons']
  refine ⟨?_, hch⟩
  intro b hb
  have := stacked_head _ _ _ hst b hb
  rw [this]
  norm_num [NewGenerator]

end dynamic

/-! ## The renderers: the calls they add to the document -/

namespace render

open model gofmt

theorem drawnTexts_append (a b : List Call) : drawnTexts (a ++ b) = drawnTexts a ++ drawnTexts b := by
  simp [drawnTexts, List.filterMap_append]

theorem textLoop_extends (B : Backend) (element : Element) (style : Option Style)
    (lineHeight : ℚ) (lines : List String) :
    ∀ (pdf : List Call) (i : Nat), ∃ extra : List Call,
      (textLoop B element style lineHeight pdf i lines).1 = pdf ++ extra ∧
      (∀ c ∈ extra, isDraw c = true) ∧
      ((textLoop B element style lineHeight pdf i lines).2 = .ok → drawnTexts extra = lines) := by
  induction lines with
  | nil => exact fun pdf i => ⟨[], by simp [textLoop], by simp, fun _ => rfl⟩
  | cons line rest ih =>
    intro pdf i
    cases hw : B.stringWidth pdf line with
    | error msg =>
      exact ⟨[], by simp [textLoop, hw], by simp, fun h => by simp [textLoop, hw] at h⟩
    | ok w =>
      obtain ⟨extra, h1, h2, h3⟩ := ih
        (pdf ++ [Call.Text (textAlignX style element.Bounds w)
          (element.Bounds.Position.Y + lineHeight + (i : ℚ) * lineHeight * (3 / 2)) line]) (i + 1)
      have heq : textLoop B element style lineHeight pdf i (line :: rest) =
          textLoop B element style lineHeight
            (pdf ++ [Call.Text (textAlignX style element.Bounds w)
              (element.Bounds.Position.Y + lineHeight + (i : ℚ) * lineHeight * (3 / 2)) line])
            (i + 1) rest := by
        simp only [textLoop, hw]
      refine ⟨_ :: extra, by rw [heq, h1, List.append_assoc]; rfl, ?_, ?_⟩
      · intro c hc
        rcases List.mem_cons.mp hc with h | h
        · rw [h]; rfl
        · exact h2 c h
      · intro hok
        rw [heq] at hok
        have := h3 hok
        simp [drawnTexts, textOf] at this ⊢
        exact this

theorem borderCalls_isDraw (element : Element) (x y w h : ℚ) :
    (∀ c ∈ borderCalls element x y w h, isDraw c = true) ∧
      drawnTexts (borderCalls element x y w h) = [] := by
  unfold borderCalls
  cases hs : element.Style with
  | none => simp [drawnTexts]
  | some st =>
    cases hb : st.Border with
    | none => simp [drawnTexts, hb]
    | some border => simp [drawnTexts, textOf, isDraw, hb]

theorem cellLoop_cons_ok (B : Backend) (element : Element)
    (fontSize cellWidth cellHeight : ℚ) (rowIndex : Nat) (pdf : List Call) (colIndex : Nat)
    (cell : String) (rest : List String) (w : ℚ)
    (hw : B.stringWidth (pdf ++ borderCalls element
      (element.Bounds.Position.X + (colIndex : ℚ) * cellWidth)
      (element.Bounds.Position.Y + (rowIndex : ℚ) * cellHeight) cellWidth cellHeight) cell =
        .ok w) :
    cellLoop B element fontSize cellWidth cellHeight rowIndex pdf colIndex (cell :: rest) =
      cellLoop B element fontSize cellWidth cellHeight rowIndex
        (pdf ++ (borderCalls element
          (element.Bounds.Position.X + (colIndex : ℚ) * cellWidth)
          (element.Bounds.Position.Y + (rowIndex : ℚ) * cellHeight) cellWidth cellHeight ++
          [Call.Text
            (cellAlignX element.Style (element.Bounds.Position.X + (colIndex : ℚ) * cellWidth)
              cellWidth w)
            (element.Bounds.Position.Y + (rowIndex : ℚ) * cellHeight +
              (cellHeight - B.pointToUnit fontSize) / 2 + B.pointToUnit fontSize) cell]))
        (colIndex + 1) rest := by
  simp only [borderCalls] at hw
  simp only [cellLoop, borderCalls]
  cases hs : element.Style with
  | none => simp only [hs, List.append_nil] at hw; simp [hw]
  | some st =>
    cases hb : st.Border with
    | none => simp only [hs, hb, List.append_nil] at hw; simp [hb, hw]
    | some border => simp only [hs, hb] at hw; simp [hb, hw]

theorem cellLoop_cons_panic (B : Backend) (element : Element)
    (fontSize cellWidth cellHeight : ℚ) (rowIndex : Nat) (pdf : List Call) (colIndex : Nat)
    (cell : String) (rest : List String) (msg : String)
    (hw : B.stringWidth (pdf ++ borderCalls element
      (element.Bounds.Position.X + (colIndex : ℚ) * cellWidth)
      (element.Bounds.Position.Y + (rowIndex : ℚ) * cellHeight) cellWidth cellHeight) cell =
        .error msg) :
    cellLoop B element fontSize cellWidth cellHeight rowIndex pdf colIndex (cell :: rest) =
      (pdf ++ borderCalls element
        (element.Bounds.Position.X + (colIndex : ℚ) * cellWidth)
        (element.Bounds.Position.Y + (rowIndex : ℚ) * cellHeight) cellWidth cellHeight,
        .panic msg) := by
  simp only [borderCalls] at hw
  simp only [cellLoop, borderCalls]
  cases hs : element.Style with
  | none => simp only [hs, List.append_nil] at hw; simp [hw]
  | some st =>
    cases hb : st.Border with
    | none => simp only [hs, hb, List.append_nil] at hw; simp [hb, hw]
    | some border => simp only [hs, hb] at hw; simp [hb, hw]

/-- The cell loop only adds drawing calls; it ends with every cell of the row
drawn, or in the panic of a measuring. -/
theorem cellLoop_extends (B : Backend) (element : Element)
    (fontSize cellWidth cellHeight : ℚ) (rowIndex : Nat) (row : List String) :
    ∀ (pdf : List Call) (colIndex : Nat), ∃ extra : List Call,
      (cellLoop B element fontSize cellWidth cellHeight rowIndex pdf colIndex row).1 =
        pdf ++ extra ∧
      (∀ c ∈ extra, isDraw c = true) ∧
      ((cellLoop B element fontSize cellWidth cellHeight rowIndex pdf colIndex row).2 = .ok ∧
          drawnTexts extra = row ∨
        ∃ (calls : List Call) (cell msg : String), cell ∈ row ∧
          B.stringWidth calls cell = .error msg ∧
          (cellLoop B element fontSize cellWidth cellHeight rowIndex pdf colIndex row).2 =
            .panic msg) := by
  induction row with
  | nil => exact fun pdf colIndex => ⟨[], by simp [cellLoop], by simp, Or.inl ⟨rfl, rfl⟩⟩
  | cons cell rest ih =>
    intro pdf colIndex
    have hb := borderCalls_isDraw element
      (element.Bounds.Position.X + (colIndex : ℚ) * cellWidth)
      (element.Bounds.Position.Y + (rowIndex : ℚ) * cellHeight) cellWidth cellHeight
    cases hw : B.stringWidth (pdf ++ borderCalls element
      (element.Bounds.Position.X + (colIndex : ℚ) * cellWidth)
      (element.Bounds.Position.Y + (rowIndex : ℚ) * cellHeight) cellWidth cellHeight) cell with
    | error msg =>
      rw [cellLoop_cons_panic B element fontSize cellWidth cellHeight rowIndex pdf colIndex cell
        rest msg hw]
      exact ⟨_, rfl, hb.1, Or.inr ⟨_, cell, msg, List.mem_cons_self _ _, hw, rfl⟩⟩
    | ok w =>
      rw [cellLoop_cons_ok B element fontSize cellWidth cellHeight rowIndex pdf colIndex cell
        rest w hw]
      obtain ⟨extra, h1, h2, h3⟩ := ih (pdf ++ (borderCalls element
        (element.Bounds.Position.X + (colIndex : ℚ) * cellWidth)
        (element.Bounds.Position.Y + (rowIndex : ℚ) * cellHeight) cellWidth cellHeight ++
        [Call.Text
          (cellAlignX element.Style (element.Bounds.Position.X + (colIndex : ℚ) * cellWidth)
            cellWidth w)
          (element.Bounds.Position.Y + (rowIndex : ℚ) * cellHeight +
            (cellHeight - B.pointToUnit fontSize) / 2 + B.pointToUnit fontSize) cell]))
        (colIndex + 1)
      refine ⟨_, by rw [h1, List.append_assoc], ?_, ?_⟩
      · intro c hc
        simp only [List.mem_append, List.mem_singleton] at hc
        rcases hc with (h | h) | h
        · exact hb.1 c h
        · rw [h]; rfl
        · exact h2 c h
      · rcases h3 with ⟨ho, hd⟩ | ⟨calls, c, msg, hc, hm, hp⟩
        · refine Or.inl ⟨ho, ?_⟩
          rw [drawnTexts_append, drawnTexts_append, hb.2, hd]
          rfl
        · exact Or.inr ⟨calls, c, msg, List.mem_cons_of_mem _ hc, hm, hp⟩

theorem rowLoop_cons_ok (B : Backend) (element : Element)
    (fontSize cellWidth cellHeight : ℚ) (pdf pdf1 : List Call) (rowIndex : Nat)
    (row : List String) (rest : List (List String))
    (h : cellLoop B element fontSize cellWidth cellHeight rowIndex pdf 0 row = (pdf1, .ok)) :
    rowLoop B element fontSize cellWidth cellHeight pdf rowIndex (row :: rest) =
      rowLoop B element fontSize cellWidth cellHeight pdf1 (rowIndex + 1) rest := by
  simp only [rowLoop, h]

theorem rowLoop_cons_panic (B : Backend) (element : Element)
    (fontSize cellWidth cellHeight : ℚ) (pdf pdf1 : List Call) (rowIndex : Nat)
    (row : List String) (rest : List (List String)) (msg : String)
    (h : cellLoop B element fontSize cellWidth cellHeight rowIndex pdf 0 row =
      (pdf1, .panic msg)) :
    rowLoop B element fontSize cellWidth cellHeight pdf rowIndex (row :: rest) =
      (pdf1, .panic msg) := by
  simp only [rowLoop, h]

/-- The row loop only adds drawing calls; it ends with every cell of every row
drawn, row by row, or in the panic of a measuring. -/
theorem rowLoop_extends (B : Backend) (element : Element)
    (fontSize cellWidth cellHeight : ℚ) (rows : List (List String)) :
    ∀ (pdf : List Call) (rowIndex : Nat), ∃ extra : List Call,
      (rowLoop B element fontSize cellWidth cellHeight pdf rowIndex rows).1 = pdf ++ extra ∧
      (∀ c ∈ extra, isDraw c = true) ∧
      ((rowLoop B element fontSize cellWidth cellHeight pdf rowIndex rows).2 = .ok ∧
          drawnTexts extra = rows.flatten ∨
        ∃ (calls : List Call) (cell msg : String), cell ∈ rows.flatten ∧
          B.stringWidth calls cell = .error msg ∧
          (rowLoop B element fontSize cellWidth cellHeight pdf rowIndex rows).2 =
            .panic msg) := by
  induction rows with
  | nil => exact fun pdf rowIndex => ⟨[], by simp [rowLoop], by simp, Or.inl ⟨rfl, rfl⟩⟩
  | cons row rest ih =>
    intro pdf rowIndex
    obtain ⟨e1, h1, h2, h3⟩ :=
      cellLoop_extends B element fontSize cellWidth cellHeight rowIndex row pdf 0
    rcases h3 with ⟨ho, hd⟩ | ⟨calls, c, msg, hc, hm, hp⟩
    · have hcell : cellLoop B element fontSize cellWidth cellHeight rowIndex pdf 0 row =
          (pdf ++ e1, .ok) := Prod.ext h1 ho
      rw [rowLoop_cons_ok B element fontSize cellWidth cellHeight pdf _ rowIndex row rest hcell]
      obtain ⟨e2, g1, g2, g3⟩ := ih (pdf ++ e1) (rowIndex + 1)
      refine ⟨e1 ++ e2, by rw [g1, List.append_assoc], ?_, ?_⟩
      · intro c hc
        rcases List.mem_append.mp hc with h | h
        · exact h2 c h
        · exact g2 c h
      · rcases g3 with ⟨go, gd⟩ | ⟨calls, c, msg, hc, hm, hp⟩
        · exact Or.inl ⟨go, by rw [drawnTexts_append, hd, gd]; rfl⟩
        · exact Or.inr ⟨calls, c, msg, by simp [hc], hm, hp⟩
    · have hcell : cellLoop B element fontSize cellWidth cellHeight rowIndex pdf 0 row =
          (pdf ++ e1, .panic msg) := Prod.ext h1 hp
      rw [rowLoop_cons_panic B element fontSize cellWidth cellHeight pdf _ rowIndex row rest msg
        hcell]
      exact ⟨e1, rfl, h2, Or.inr ⟨calls, c, msg, by simp [hc], hm, rfl⟩⟩

theorem convertRows_ok (rows : List Value) (h : ∀ row ∈ rows, isRow row = true) :
    ∀ i : Nat, convertRows rows i = .ok (rows.map (fun row => (rowCells row).map cellText)) := by
  induction rows with
  | nil => exact fun i => rfl
  | cons row rest ih =>
    intro i
    have hrow := h row (List.mem_cons_self _ _)
    cases row <;> simp [isRow] at hrow
    simp [convertRows, ih (fun r hr => h r (List.mem_cons_of_mem _ hr)) (i + 1), rowCells]

theorem convertRows_error (rows : List Value) (h : ∃ row ∈ rows, isRow row = false) :
    ∀ i : Nat, ∃ err, convertRows rows i = .error err := by
  induction rows with
  | nil => simp at h
  | cons row rest ih =>
    intro i
    by_cases hrow : isRow row = true
    · have hrest : ∃ r ∈ rest, isRow r = false := by
        obtain ⟨r, hr, hf⟩ := h
        rcases List.mem_cons.mp hr with h1 | h1
        · rw [h1, hrow] at hf; simp at hf
        · exact ⟨r, h1, hf⟩
      obtain ⟨err, herr⟩ := ih hrest (i + 1)
      cases row <;> simp [isRow] at hrow
      exact ⟨err, by simp [convertRows, herr]⟩
    · cases row <;> first
        | exact ⟨_, rfl⟩
        | simp [isRow] at hrow

theorem textRenderer_extends (B : Backend) (ctx : Context) (pdf : List Call) (element : Element) :
    ∃ extra : List Call, (TextRenderer.Render B ctx pdf element).1 = pdf ++ extra ∧
      ∀ c ∈ extra, isDraw c = true := by
  cases hc : element.Content with
  | str content =>
    cases hs : element.Style with
    | none => exact ⟨[], by simp [TextRenderer.Render, hc, hs], by simp⟩
    | some style =>
      obtain ⟨extra, h1, h2, _⟩ := textLoop_extends B element (some style)
        (B.pointToUnit style.FontSize) (SplitLines content) (pdf ++ textSetup style) 0
      refine ⟨textSetup style ++ extra, ?_, ?_⟩
      · rw [textRenderer_render_eq B ctx pdf element content style hc hs, h1, List.append_assoc]
      · intro c hcm
        rcases List.mem_append.mp hcm with h | h
        · unfold textSetup at h
          rcases List.mem_append.mp h with h | h
          · split at h
            · rw [List.mem_singleton.mp h]; rfl
            · simp at h
          · split at h
            · rw [List.mem_singleton.mp h]; rfl
            · simp at h
        · exact h2 c h
  | null => exact ⟨[], by simp [TextRenderer.Render, hc], by simp⟩
  | bool b => exact ⟨[], by simp [TextRenderer.Render, hc], by simp⟩
  | int i => exact ⟨[], by simp [TextRenderer.Render, hc], by simp⟩
  | float64 x n => exact ⟨[], by simp [TextRenderer.Render, hc], by simp⟩
  | array items => exact ⟨[], by simp [TextRenderer.Render, hc], by simp⟩
  | object entries => exact ⟨[], by simp [TextRenderer.Render, hc], by simp⟩
  | other t n => exact ⟨[], by simp [TextRenderer.Render, hc], by simp⟩

theorem imageRenderer_extends (B : Backend) (ctx : Context) (pdf : List Call)
    (element : Element) :
    ∃ extra : List Call, (ImageRenderer.Render B ctx pdf element).1 = pdf ++ extra ∧
      ∀ c ∈ extra, isDraw c = true := by
  cases hc : element.Content with
  | str content =>
    exact ⟨[Call.Image content element.Bounds.Position.X element.Bounds.Position.Y
      element.Bounds.Size.Width element.Bounds.Size.Height],
      by simp [ImageRenderer.Render, hc], by simp [isDraw]⟩
  | null => exact ⟨[], by simp [ImageRenderer.Render, hc], by simp⟩
  | bool b => exact ⟨[], by simp [ImageRenderer.Render, hc], by simp⟩
  | int i => exact ⟨[], by simp [ImageRenderer.Render, hc], by simp⟩
  | float64 x n => exact ⟨[], by simp [ImageRenderer.Render, hc], by simp⟩
  | array items => exact ⟨[], by simp [ImageRenderer.Render, hc], by simp⟩
  | object entries => exact ⟨[], by simp [ImageRenderer.Render, hc], by simp⟩
  | other t n => exact ⟨[], by simp [ImageRenderer.Render, hc], by simp⟩

end render

/-! ## The table renderer: its outcomes and the cells it draws -/

namespace render

open model gofmt

theorem tableFont_isDraw (element : Element) :
    (∀ c ∈ tableFont element, isDraw c = true) ∧ drawnTexts (tableFont element) = [] := by
  unfold tableFont
  cases hs : element.Style with
  | none => simp [drawnTexts]
  | some st =>
    by_cases hf : st.FontFamily = ""
    · simp [drawnTexts, hf]
    · simp [drawnTexts, hf, textOf, isDraw]

theorem tableRenderer_converted (B : Backend) (ctx : Context) (pdf : List Call)
    (element : Element) (rawContent : List Value) (content : List (List String))
    (hc : element.Content = .array rawContent) (hconv : convertRows rawContent 0 = .ok content) :
    TableRenderer.Render B ctx pdf element =
      match content with
      | [] => (pdf ++ tableFont element,
          .panic "runtime error: index out of range [0] with length 0")
      | row0 :: _ =>
        rowLoop B element (tableFontSize element)
          (element.Bounds.Size.Width / (row0.length : ℚ))
          (B.pointToUnit (tableFontSize element) * 2) (pdf ++ tableFont element) 0 content := by
  simp only [TableRenderer.Render, hc, hconv, tableFont, tableFontSize]
  cases hs : element.Style with
  | none => cases content <;> simp
  | some st =>
    by_cases hf : st.FontFamily = "" <;> cases content <;> simp [hf]

/-- On a non-empty list of rows of cells the table renderer only adds drawing
calls; it ends with every cell of every row drawn and returns nil, or ends in
the panic of a measuring. -/
theorem tableRenderer_rows (B : Backend) (ctx : Context) (pdf : List Call)
    (element : Element) (rows : List Value)
    (hc : element.Content = .array rows) (hrows : ∀ row ∈ rows, isRow row = true)
    (hne : rows ≠ []) :
    ∃ extra : List Call, (TableRenderer.Render B ctx pdf element).1 = pdf ++ extra ∧
      (∀ c ∈ extra, isDraw c = true) ∧
      ((TableRenderer.Render B ctx pdf element).2 = .ok ∧
          drawnTexts extra = (rows.map (fun row => (rowCells row).map cellText)).flatten ∨
        ∃ (calls : List Call) (cell msg : String),
          cell ∈ (rows.map (fun row => (rowCells row).map cellText)).flatten ∧
          B.stringWidth calls cell = .error msg ∧
          (TableRenderer.Render B ctx pdf element).2 = .panic msg) := by
  have heq := tableRenderer_converted B ctx pdf element rows _ hc (convertRows_ok rows hrows 0)
  cases rows with
  | nil => exact absurd rfl hne
  | cons row rest =>
    rw [heq]
    obtain ⟨extra, h1, h2, h3⟩ := rowLoop_extends B element (tableFontSize element)
      (element.Bounds.Size.Width / (((rowCells row).map cellText).length : ℚ))
      (B.pointToUnit (tableFontSize element) * 2)
      ((rowCells row).map cellText :: rest.map (fun r => (rowCells r).map cellText))
      (pdf ++ tableFont element) 0
    have hf := tableFont_isDraw element
    refine ⟨tableFont element ++ extra, ?_, ?_, ?_⟩
    · rw [← List.append_assoc, ← h1]
      rfl
    · intro c hcm
      rcases List.mem_append.mp hcm with h | h
      · exact hf.1 c h
      · exact h2 c h
    · rcases h3 with ⟨ho, hd⟩ | ⟨calls, c, msg, hcm, hm, hp⟩
      · refine Or.inl ⟨ho, ?_⟩
        rw [drawnTexts_append, hf.2, hd]
        rfl
      · exact Or.inr ⟨calls, c, msg, hcm, hm, hp⟩

theorem tableRenderer_noRows (B : Backend) (ctx : Context) (pdf : List Call)
    (element : Element) (hc : element.Content = .array []) :
    TableRenderer.Render B ctx pdf element =
      (pdf ++ tableFont element, .panic "runtime error: index out of range [0] with length 0") := by
  rw [tableRenderer_converted B ctx pdf element [] [] hc rfl]

theorem tableRenderer_badRow (B : Backend) (ctx : Context) (pdf : List Call)
    (element : Element) (rows : List Value)
    (hc : element.Content = .array rows) (hbad : ∃ row ∈ rows, isRow row = false) :
    ∃ err, TableRenderer.Render B ctx pdf element = (pdf, .error err) := by
  obtain ⟨err, herr⟩ := convertRows_error rows hbad 0
  exact ⟨err, by simp only [TableRenderer.Render, hc, herr]⟩

theorem tableRenderer_notRows (B : Backend) (ctx : Context) (pdf : List Call)
    (element : Element) (hc : isRow element.Content = false) :
    ∃ err, TableRenderer.Render B ctx pdf element = (pdf, .error err) := by
  refine ⟨"invalid content type for table element: expected []interface{}, got " ++
    typeName element.Content, ?_⟩
  cases hv : element.Content with
  | array items => rw [hv] at hc; simp [isRow] at hc
  | null => simp only [TableRenderer.Render, hv]
  | bool b => simp only [TableRenderer.Render, hv]
  | str x => simp only [TableRenderer.Render, hv]
  | int i => simp only [TableRenderer.Render, hv]
  | float64 x n => simp only [TableRenderer.Render, hv]
  | object entries => simp only [TableRenderer.Render, hv]
  | other t n => simp only [TableRenderer.Render, hv]

theorem tableRenderer_extends (B : Backend) (ctx : Context) (pdf : List Call)
    (element : Element) :
    ∃ extra : List Call, (TableRenderer.Render B ctx pdf element).1 = pdf ++ extra ∧
      ∀ c ∈ extra, isDraw c = true := by
  by_cases hc : isRow element.Content = true
  · obtain ⟨rows, hrows⟩ : ∃ rows, element.Content = .array rows := by
      cases hv : element.Content <;> rw [hv] at hc <;> first
        | exact ⟨_, rfl⟩
        | simp [isRow] at hc
    by_cases hall : ∀ row ∈ rows, isRow row = true
    · cases rows with
      | nil =>
        rw [tableRenderer_noRows B ctx pdf element hrows]
        exact ⟨tableFont element, rfl, (tableFont_isDraw element).1⟩
      | cons row rest =>
        obtain ⟨extra, h1, h2, _⟩ :=
          tableRenderer_rows B ctx pdf element (row :: rest) hrows hall (by simp)
        exact ⟨extra, h1, h2⟩
    · have hbad : ∃ row ∈ rows, isRow row = false := by
        by_contra hcon
        exact hall (fun row hr => by
          by_contra hnr
          exact hcon ⟨row, hr, by simpa using hnr⟩)
      obtain ⟨err, herr⟩ := tableRenderer_badRow B ctx pdf element rows hrows hbad
      exact ⟨[], by rw [herr]; simp, by simp⟩
  · obtain ⟨err, herr⟩ := tableRenderer_notRows B ctx pdf element (by simpa using hc)
    exact ⟨[], by rw [herr]; simp, by simp⟩

/-- Every renderer of the registry of `NewRegistry` only adds calls to the
document, none of them `AddPage` or `Output`. -/
theorem registry_extends (elementType : String) (r : ElementRenderer)
    (hr : GetRenderer NewRegistry elementType = .ok r) (B : Backend) (ctx : Context)
    (pdf : List Call) (element : Element) :
    ∃ extra : List Call, (r.Render B ctx pdf element).1 = pdf ++ extra ∧
      ∀ c ∈ extra, isDraw c = true := by
  unfold GetRenderer NewRegistry at hr
  simp only at hr
  split_ifs at hr with h1 h2 h3
  · simp only [Except.ok.injEq] at hr
    rw [← hr]; exact imageRenderer_extends B ctx pdf element
  · simp only [Except.ok.injEq] at hr
    rw [← hr]; exact tableRenderer_extends B ctx pdf element
  · simp only [Except.ok.injEq] at hr
    rw [← hr]; exact textRenderer_extends B ctx pdf element

end render

/-! ## The renderers: cells, row shapes, a nil style, no rows -/

namespace render

open model gofmt

/-- C21: TableRenderer turns every cell value other than nil into the string
that formatValue returns for it, and the row ["Product A", 2, 29.99, true]
into ["Product A", "2", "29.99", "true"]; but its switch has no case for nil,
so a nil cell becomes "<nil>" where formatValue returns "N/A". -/
theorem tableRenderer_cell_strings (g : dynamic.Generator) :
    (∀ v : Value, v ≠ .null → cellText v = dynamic.formatValue g v) ∧
    cellText .null = "<nil>" ∧ dynamic.formatValue g .null = "N/A" ∧
    convertRows [productRow] 0 = .ok [["Product A", "2", "29.99", "true"]] ∧
    convertRows [.array [.null]] 0 = .ok [["<nil>"]] := by
  have h1 : [Value.str "Product A", .int 2, .float64 dynamic.float2999 "29.99",
      .bool true].map cellText = ["Product A", "2", "29.99", "true"] := by decide
  have h2 : [Value.null].map cellText = ["<nil>"] := by decide
  refine ⟨?_, rfl, rfl, by simp only [convertRows, productRow, h1],
    by simp only [convertRows, h2]⟩
  intro v hv
  cases v <;> first
    | rfl
    | exact absurd rfl hv

/-- A table in a font, drawn on a fresh page by the sample backend: the rows
[["a", "b"], ["c"]] give the font call and the three cells, and nil. -/
theorem tableRenderer_ragged_sample :
    TableRenderer.Render sampleBackend sampleContext [Call.AddPage] (tableInFont raggedRows) =
      ([Call.AddPage, Call.SetFont "Arial" "" 10,
        Call.Text (10 + (95 - 50) / 2) (10 + (10 * (127 / 360) * 2 - 10 * (127 / 360)) / 2 +
          10 * (127 / 360)) "a",
        Call.Text (10 + 95 + (95 - 50) / 2) (10 + (10 * (127 / 360) * 2 - 10 * (127 / 360)) / 2 +
          10 * (127 / 360)) "b",
        Call.Text (10 + (95 - 50) / 2) (10 + 10 * (127 / 360) * 2 +
          (10 * (127 / 360) * 2 - 10 * (127 / 360)) / 2 + 10 * (127 / 360)) "c"], .ok) := by
  decide!

/-- C22, counterexample: for the rows [["a", "b"], ["c"]], which do not have the
same number of cells, in a table whose style names a font, TableRenderer.Render
returns nil and draws the three cells. -/
theorem tableRenderer_ragged_rows :
    (TableRenderer.Render sampleBackend sampleContext [Call.AddPage]
      (tableInFont raggedRows)).2 = .ok ∧
    drawnTexts
      (TableRenderer.Render sampleBackend sampleContext [Call.AddPage]
        (tableInFont raggedRows)).1 = ["a", "b", "c"] := by
  rw [tableRenderer_ragged_sample]
  exact ⟨rfl, by simp [drawnTexts, textOf]⟩

/-- The same rows in a table without a style, on a document on which no font
has been selected: the measuring of the first cell panics and nothing is
drawn. -/
theorem tableRenderer_no_font :
    TableRenderer.Render sampleBackend sampleContext [Call.AddPage] (tableWith raggedRows) =
      ([Call.AddPage], .panic "runtime error: index out of range [97] with length 0") := by
  decide!

/-- C22, amended: TableRenderer.Render returns an error and leaves the document
as it was (no cell drawn) when the content is not a list, and when some row
is not a list of cells.  Rows of different lengths are not an error: for a
non-empty list of rows of cells Render never returns an error; it returns nil
with the cells of all rows drawn, row by row, none left out, and does so
whenever every cell can be measured; otherwise it ends in the panic of a
measuring. -/
theorem tableRenderer_shape (B : Backend) (ctx : Context) (pdf : List Call)
    (element : Element) :
    (isRow element.Content = false →
      ∃ err, TableRenderer.Render B ctx pdf element = (pdf, .error err)) ∧
    (∀ rows : List Value, element.Content = .array rows →
      (∃ row ∈ rows, isRow row = false) →
      ∃ err, TableRenderer.Render B ctx pdf element = (pdf, .error err)) ∧
    (∀ rows : List Value, element.Content = .array rows →
      (∀ row ∈ rows, isRow row = true) → rows ≠ [] →
      (∀ err, (TableRenderer.Render B ctx pdf element).2 ≠ .error err) ∧
      (∃ extra : List Call, (TableRenderer.Render B ctx pdf element).1 = pdf ++ extra ∧
        ((TableRenderer.Render B ctx pdf element).2 = .ok ∧
            drawnTexts extra = (rows.map (fun row => (rowCells row).map cellText)).flatten ∨
          ∃ (calls : List Call) (cell msg : String),
            cell ∈ (rows.map (fun row => (rowCells row).map cellText)).flatten ∧
            B.stringWidth calls cell = .error msg ∧
            (TableRenderer.Render B ctx pdf element).2 = .panic msg)) ∧
      ((∀ (calls : List Call),
          ∀ cell ∈ (rows.map (fun row => (rowCells row).map cellText)).flatten,
          ∃ w, B.stringWidth calls cell = .ok w) →
        (TableRenderer.Render B ctx pdf element).2 = .ok ∧
          ∃ extra : List Call, (TableRenderer.Render B ctx pdf element).1 = pdf ++ extra ∧
            drawnTexts extra =
              (rows.map (fun row => (rowCells row).map cellText)).flatten)) := by
  refine ⟨tableRenderer_notRows B ctx pdf element,
    fun rows hc hbad => tableRenderer_badRow B ctx pdf element rows hc hbad, ?_⟩
  intro rows hc hall hne
  obtain ⟨extra, h1, _, h3⟩ := tableRenderer_rows B ctx pdf element rows hc hall hne
  refine ⟨?_, ⟨extra, h1, h3⟩, ?_⟩
  · intro err herr
    rcases h3 with ⟨ho, _⟩ | ⟨_, _, _, _, _, hp⟩
    · rw [ho] at herr; exact Outcome.noConfusion herr
    · rw [hp] at herr; exact Outcome.noConfusion herr
  · intro hmeas
    rcases h3 with ⟨ho, hd⟩ | ⟨calls, cell, msg, hcm, hm, _⟩
    · exact ⟨ho, extra, h1, hd⟩
    · obtain ⟨w, hw⟩ := hmeas calls cell hcm
      rw [hw] at hm
      exact Except.noConfusion hm

/-- C25: for a text element whose Content is a string and whose Style is nil,
TextRenderer.Render does not return: it panics on the read of
style.FontSize, before any line is drawn. -/
theorem textRenderer_nil_style (B : Backend) (ctx : Context) (pdf : List Call) :
    (∀ (element : Element) (content : String),
      element.Content = .str content → element.Style = none →
      TextRenderer.Render B ctx pdf element =
        (pdf, .panic "runtime error: invalid memory address or nil pointer dereference")) ∧
    TextRenderer.Render B ctx pdf generator.textNoStyle =
      (pdf, .panic "runtime error: invalid memory address or nil pointer dereference") := by
  refine ⟨?_, rfl⟩
  intro element content hc hs
  simp only [TextRenderer.Render, hc, hs]

/-- C26: for a table element whose Content is the empty list of rows,
TableRenderer.Render panics on the read of content[0] (index out of range);
for a non-empty list of rows of cells, a first row of zero cells included, the
read of content[0] is inside the list and Render returns nil, unless the
measuring of a cell panics: it returns nil whenever every cell can be
measured, and for the one row of zero cells there is nothing to measure. -/
theorem tableRenderer_zero_rows (B : Backend) (ctx : Context) (pdf : List Call) :
    (∀ element : Element, element.Content = .array [] →
      (TableRenderer.Render B ctx pdf element).2 =
        .panic "runtime error: index out of range [0] with length 0") ∧
    (TableRenderer.Render B ctx pdf (tableWith (.array []))).2 =
      .panic "runtime error: index out of range [0] with length 0" ∧
    (∀ (element : Element) (rows : List Value), element.Content = .array rows →
      (∀ row ∈ rows, isRow row = true) → rows ≠ [] →
      ((TableRenderer.Render B ctx pdf element).2 = .ok ∨
        ∃ (calls : List Call) (cell msg : String),
          cell ∈ (rows.map (fun row => (rowCells row).map cellText)).flatten ∧
          B.stringWidth calls cell = .error msg ∧
          (TableRenderer.Render B ctx pdf element).2 = .panic msg) ∧
      ((∀ (calls : List Call),
          ∀ cell ∈ (rows.map (fun row => (rowCells row).map cellText)).flatten,
          ∃ w, B.stringWidth calls cell = .ok w) →
        (TableRenderer.Render B ctx pdf element).2 = .ok)) ∧
    (TableRenderer.Render B ctx pdf (tableWith (.array [.array []]))).2 = .ok := by
  have hgen : ∀ (element : Element) (rows : List Value), element.Content = .array rows →
      (∀ row ∈ rows, isRow row = true) → rows ≠ [] →
      ((TableRenderer.Render B ctx pdf element).2 = .ok ∨
        ∃ (calls : List Call) (cell msg : String),
          cell ∈ (rows.map (fun row => (rowCells row).map cellText)).flatten ∧
          B.stringWidth calls cell = .error msg ∧
          (TableRenderer.Render B ctx pdf element).2 = .panic msg) := by
    intro element rows hc hall hne
    obtain ⟨extra, _, _, h3⟩ := tableRenderer_rows B ctx pdf element rows hc hall hne
    rcases h3 with ⟨ho, _⟩ | h
    · exact Or.inl ho
    · exact Or.inr h
  refine ⟨?_, ?_, ?_, ?_⟩
  · intro element hc
    rw [tableRenderer_noRows B ctx pdf element hc]
  · rw [tableRenderer_noRows B ctx pdf _ rfl]
  · intro element rows hc hall hne
    refine ⟨hgen element rows hc hall hne, ?_⟩
    intro hmeas
    rcases hgen element rows hc hall hne with ho | ⟨calls, cell, msg, hcm, hm, _⟩
    · exact ho
    · obtain ⟨w, hw⟩ := hmeas calls cell hcm
      rw [hw] at hm
      exact Except.noConfusion hm
  · rcases hgen (tableWith (.array [.array []])) [.array []] rfl (by decide) (by simp) with
      ho | ⟨_, cell, _, hcm, _, _⟩
    · exact ho
    · simp [rowCells] at hcm

end render

/-! ## The layout manager: a first element taller than the page body -/

namespace layout

open model

/-- A first element taller than the page body leaves page 1 empty and opens page 2. -/
theorem first_tall_layout (pageSize : Size) (margins : Padding) (e : Element)
    (rest : List Element)
    (htall : e.Bounds.Size.Height > pageSize.Height - margins.Top - margins.Bottom) :
    GetPageElements (CalculateLayout (NewManager pageSize margins) (e :: rest)).1 1 = [] ∧
    2 ≤ TotalPages (CalculateLayout (NewManager pageSize margins) (e :: rest)).1 ∧
    ∃ more, GetPageElements (CalculateLayout (NewManager pageSize margins) (e :: rest)).1 2 =
      setPosition e margins.Left margins.Top :: more := by
  let m0 : Manager := { NewManager pageSize margins with elements := e :: rest }
  have hyes : e.Bounds.Size.Height > m0.pageSize.Height - m0.currentY - m0.margins.Bottom := htall
  have hp : targetPage m0 e = 2 := by unfold targetPage; rw [if_pos hyes]; rfl
  have hy : targetY m0 e = margins.Top := by unfold targetY; rw [if_pos hyes]; rfl
  have hrun : (CalculateLayout (NewManager pageSize margins) (e :: rest)).1 =
      run (step m0 e) rest := by
    change run m0 (e :: rest) = _
    rw [run_cons]
  rw [hrun]
  have hcp : (step m0 e).currentPage = 2 := by rw [step_currentPage, hp]
  refine ⟨?_, ?_, ?_⟩
  · unfold GetPageElements
    rw [run_below _ _ _ (by rw [hcp]; decide), step_pageElements, hp, if_neg (by decide)]
    rfl
  · have := run_currentPage_ge (step m0 e) rest
    rw [hcp] at this
    exact this
  · obtain ⟨extra, hex⟩ := run_extends (step m0 e) rest 2
    refine ⟨extra, ?_⟩
    unfold GetPageElements
    rw [hex, step_pageElements, hp, if_pos rfl, hy]
    rfl

end layout

/-! ## The generator: the page loop, and a blank first page -/

namespace generator

open model layout render errors gofmt

theorem renderElements_cons_ok (B : Backend) (registry : Registry) (ctx : Context)
    (pdf pdf1 : List Call) (e : Element) (rest : List Element) (r : ElementRenderer)
    (hr : GetRenderer registry e.Typ = .ok r) (hren : r.Render B ctx pdf e = (pdf1, .ok)) :
    renderElements B registry ctx pdf (e :: rest) = renderElements B registry ctx pdf1 rest := by
  simp only [renderElements, hr, hren]

theorem renderElements_cons_error (B : Backend) (registry : Registry) (ctx : Context)
    (pdf pdf1 : List Call) (e : Element) (rest : List Element) (r : ElementRenderer)
    (err : String)
    (hr : GetRenderer registry e.Typ = .ok r) (hren : r.Render B ctx pdf e = (pdf1, .error err)) :
    renderElements B registry ctx pdf (e :: rest) =
      (pdf1, .error ("failed to render element: " ++ err)) := by
  simp only [renderElements, hr, hren]

theorem renderElements_cons_panic (B : Backend) (registry : Registry) (ctx : Context)
    (pdf pdf1 : List Call) (e : Element) (rest : List Element) (r : ElementRenderer)
    (msg : String)
    (hr : GetRenderer registry e.Typ = .ok r) (hren : r.Render B ctx pdf e = (pdf1, .panic msg)) :
    renderElements B registry ctx pdf (e :: rest) = (pdf1, .panic msg) := by
  simp only [renderElements, hr, hren]

theorem renderElements_cons_none (B : Backend) (registry : Registry) (ctx : Context)
    (pdf : List Call) (e : Element) (rest : List Element) (err : String)
    (hr : GetRenderer registry e.Typ = .error err) :
    renderElements B registry ctx pdf (e :: rest) =
      (pdf, .error ("failed to get renderer: " ++ err)) := by
  simp only [renderElements, hr]

theorem renderPages_cons_ok (B : Backend) (registry : Registry) (ctx : Context) (m : Manager)
    (pdf pdf1 : List Call) (page : Int) (rest : List Int)
    (h : renderElements B registry ctx (pdf ++ [Call.AddPage]) (GetPageElements m page) =
      (pdf1, .ok)) :
    renderPages B registry ctx m pdf (page :: rest) = renderPages B registry ctx m pdf1 rest := by
  simp only [renderPages, h]

theorem renderPages_cons_error (B : Backend) (registry : Registry) (ctx : Context)
    (m : Manager) (pdf pdf1 : List Call) (page : Int) (rest : List Int) (err : String)
    (h : renderElements B registry ctx (pdf ++ [Call.AddPage]) (GetPageElements m page) =
      (pdf1, .error err)) :
    renderPages B registry ctx m pdf (page :: rest) = (pdf1, .error err) := by
  simp only [renderPages, h]

theorem renderPages_cons_panic (B : Backend) (registry : Registry) (ctx : Context)
    (m : Manager) (pdf pdf1 : List Call) (page : Int) (rest : List Int) (msg : String)
    (h : renderElements B registry ctx (pdf ++ [Call.AddPage]) (GetPageElements m page) =
      (pdf1, .panic msg)) :
    renderPages B registry ctx m pdf (page :: rest) = (pdf1, .panic msg) := by
  simp only [renderPages, h]

theorem renderElements_extends (B : Backend) (ctx : Context) (els : List Element) :
    ∀ pdf : List Call, ∃ extra : List Call,
      (renderElements B NewRegistry ctx pdf els).1 = pdf ++ extra ∧
        ∀ c ∈ extra, isDraw c = true := by
  induction els with
  | nil => exact fun pdf => ⟨[], by simp [renderElements], by simp⟩
  | cons e rest ih =>
    intro pdf
    cases hr : GetRenderer NewRegistry e.Typ with
    | error err =>
      rw [renderElements_cons_none B _ ctx pdf e rest err hr]
      exact ⟨[], by simp, by simp⟩
    | ok r =>
      obtain ⟨x1, h1, h2⟩ := registry_extends e.Typ r hr B ctx pdf e
      rcases hren : r.Render B ctx pdf e with ⟨pdf1, o⟩
      rw [hren] at h1
      simp only at h1
      subst h1
      cases o with
      | ok =>
        obtain ⟨x2, g1, g2⟩ := ih (pdf ++ x1)
        rw [renderElements_cons_ok B _ ctx pdf _ e rest r hr hren]
        refine ⟨x1 ++ x2, by rw [g1, List.append_assoc], ?_⟩
        intro c hc
        rcases List.mem_append.mp hc with h | h
        · exact h2 c h
        · exact g2 c h
      | error err =>
        rw [renderElements_cons_error B _ ctx pdf _ e rest r err hr hren]
        exact ⟨x1, rfl, h2⟩
      | panic msg =>
        rw [renderElements_cons_panic B _ ctx pdf _ e rest r msg hr hren]
        exact ⟨x1, rfl, h2⟩

theorem renderPages_extends (B : Backend) (ctx : Context) (m : Manager) (pages : List Int) :
    ∀ pdf : List Call, ∃ extra : List Call,
      (renderPages B NewRegistry ctx m pdf pages).1 = pdf ++ extra := by
  induction pages with
  | nil => exact fun pdf => ⟨[], by simp [renderPages]⟩
  | cons page rest ih =>
    intro pdf
    obtain ⟨x1, h1, _⟩ := renderElements_extends B ctx (GetPageElements m page)
      (pdf ++ [Call.AddPage])
    rcases hren : renderElements B NewRegistry ctx (pdf ++ [Call.AddPage])
      (GetPageElements m page) with ⟨pdf1, o⟩
    rw [hren] at h1
    simp only at h1
    subst h1
    cases o with
    | ok =>
      obtain ⟨x2, g1⟩ := ih (pdf ++ [Call.AddPage] ++ x1)
      rw [renderPages_cons_ok B _ ctx m pdf _ page rest hren]
      exact ⟨[Call.AddPage] ++ x1 ++ x2, by rw [g1]; simp [List.append_assoc]⟩
    | error err =>
      rw [renderPages_cons_error B _ ctx m pdf _ page rest err hren]
      exact ⟨[Call.AddPage] ++ x1, by simp [List.append_assoc]⟩
    | panic msg =>
      rw [renderPages_cons_panic B _ ctx m pdf _ page rest msg hren]
      exact ⟨[Call.AddPage] ++ x1, by simp [List.append_assoc]⟩

/-- What `Generate` leaves for a template that passes validation, in terms of
the page loop. -/
theorem generate_valid (B : Backend) (template : Template) (data : Value)
    (hvalid : (Validate template).2 = none) :
    (Generate B (New template) data).generator.layout =
        (CalculateLayout (NewManager template.Size defaultMargins) template.Elements).1 ∧
    ((Generate B (New template) data).calls =
        (renderPages B NewRegistry
          { PageSize := { Width := template.Size.Width, Height := template.Size.Height },
            Margins := defaultMargins }
          (CalculateLayout (NewManager template.Size defaultMargins) template.Elements).1 []
          (pageNumbers (TotalPages
            (CalculateLayout (NewManager template.Size defaultMargins)
              template.Elements).1))).1 ++
        (if (renderPages B NewRegistry
          { PageSize := { Width := template.Size.Width, Height := template.Size.Height },
            Margins := defaultMargins }
          (CalculateLayout (NewManager template.Size defaultMargins) template.Elements).1 []
          (pageNumbers (TotalPages
            (CalculateLayout (NewManager template.Size defaultMargins)
              template.Elements).1))).2 = .ok then [Call.Output] else [])) := by
  have hl : CalculateLayout (NewManager template.Size defaultMargins) template.Elements =
      ((CalculateLayout (NewManager template.Size defaultMargins) template.Elements).1, none) := by
    apply Prod.ext
    · rfl
    · exact layoutLoop_snd _ _
  have hvd : ValidateData template data = none := by
    unfold ValidateData; split <;> rfl
  unfold Generate
  simp only [New, hvalid, hvd]
  rw [hl]
  simp only []
  rcases hr : renderPages B NewRegistry
      { PageSize := { Width := template.Size.Width, Height := template.Size.Height },
        Margins := defaultMargins }
      (CalculateLayout (NewManager template.Size defaultMargins) template.Elements).1 []
      (pageNumbers (TotalPages
        (CalculateLayout (NewManager template.Size defaultMargins) template.Elements).1))
    with ⟨pdf, o⟩
  cases o with
  | ok =>
    simp only []
    cases B.outputError pdf <;> simp
  | error err => simp
  | panic msg => simp

theorem renderPages_cons_extends (B : Backend) (ctx : Context) (m : Manager) (page : Int)
    (rest : List Int) (pdf : List Call) :
    ∃ extra : List Call,
      (renderPages B NewRegistry ctx m pdf (page :: rest)).1 = pdf ++ Call.AddPage :: extra := by
  obtain ⟨x1, h1, _⟩ := renderElements_extends B ctx (GetPageElements m page)
    (pdf ++ [Call.AddPage])
  rcases hren : renderElements B NewRegistry ctx (pdf ++ [Call.AddPage])
    (GetPageElements m page) with ⟨pdf1, o⟩
  rw [hren] at h1
  simp only at h1
  subst h1
  cases o with
  | ok =>
    obtain ⟨x2, g1⟩ := renderPages_extends B ctx m rest (pdf ++ [Call.AddPage] ++ x1)
    rw [renderPages_cons_ok B _ ctx m pdf _ page rest hren]
    exact ⟨x1 ++ x2, by rw [g1]; simp [List.append_assoc]⟩
  | error err =>
    rw [renderPages_cons_error B _ ctx m pdf _ page rest err hren]
    exact ⟨x1, by simp [List.append_assoc]⟩
  | panic msg =>
    rw [renderPages_cons_panic B _ ctx m pdf _ page rest msg hren]
    exact ⟨x1, by simp [List.append_assoc]⟩

theorem pageNumbers_two (n : Int) (h : 2 ≤ n) : ∃ rest, pageNumbers n = 1 :: 2 :: rest := by
  obtain ⟨k, hk⟩ : ∃ k : Nat, n.toNat = k + 2 := ⟨n.toNat - 2, by omega⟩
  unfold pageNumbers
  rw [hk, List.range_succ_eq_map, List.range_succ_eq_map]
  exact ⟨_, rfl⟩

/-- C27: if the first element given to CalculateLayout on a fresh Manager is
taller than the page body, then GetPageElements(1) is empty, TotalPages() is
at least 2 and that element is the first of page 2, at (margins.Left,
margins.Top); and for a valid template with these elements Generate starts
the document with two AddPage calls in a row: the first page is blank. -/
theorem calculateLayout_first_tall (pageSize : Size) (margins : Padding) (e : Element)
    (rest : List Element)
    (htall : e.Bounds.Size.Height > pageSize.Height - margins.Top - margins.Bottom) :
    GetPageElements (CalculateLayout (NewManager pageSize margins) (e :: rest)).1 1 = [] ∧
    2 ≤ TotalPages (CalculateLayout (NewManager pageSize margins) (e :: rest)).1 ∧
    (∃ more, GetPageElements (CalculateLayout (NewManager pageSize margins) (e :: rest)).1 2 =
      setPosition e margins.Left margins.Top :: more) ∧
    ∀ (B : Backend) (template : Template) (data : Value),
      (Validate template).2 = none → template.Size = pageSize → margins = defaultMargins →
      template.Elements = e :: rest →
      ∃ tail, (Generate B (New template) data).calls = Call.AddPage :: Call.AddPage :: tail := by
  obtain ⟨h1, h2, h3⟩ := first_tall_layout pageSize margins e rest htall
  refine ⟨h1, h2, h3, ?_⟩
  intro B template data hvalid hsize hmargins helems
  obtain ⟨_, hcalls⟩ := generate_valid B template data hvalid
  rw [hcalls, hsize, ← hmargins, helems]
  obtain ⟨pages, hpages⟩ := pageNumbers_two _ h2
  rw [hpages]
  have hfirst : renderElements B NewRegistry
      { PageSize := { Width := pageSize.Width, Height := pageSize.Height }, Margins := margins }
      ([] ++ [Call.AddPage])
      (GetPageElements (CalculateLayout (NewManager pageSize margins) (e :: rest)).1 1) =
      ([Call.AddPage], .ok) := by
    rw [h1]; rfl
  rw [renderPages_cons_ok B _ _ _ [] _ 1 (2 :: pages) hfirst]
  obtain ⟨extra, hextra⟩ := renderPages_cons_extends B
    { PageSize := { Width := pageSize.Width, Height := pageSize.Height }, Margins := margins }
    (CalculateLayout (NewManager pageSize margins) (e :: rest)).1 2 pages [Call.AddPage]
  rw [hextra]
  exact ⟨extra ++ _, rfl⟩

theorem calculateLayout_first_tall_witness :
    (sampleElement "tall" 200).Bounds.Size.Height >
      samplePage.Height - sampleMargins.Top - sampleMargins.Bottom ∧
    (GetPageElements (CalculateLayout (NewManager samplePage sampleMargins)
      (sampleElement "tall" 200 :: [sampleElement "b" 30])).1 1 = [] ∧
    2 ≤ TotalPages (CalculateLayout (NewManager samplePage sampleMargins)
      (sampleElement "tall" 200 :: [sampleElement "b" 30])).1 ∧
    (∃ more, GetPageElements (CalculateLayout (NewManager samplePage sampleMargins)
      (sampleElement "tall" 200 :: [sampleElement "b" 30])).1 2 =
      setPosition (sampleElement "tall" 200) sampleMargins.Left sampleMargins.Top :: more) ∧
    ∀ (B : Backend) (template : Template) (data : Value),
      (Validate template).2 = none → template.Size = samplePage →
      sampleMargins = defaultMargins →
      template.Elements = sampleElement "tall" 200 :: [sampleElement "b" 30] →
      ∃ tail, (Generate B (New template) data).calls =
        Call.AddPage :: Call.AddPage :: tail) :=
  have h : (sampleElement "tall" 200).Bounds.Size.Height >
      samplePage.Height - sampleMargins.Top - sampleMargins.Bottom := by
    norm_num [sampleElement, samplePage, sampleMargins]
  ⟨h, calculateLayout_first_tall samplePage sampleMargins (sampleElement "tall" 200)
    [sampleElement "b" 30] h⟩

end generator

/-! ## The generator: the sequence of calls on the drawing backend -/

namespace generator

open model layout render errors gofmt

theorem isDraw_ne (c : Call) (h : isDraw c = true) : c ≠ Call.AddPage ∧ c ≠ Call.Output := by
  constructor <;> intro hc <;> rw [hc] at h <;> simp [isDraw] at h

theorem count_of_ne (l : List Call) (h : ∀ c ∈ l, c ≠ Call.AddPage ∧ c ≠ Call.Output) :
    l.count Call.AddPage = 0 ∧ l.count Call.Output = 0 := by
  constructor
  · exact List.count_eq_zero.mpr (fun hm => (h _ hm).1 rfl)
  · exact List.count_eq_zero.mpr (fun hm => (h _ hm).2 rfl)

theorem renderElements_rendered (B : Backend) (ctx : Context) (els : List Element)
    (hs : ∀ e ∈ els, ∀ pdf : List Call,
      ∃ r, GetRenderer NewRegistry e.Typ = .ok r ∧ (r.Render B ctx pdf e).2 = .ok) :
    ∀ pdf : List Call, ∃ chunks : List (List Call),
      renderElements B NewRegistry ctx pdf els = (pdf ++ chunks.flatten, .ok) ∧
      PageRendered B ctx pdf els chunks ∧
      chunks.flatten.count Call.AddPage = 0 ∧ chunks.flatten.count Call.Output = 0 := by
  induction els with
  | nil => exact fun pdf => ⟨[], by simp [renderElements], trivial, rfl, rfl⟩
  | cons e rest ih =>
    intro pdf
    obtain ⟨r, hr, hok⟩ := hs e (List.mem_cons_self _ _) pdf
    obtain ⟨x1, h1, h2⟩ := registry_extends e.Typ r hr B ctx pdf e
    have hren : r.Render B ctx pdf e = (pdf ++ x1, .ok) := Prod.ext h1 hok
    obtain ⟨chunks, g1, g2, g3, g4⟩ :=
      ih (fun x hx => hs x (List.mem_cons_of_mem _ hx)) (pdf ++ x1)
    have hne : ∀ c ∈ x1, c ≠ Call.AddPage ∧ c ≠ Call.Output := fun c hc => isDraw_ne c (h2 c hc)
    have hcnt := count_of_ne x1 hne
    refine ⟨x1 :: chunks, ?_, ⟨⟨hne, r, hr, hren⟩, g2⟩, ?_, ?_⟩
    · rw [renderElements_cons_ok B _ ctx pdf _ e rest r hr hren, g1]
      simp [List.append_assoc]
    · simp [List.count_append, hcnt.1, g3]
    · simp [List.count_append, hcnt.2, g4]

theorem renderPages_rendered (B : Backend) (ctx : Context) (m : Manager) (pages : List Int)
    (hs : ∀ page ∈ pages, ∀ e ∈ GetPageElements m page, ∀ pdf : List Call,
      ∃ r, GetRenderer NewRegistry e.Typ = .ok r ∧ (r.Render B ctx pdf e).2 = .ok) :
    ∀ pdf : List Call, ∃ segs : List (List (List Call)),
      renderPages B NewRegistry ctx m pdf pages = (pdf ++ pagesCalls segs, .ok) ∧
      PagesRendered B ctx m pdf pages segs ∧ segs.length = pages.length ∧
      (pagesCalls segs).count Call.AddPage = pages.length ∧
      (pagesCalls segs).count Call.Output = 0 := by
  induction pages with
  | nil => exact fun pdf => ⟨[], by simp [renderPages, pagesCalls], trivial, rfl, rfl, rfl⟩
  | cons page rest ih =>
    intro pdf
    obtain ⟨chunks, h1, h2, h3, h4⟩ := renderElements_rendered B ctx (GetPageElements m page)
      (hs page (List.mem_cons_self _ _)) (pdf ++ [Call.AddPage])
    obtain ⟨segs, g1, g2, g3, g4, g5⟩ := ih (fun p hp => hs p (List.mem_cons_of_mem _ hp))
      (pdf ++ [Call.AddPage] ++ chunks.flatten)
    refine ⟨chunks :: segs, ?_, ⟨h2, ?_⟩, by simp [g3], ?_, ?_⟩
    · rw [renderPages_cons_ok B _ ctx m pdf _ page rest h1, g1]
      simp [pagesCalls, List.append_assoc]
    · have : pdf ++ Call.AddPage :: chunks.flatten = pdf ++ [Call.AddPage] ++ chunks.flatten := by
        simp [List.append_assoc]
      rw [this]
      exact g2
    · simp only [pagesCalls, List.map_cons, List.flatten_cons] at g4 ⊢
      rw [List.count_append, g4]
      simp [h3]
      omega
    · simp only [pagesCalls, List.map_cons, List.flatten_cons] at g5 ⊢
      rw [List.count_append, g5]
      simp [h4]

theorem run_stored (els : List Element) :
    ∀ (m : Manager) (p : Int) (e1 : Element), e1 ∈ (run m els).pageElements p →
      e1 ∈ m.pageElements p ∨ ∃ e ∈ els, ∃ x y : ℚ, e1 = setPosition e x y := by
  induction els with
  | nil => exact fun m p e1 h => Or.inl h
  | cons e rest ih =>
    intro m p e1 h
    rw [run_cons] at h
    rcases ih (step m e) p e1 h with h1 | ⟨e0, he0, x, y, hxy⟩
    · rw [step_pageElements] at h1
      split at h1
      · rename_i hp
        rcases List.mem_append.mp h1 with h2 | h2
        · rw [hp]; exact Or.inl h2
        · exact Or.inr ⟨e, List.mem_cons_self _ _, _, _, List.mem_singleton.mp h2⟩
      · exact Or.inl h1
    · exact Or.inr ⟨e0, List.mem_cons_of_mem _ he0, x, y, hxy⟩

theorem calculateLayout_stored (pageSize : Size) (margins : Padding) (els : List Element)
    (p : Int) (e1 : Element)
    (h : e1 ∈ GetPageElements (CalculateLayout (NewManager pageSize margins) els).1 p) :
    ∃ e ∈ els, ∃ x y : ℚ, e1 = setPosition e x y := by
  rcases run_stored els _ p e1 h with h1 | h1
  · simp [NewManager] at h1
  · exact h1

theorem pageNumbers_length (n : Int) : (pageNumbers n).length = n.toNat := by
  simp [pageNumbers]

/-- C23: for a template that passes validation and whose elements all have a
renderer in the registry of NewRegistry that returns nil on them, the calls
that Generate makes on the drawing backend are, for each page 1 ..
TotalPages() in increasing order, one AddPage followed by the calls of the
renderers of that page's elements in placement order, and then one Output at
the very end; so there are exactly TotalPages() AddPage calls and exactly one
Output, and no renderer call comes before the first AddPage. -/
theorem generate_call_sequence (B : Backend) (template : Template) (data : Value)
    (hvalid : (Validate template).2 = none)
    (hren : ∀ e ∈ template.Elements, ∀ (ctx : Context) (pdf : List Call) (x y : ℚ),
      ∃ r, GetRenderer NewRegistry e.Typ = .ok r ∧
        (r.Render B ctx pdf (setPosition e x y)).2 = .ok) :
    ∃ segs : List (List (List Call)),
      (Generate B (New template) data).calls = pagesCalls segs ++ [Call.Output] ∧
      PagesRendered B
        { PageSize := { Width := template.Size.Width, Height := template.Size.Height },
          Margins := defaultMargins }
        (Generate B (New template) data).generator.layout []
        (pageNumbers (TotalPages (Generate B (New template) data).generator.layout)) segs ∧
      (segs.length : Int) = TotalPages (Generate B (New template) data).generator.layout ∧
      ((Generate B (New template) data).calls.count Call.AddPage : Int) =
        TotalPages (Generate B (New template) data).generator.layout ∧
      (Generate B (New template) data).calls.count Call.Output = 1 := by
  obtain ⟨hlayout, hcalls⟩ := generate_valid B template data hvalid
  rw [hlayout, hcalls]
  have hs : ∀ page ∈ pageNumbers (TotalPages
      (CalculateLayout (NewManager template.Size defaultMargins) template.Elements).1),
      ∀ e ∈ GetPageElements
        (CalculateLayout (NewManager template.Size defaultMargins) template.Elements).1 page,
      ∀ pdf : List Call, ∃ r, GetRenderer NewRegistry e.Typ = .ok r ∧
        (r.Render B { PageSize := { Width := template.Size.Width,
                                    Height := template.Size.Height },
                      Margins := defaultMargins } pdf e).2 = .ok := by
    intro page _ e1 he1 pdf
    obtain ⟨e, he, x, y, hxy⟩ := calculateLayout_stored _ _ _ page e1 he1
    rw [hxy]
    exact hren e he _ pdf x y
  obtain ⟨segs, h1, h2, h3, h4, h5⟩ := renderPages_rendered B _ _ _ hs []
  have hone : 1 ≤ TotalPages
      (CalculateLayout (NewManager template.Size defaultMargins) template.Elements).1 :=
    (inv_run _ template.Elements (⟨le_refl _, fun _ _ => rfl⟩ :
      Inv { NewManager template.Size defaultMargins with elements := template.Elements })).one_le
  rw [h1]
  rw [pageNumbers_length] at h3 h4
  refine ⟨segs, by simp, h2, by rw [h3]; omega, ?_, ?_⟩
  · simp only [List.nil_append, if_true, List.count_append, h4]
    simp
    omega
  · simp only [List.nil_append, if_true, List.count_append, h5]
    simp

theorem generate_call_sequence_witness :
    (Validate centeredOnly).2 = none ∧
    (∀ e ∈ centeredOnly.Elements, ∀ (ctx : Context) (pdf : List Call) (x y : ℚ),
      ∃ r, GetRenderer NewRegistry e.Typ = .ok r ∧
        (r.Render sampleBackend ctx pdf (setPosition e x y)).2 = .ok) ∧
    ∃ segs : List (List (List Call)),
      (Generate sampleBackend (New centeredOnly) .null).calls =
        pagesCalls segs ++ [Call.Output] ∧
      PagesRendered sampleBackend
        { PageSize := { Width := centeredOnly.Size.Width, Height := centeredOnly.Size.Height },
          Margins := defaultMargins }
        (Generate sampleBackend (New centeredOnly) .null).generator.layout []
        (pageNumbers (TotalPages (Generate sampleBackend (New centeredOnly)
          .null).generator.layout)) segs ∧
      (segs.length : Int) =
        TotalPages (Generate sampleBackend (New centeredOnly) .null).generator.layout ∧
      ((Generate sampleBackend (New centeredOnly) .null).calls.count Call.AddPage : Int) =
        TotalPages (Generate sampleBackend (New centeredOnly) .null).generator.layout ∧
      (Generate sampleBackend (New centeredOnly) .null).calls.count Call.Output = 1 :=
  have hvalid : (Validate centeredOnly).2 = none := by
    norm_num [Validate, centeredOnly]
    simp
  have hren : ∀ e ∈ centeredOnly.Elements, ∀ (ctx : Context) (pdf : List Call) (x y : ℚ),
      ∃ r, GetRenderer NewRegistry e.Typ = .ok r ∧
        (r.Render sampleBackend ctx pdf (setPosition e x y)).2 = .ok := by
    intro e he ctx pdf x y
    have hE : e = centeredText := by simpa [centeredOnly] using he
    subst hE
    refine ⟨{ Render := TextRenderer.Render }, ?_, ?_⟩
    · simp [GetRenderer, NewRegistry, centeredText, ElementTypeImage, ElementTypeTable,
        ElementTypeText]
    · change (TextRenderer.Render sampleBackend ctx pdf (setPosition centeredText x y)).2 = _
      rw [textRenderer_render_eq sampleBackend ctx pdf (setPosition centeredText x y)
        "CUSTOMER" centeredStyle rfl rfl]
      have hl : SplitLines "CUSTOMER" = ["CUSTOMER"] := by decide
      rw [hl]
      have hfont : ∃ c ∈ pdf ++ textSetup centeredStyle, isSetFont c = true :=
        ⟨Call.SetFont "Arial" "" 14, by simp [textSetup, centeredStyle], rfl⟩
      have hb : firstByte "CUSTOMER" ≠ 0 := by decide!
      simp [textLoop, sampleBackend, hb]
      rw [if_pos hfont]
  ⟨hvalid, hren, generate_call_sequence sampleBackend centeredOnly .null hvalid hren⟩

end generator
